import Mathlib

/-!
Verification development for a repository containing two index structures:
a B+ tree (Bplustree.py) and an extendible hash table (ExtendibleHash.py).
The Python source is embedded shallowly: objects on the heap become entries
of an arena (a list indexed by allocation order), object mutation becomes
functional update of the arena, Python dicts become association lists with
insertion-order semantics, and the pickle files on disk become an
association list from file names to blobs.
-/

/-! ## Python dict model (insertion-ordered association list) -/

/-- Lookup in a Python dict: first (unique) binding of the key. -/
def dictLookup : List (Int × Int) → Int → Option Int
  | [], _ => none
  | p :: ps, k => if p.1 = k then some p.2 else dictLookup ps k

/-- Python dict assignment d[k] = v: replace in place if present, else append. -/
def dictInsert : List (Int × Int) → Int → Int → List (Int × Int)
  | [], k, v => [(k, v)]
  | p :: ps, k, v => if p.1 = k then (k, v) :: ps else p :: dictInsert ps k v

/-! ## The blob store (pickle files on disk) -/

/-- Contents of a pickle file written by the program: either a bucket blob
holding the items dict and the local depth, or the table metadata blob. -/
inductive Blob
  | bucketBlob (items : List (Int × Int)) (local_depth : Nat)
  | metaBlob (global_depth : Nat) (next_bucket_id : Nat)
deriving DecidableEq, Repr

/-- The file system restricted to the pickle files the program touches. -/
abbrev Store := List (String × Blob)

def storeGet : Store → String → Option Blob
  | [], _ => none
  | p :: ps, k => if p.1 = k then some p.2 else storeGet ps k

/-- Writing a file: overwrite if present, create otherwise. -/
def storeSet : Store → String → Blob → Store
  | [], k, b => [(k, b)]
  | p :: ps, k, b => if p.1 = k then (k, b) :: ps else p :: storeSet ps k b

/-- pickle file read by Bucket.__init__: f-string bucket{bucket_id}.pkl. -/
def loadFileName (id : Nat) : String := "bucket" ++ Nat.repr id ++ ".pkl"

/-- pickle file written by Bucket.save: f-string with an underscore,
bucket_{bucket_id}.pkl.  Note this differs from loadFileName. -/
def saveFileName (id : Nat) : String := "bucket_" ++ Nat.repr id ++ ".pkl"

def metaFileName : String := "hash_metadata.pkl"

/-! ## ExtendibleHash.py: Bucket -/

structure Bucket where
  capacity : Nat
  local_depth : Nat
  items : List (Int × Int)
  bucket_id : Option Nat
deriving DecidableEq, Repr, Inhabited

/-- Bucket.__init__: fields are initialised from the arguments and, when a
bucket id is given and the file bucket{id}.pkl exists, the items and local
depth are loaded from it. -/
def Bucket.init (capacity local_depth : Nat) (bucket_id : Option Nat)
    (σ : Store) : Bucket :=
  let b : Bucket := { capacity := capacity, local_depth := local_depth,
                      items := [], bucket_id := bucket_id }
  match bucket_id with
  | none => b
  | some id =>
    match storeGet σ (loadFileName id) with
    | some (Blob.bucketBlob its ld) => { b with items := its, local_depth := ld }
    | _ => b

/-- Bucket.save: dump {items, local_depth} to bucket_{id}.pkl. -/
def Bucket.save (b : Bucket) (σ : Store) : Store :=
  match b.bucket_id with
  | some id => storeSet σ (saveFileName id) (Blob.bucketBlob b.items b.local_depth)
  | none => σ

/-- Bucket.insert: reject a duplicate key, otherwise insert if below
capacity and persist the bucket. -/
def Bucket.insert (b : Bucket) (key value : Int) (σ : Store) :
    Bool × Bucket × Store :=
  if (dictLookup b.items key).isSome then (false, b, σ)
  else if b.items.length < b.capacity then
    let b2 := { b with items := dictInsert b.items key value }
    (true, b2, b2.save σ)
  else (false, b, σ)

/-! ## ExtendibleHash.py: ExtendibleHash -/

structure ExtendibleHash where
  global_depth : Nat
  bucket_capacity : Nat
  directory : List Nat      -- directory slots hold arena indices of buckets
  next_bucket_id : Nat
  buckets : List Bucket     -- the arena: bucket objects, indexed by bucket id
  store : Store
deriving DecidableEq, Repr

/-- save_metadata: dump {global_depth, next_bucket_id} to hash_metadata.pkl. -/
def ExtendibleHash.save_metadata (S : ExtendibleHash) : ExtendibleHash :=
  let σ2 := storeSet S.store metaFileName (Blob.metaBlob S.global_depth S.next_bucket_id)
  { S with store := σ2 }

/-- ExtendibleHash.__init__: directory of size 2^global_depth, one initial
bucket (created with local depth equal to the global depth) referenced by
every slot, then metadata is saved. -/
def ExtendibleHash.init (bucket_capacity global_depth : Nat) (σ : Store) :
    ExtendibleHash :=
  let initial_bucket := Bucket.init bucket_capacity global_depth (some 0) σ
  let S : ExtendibleHash := {
    global_depth := global_depth,
    bucket_capacity := bucket_capacity,
    directory := List.replicate (2 ^ global_depth) 0,
    next_bucket_id := 1,
    buckets := [initial_bucket],
    store := σ }
  S.save_metadata

/-- CPython hash of an int: reduction modulo 2^61 - 1 keeping the sign,
with the special case that a result of -1 becomes -2. -/
def pyHash (n : Int) : Int :=
  let M : Int := 2 ^ 61 - 1
  let h := if 0 ≤ n then n % M else -((-n) % M)
  if h = -1 then -2 else h

/-- hash_function: abs(hash(key)) % 2**32. -/
def ExtendibleHash.hash_function (_S : ExtendibleHash) (key : Int) : Nat :=
  (pyHash key).natAbs % 2 ^ 32

/-- get_directory_index: low global_depth bits of the hash. -/
def ExtendibleHash.get_directory_index (S : ExtendibleHash) (key : Int) : Nat :=
  let mask := (1 <<< S.global_depth) - 1
  S.hash_function key &&& mask

/-- grow_directory: append a copy of the directory onto itself, increment
the global depth, save metadata. -/
def ExtendibleHash.grow_directory (S : ExtendibleHash) : ExtendibleHash :=
  let S2 := { S with global_depth := S.global_depth + 1,
                     directory := S.directory ++ S.directory }
  S2.save_metadata

/-- The redistribution loop at the end of split_bucket: each item is
reinserted into the bucket the directory currently maps its index to. -/
def redistribute : List (Int × Int) → ExtendibleHash → ExtendibleHash
  | [], S => S
  | (key, value) :: rest, S =>
    let dir_index := S.get_directory_index key
    let tgt := S.directory.getD dir_index 0
    let b := S.buckets.getD tgt default
    redistribute rest
      { S with buckets := S.buckets.set tgt { b with items := dictInsert b.items key value } }

/-- split_bucket: grow the directory if the local depth has reached the
global depth, bump the old bucket's local depth, create a sibling bucket,
repoint the directory slots whose newly significant bit is set, clear the
old bucket and redistribute its items, then persist both buckets and the
metadata.  (The source recomputes the local variable index from the first
key of the old bucket after growing; that value is never used afterwards,
so it is not modelled.) -/
def ExtendibleHash.split_bucket (S : ExtendibleHash) (index : Nat) :
    ExtendibleHash :=
  let old_id := S.directory.getD index 0
  let S1 := if (S.buckets.getD old_id default).local_depth ≥ S.global_depth
            then S.grow_directory else S
  let oldb := S1.buckets.getD old_id default
  let newDepth := oldb.local_depth + 1
  let S2 := { S1 with buckets := S1.buckets.set old_id { oldb with local_depth := newDepth } }
  let new_id := S2.next_bucket_id
  let new_bucket := Bucket.init S2.bucket_capacity newDepth (some new_id) S2.store
  let S3 := { S2 with buckets := S2.buckets ++ [new_bucket],
                      next_bucket_id := new_id + 1 }
  let shift := 1 <<< (newDepth - 1)
  let dir2 := (List.range S3.directory.length).map (fun i =>
      let b := S3.directory.getD i 0
      if b = old_id ∧ i &&& shift ≠ 0 then new_id else b)
  let S4 := { S3 with directory := dir2 }
  let items_to_redistribute := (S4.buckets.getD old_id default).items
  let oldb4 := S4.buckets.getD old_id default
  let S5 := { S4 with buckets := S4.buckets.set old_id { oldb4 with items := [] } }
  let S6 := redistribute items_to_redistribute S5
  let S7 := { S6 with store := (S6.buckets.getD old_id default).save S6.store }
  let S8 := { S7 with store := (S7.buckets.getD new_id default).save S7.store }
  S8.save_metadata

/-- The bounded retry loop inside ExtendibleHash.insert (max_attempts=10). -/
def insertLoop (key value : Int) : Nat → ExtendibleHash → Bool × ExtendibleHash
  | 0, S => (false, S)
  | n + 1, S =>
    let index := S.get_directory_index key
    let bid := S.directory.getD index 0
    let bucket := S.buckets.getD bid default
    if (dictLookup bucket.items key).isSome then (false, S)
    else
      match Bucket.insert bucket key value S.store with
      | (true, b2, σ2) => (true, { S with buckets := S.buckets.set bid b2, store := σ2 })
      | (false, _, _) => insertLoop key value n (S.split_bucket index)

/-- ExtendibleHash.insert. -/
def ExtendibleHash.insert (S : ExtendibleHash) (key value : Int) :
    Bool × ExtendibleHash :=
  insertLoop key value 10 S

/-- ExtendibleHash.search. -/
def ExtendibleHash.search (S : ExtendibleHash) (key : Int) : Option Int :=
  let index := S.get_directory_index key
  let bucket := S.buckets.getD (S.directory.getD index 0) default
  dictLookup bucket.items key

/-! ## Bplustree.py

The two Python classes Internal and Leaf share the base class Node; here a
single record carries the union of their attributes (values and pointer are
meaningful only on leaves, children only on internal nodes).  Objects live
in an arena indexed by allocation order. -/

structure Node where
  is_leaf_node : Bool
  keys : List Int
  values : List Int     -- Leaf only
  children : List Nat   -- Internal only, arena indices of the children
  parent : Option Nat
  pointer : Option Nat  -- Leaf only, the next leaf in the chain
deriving DecidableEq, Repr

instance : Inhabited Node := ⟨⟨true, [], [], [], none, none⟩⟩

/-- Node.is_full: len(self.keys) >= 4. -/
def Node.is_full (nd : Node) : Bool := nd.keys.length ≥ 4

structure BPlusTree where
  nodes : List Node
  root : Nat
  leaf_num : Nat
deriving DecidableEq, Repr

def BPlusTree.get (t : BPlusTree) (i : Nat) : Node := t.nodes.getD i default

def BPlusTree.setNode (t : BPlusTree) (i : Nat) (nd : Node) : BPlusTree :=
  { t with nodes := t.nodes.set i nd }

/-- BPlusTree.__init__: the root starts as an empty leaf. -/
def BPlusTree.init : BPlusTree :=
  { nodes := [default], root := 0, leaf_num := 1 }

/-- The descent loop of search and insert:
while position < len(keys) and key >= keys[position]: position += 1.
(The same loop appears verbatim in both methods of the source.) -/
def routePos (key : Int) : List Int → Nat
  | [] => 0
  | k :: ks => if key ≥ k then routePos key ks + 1 else 0

/-- The outer descent: follow children until a leaf is reached.  The fuel
argument only serves termination; it is instantiated with the arena size,
which under well-formedness exceeds the height of the tree. -/
def descend (t : BPlusTree) (key : Int) : Nat → Nat → Nat
  | 0, nid => nid
  | fuel + 1, nid =>
    let node := t.get nid
    if node.is_leaf_node then nid
    else descend t key fuel (node.children.getD (routePos key node.keys) 0)

/-- The linear scan of a leaf in search:
for i, j in enumerate(node.keys): if j == key: return node.values[i]. -/
def scanLeaf (key : Int) : List Int → List Int → Option Int
  | [], _ => none
  | _ :: _, [] => none
  | k :: ks, v :: vs => if k = key then some v else scanLeaf key ks vs

/-- BPlusTree.search. -/
def BPlusTree.search (t : BPlusTree) (key : Int) : Option Int :=
  let nid := descend t key t.nodes.length t.root
  let node := t.get nid
  scanLeaf key node.keys node.values

/-- The position loop of Leaf.insert_key_and_value (strict comparison):
while position < len(keys) and key > keys[position]: position += 1. -/
def leafPos (key : Int) : List Int → Nat
  | [] => 0
  | k :: ks => if key > k then leafPos key ks + 1 else 0

/-- Python list.insert(i, x): insert before index i, clamped to the end. -/
def pyInsertIdx {α : Type} (l : List α) (i : Nat) (x : α) : List α :=
  l.take i ++ x :: l.drop i

/-- Leaf.insert_key_and_value: sorted insert with duplicate rejection;
none models the False return on a duplicate key. -/
def Leaf.insert_key_and_value (keys values : List Int) (key value : Int) :
    Option (List Int × List Int) :=
  let position := leafPos key keys
  if keys.get? position = some key then none
  else some (pyInsertIdx keys position key, pyInsertIdx values position value)

/-- The child-reparenting loop in the internal branch of split_node:
for child in new_node.children: child.parent = new_node. -/
def reparent : BPlusTree → List Nat → Nat → BPlusTree
  | t, [], _ => t
  | t, c :: cs, pid =>
    reparent (t.setNode c { t.get c with parent := some pid }) cs pid

/-- BPlusTree.split_node.  The split of the node itself (leaf or internal
branch), then either the creation of a new root or the insertion of the
promoted key into the existing parent, recursing if the parent now has
more than 4 keys.  Fuel only serves termination of the parent cascade. -/
def BPlusTree.split_node : BPlusTree → Nat → Nat → BPlusTree
  | t, _, 0 => t
  | t, nid, fuel + 1 =>
    let node := t.get nid
    let newId := t.nodes.length
    let mid := node.keys.length / 2
    let step :=
      if node.is_leaf_node then
        let new_node : Node :=
          { is_leaf_node := true, keys := node.keys.drop mid,
            values := node.values.drop mid, children := [], parent := none,
            pointer := node.pointer }
        let node2 :=
          { node with keys := node.keys.take mid,
                      values := node.values.take mid, pointer := some newId }
        let t2 : BPlusTree :=
          { t with nodes := (t.nodes.set nid node2) ++ [new_node],
                   leaf_num := t.leaf_num + 1 }
        (t2, (node.keys.drop mid).headD 0)     -- promoted: new_node.keys[0]
      else
        let new_node : Node :=
          { is_leaf_node := false, keys := node.keys.drop (mid + 1),
            values := [], children := node.children.drop (mid + 1),
            parent := none, pointer := none }
        let node2 :=
          { node with keys := node.keys.take mid,
                      children := node.children.take (mid + 1) }
        let t2 : BPlusTree :=
          { t with nodes := (t.nodes.set nid node2) ++ [new_node] }
        (reparent t2 new_node.children newId, node.keys.getD mid 0)
    let t4 := step.1
    let copied_or_pushed_key := step.2
    match (t4.get nid).parent with
    | none =>
      let rootId := t4.nodes.length
      let new_root : Node :=
        { is_leaf_node := false, keys := [copied_or_pushed_key], values := [],
          children := [nid, newId], parent := none, pointer := none }
      let t5 : BPlusTree := { t4 with nodes := t4.nodes ++ [new_root] }
      let t6 := t5.setNode nid { t5.get nid with parent := some rootId }
      let t7 := t6.setNode newId { t6.get newId with parent := some rootId }
      { t7 with root := rootId }
    | some pid =>
      let parent := t4.get pid
      let position := parent.children.indexOf nid
      let parent2 :=
        { parent with keys := pyInsertIdx parent.keys position copied_or_pushed_key,
                      children := pyInsertIdx parent.children (position + 1) newId }
      let t5 := t4.setNode pid parent2
      let t6 := t5.setNode newId { t5.get newId with parent := some pid }
      if (t6.get pid).keys.length > 4 then BPlusTree.split_node t6 pid fuel else t6

/-- BPlusTree.insert.  A missing value defaults to the key.  The display
flag only prints and is not modelled. -/
def BPlusTree.insert (t : BPlusTree) (key : Int) (vopt : Option Int) :
    Bool × BPlusTree :=
  let value := vopt.getD key
  if (t.get t.root).keys = [] then
    let rootNode := t.get t.root
    let rootNode2 :=
      { rootNode with keys := rootNode.keys ++ [key],
                      values := rootNode.values ++ [value] }
    (true, t.setNode t.root rootNode2)
  else
    let nid := descend t key t.nodes.length t.root
    let node := t.get nid
    match Leaf.insert_key_and_value node.keys node.values key value with
    | none => (false, t)
    | some (ks, vs) =>
      let t2 := t.setNode nid { node with keys := ks, values := vs }
      let t3 := if (t2.get nid).is_full then t2.split_node nid t2.nodes.length else t2
      (true, t3)

/-! ## Bulk loading (both files) -/

/-- One line of a bulk-load text file, as int(line.strip()) sees it:
a well-formed integer line, a blank line, or a malformed line. -/
inductive Line
  | good (n : Int)
  | blank
  | bad
deriving DecidableEq, Repr

/-- BPlusTree.load_from_file: the try/except ValueError wraps the whole for
loop, so the ValueError raised by the first malformed (or blank) line
propagates out of the loop and aborts the remainder of the load. -/
def BPlusTree.load_from_file : BPlusTree → List Line → BPlusTree
  | t, [] => t
  | t, Line.good n :: rest => BPlusTree.load_from_file (t.insert n none).2 rest
  | t, Line.blank :: _ => t
  | t, Line.bad :: _ => t

/-- ExtendibleHash.load_from_file: blank lines are skipped by the explicit
continue; a malformed line raises ValueError inside the per-line try,
is logged, and the loop continues with the next line. -/
def ExtendibleHash.load_from_file : ExtendibleHash → List Line → ExtendibleHash
  | S, [] => S
  | S, Line.good n :: rest => ExtendibleHash.load_from_file (S.insert n n).2 rest
  | S, Line.blank :: rest => ExtendibleHash.load_from_file S rest
  | S, Line.bad :: rest => ExtendibleHash.load_from_file S rest

/-! ## Observations used to state the claims

These definitions are not operations of the source; they read off the parts
of the state the claims talk about (the leaf chain, the well-formed lines
of a bulk-load file, folds of the operations over input sequences). -/

/-- The keys of the leaf chain starting from a given leaf, following the
next-leaf pointer fields. -/
def chainKeys (t : BPlusTree) : Nat → Option Nat → List Int
  | 0, _ => []
  | _, none => []
  | fuel + 1, some nid => (t.get nid).keys ++ chainKeys t fuel (t.get nid).pointer

/-- The leftmost leaf: from the root, always follow the first child. -/
def leftmostLeaf (t : BPlusTree) : Nat → Nat → Nat
  | 0, nid => nid
  | fuel + 1, nid =>
    if (t.get nid).is_leaf_node then nid
    else leftmostLeaf t fuel ((t.get nid).children.getD 0 0)

/-- Traversal of the whole leaf chain from the leftmost leaf. -/
def leafChainKeys (t : BPlusTree) : List Int :=
  chainKeys t t.nodes.length (some (leftmostLeaf t t.nodes.length t.root))

/-- Insert a sequence of (key, value) pairs into a B+ tree. -/
def insertAll (t : BPlusTree) (kvs : List (Int × Int)) : BPlusTree :=
  kvs.foldl (fun t p => (t.insert p.1 (some p.2)).2) t

/-- The well-formed integers of a line list, in order. -/
def goodsOf : List Line → List Int
  | [] => []
  | Line.good n :: rest => n :: goodsOf rest
  | Line.blank :: rest => goodsOf rest
  | Line.bad :: rest => goodsOf rest

/-- The well-formed integers preceding the first blank or malformed line. -/
def goodPrefix : List Line → List Int
  | [] => []
  | Line.good n :: rest => n :: goodPrefix rest
  | Line.blank :: _ => []
  | Line.bad :: _ => []

/-! ## Hash-table invariant and reachability -/

/-- The bucket record at arena index bid. -/
def bucketAt (S : ExtendibleHash) (bid : Nat) : Bucket := S.buckets.getD bid default

/-- The bucket id a directory slot references. -/
def dirAt (S : ExtendibleHash) (i : Nat) : Nat := S.directory.getD i 0

/-- Local depth of the bucket at arena index bid. -/
def ldOf (S : ExtendibleHash) (bid : Nat) : Nat := (bucketAt S bid).local_depth

/-- Items of the bucket at arena index bid. -/
def itemsOf (S : ExtendibleHash) (bid : Nat) : List (Int × Int) := (bucketAt S bid).items

/-- All items stored across all buckets of the table, in arena order. -/
def allItems (S : ExtendibleHash) : List (Int × Int) := (S.buckets.map Bucket.items).flatten

/-- A store holding none of the files Bucket.__init__ reads (in particular
any store written only by this program, which always saves under other
names). -/
def CleanStore (σ : Store) : Prop := ∀ m : Nat, storeGet σ (loadFileName m) = none

/-- The inductive invariant of the extendible hash table, relative to the
construction-time global depth gd0.  Slot ownership is governed by the hash
bits in positions [gd0, local_depth): every bucket owns the directory slots
whose bits in that window match its pattern p.  (Bits below gd0 never
participate, because the initial bucket is created with local depth gd0 and
the split bit is always local_depth - 1.) -/
structure HashInv (gd0 : Nat) (S : ExtendibleHash) : Prop where
  bucketsLen : S.buckets.length = S.next_bucket_id
  dirLen : S.directory.length = 2 ^ S.global_depth
  gdLB : gd0 ≤ S.global_depth
  ldLB : ∀ bid, bid < S.buckets.length → gd0 ≤ ldOf S bid
  ldUB : ∀ bid, bid < S.buckets.length → ldOf S bid ≤ S.global_depth
  dirValid : ∀ i, i < S.directory.length → dirAt S i < S.buckets.length
  pattern : ∀ bid, bid < S.buckets.length → ∃ p, p < 2 ^ (ldOf S bid - gd0) ∧
      ∀ i, i < S.directory.length →
        (dirAt S i = bid ↔ (i / 2 ^ gd0) % 2 ^ (ldOf S bid - gd0) = p)
  placement : ∀ bid, bid < S.buckets.length → ∀ kv, kv ∈ itemsOf S bid →
      dirAt S (S.get_directory_index kv.1) = bid
  keysNodup : ∀ bid, bid < S.buckets.length → ((itemsOf S bid).map Prod.fst).Nodup
  storeClean : CleanStore S.store

/-- The tail of split_bucket after the optional directory growth, copied of
the source so the growth case split can be factored out of the proofs;
split_bucket_eq_splitRest below checks definitional agreement with
split_bucket itself. -/
def splitRest (S1 : ExtendibleHash) (old_id : Nat) : ExtendibleHash :=
  let oldb := S1.buckets.getD old_id default
  let newDepth := oldb.local_depth + 1
  let S2 := { S1 with buckets := S1.buckets.set old_id { oldb with local_depth := newDepth } }
  let new_id := S2.next_bucket_id
  let new_bucket := Bucket.init S2.bucket_capacity newDepth (some new_id) S2.store
  let S3 := { S2 with buckets := S2.buckets ++ [new_bucket],
                      next_bucket_id := new_id + 1 }
  let shift := 1 <<< (newDepth - 1)
  let dir2 := (List.range S3.directory.length).map (fun i =>
      let b := S3.directory.getD i 0
      if b = old_id ∧ i &&& shift ≠ 0 then new_id else b)
  let S4 := { S3 with directory := dir2 }
  let items_to_redistribute := (S4.buckets.getD old_id default).items
  let oldb4 := S4.buckets.getD old_id default
  let S5 := { S4 with buckets := S4.buckets.set old_id { oldb4 with items := [] } }
  let S6 := redistribute items_to_redistribute S5
  let S7 := { S6 with store := (S6.buckets.getD old_id default).save S6.store }
  let S8 := { S7 with store := (S7.buckets.getD new_id default).save S7.store }
  S8.save_metadata

/-- States reachable from a fresh construction over a clean store by any
sequence of inserts. -/
inductive Reachable (c gd0 : Nat) : ExtendibleHash → Prop
  | init (σ : Store) (h : CleanStore σ) : Reachable c gd0 (ExtendibleHash.init c gd0 σ)
  | step (S : ExtendibleHash) (k v : Int) (h : Reachable c gd0 S) :
      Reachable c gd0 (S.insert k v).2
/-! ## B+ tree well-formedness

The invariant of the B+ tree is phrased over forests: the children of an
internal node form a forest separated by that node's keys.  Bounds are
[lo, hi): the lower bound is inclusive (a split promotes the first key of
the right half, which stays in the right half), the upper bound strict. -/

/-- The key is at least the (optional, inclusive) lower bound. -/
def lbLE : Option Int → Int → Prop
  | none, _ => True
  | some a, k => a ≤ k

/-- The key is strictly below the (optional) upper bound. -/
def ubLT : Int → Option Int → Prop
  | _, none => True
  | k, some b => k < b

/-- The separator is strictly above the (optional) lower bound. -/
def lbLT : Option Int → Int → Prop
  | none, _ => True
  | some a, k => a < k

instance : ∀ (lo : Option Int) (k : Int), Decidable (lbLE lo k) := fun lo k =>
  match lo with
  | none => isTrue trivial
  | some a => inferInstanceAs (Decidable (a ≤ k))

instance : ∀ (k : Int) (hi : Option Int), Decidable (ubLT k hi) := fun k hi =>
  match hi with
  | none => isTrue trivial
  | some b => inferInstanceAs (Decidable (k < b))

instance : ∀ (lo : Option Int) (k : Int), Decidable (lbLT lo k) := fun lo k =>
  match lo with
  | none => isTrue trivial
  | some a => inferInstanceAs (Decidable (a < k))

/-- Insertion into a key-sorted association list, before the first key
that is not below the new key. -/
def sortedInsertKV : List (Int × Int) → Int → Int → List (Int × Int)
  | [], key, value => [(key, value)]
  | p :: rest, key, value =>
    if p.1 < key then p :: sortedInsertKV rest key value
    else (key, value) :: p :: rest

/-- The abstract effect of one B+ tree insert on the sorted contents. -/
def absInsert (a : List (Int × Int)) (key value : Int) : List (Int × Int) :=
  if key ∈ a.map Prod.fst then a else sortedInsertKV a key value

/-- The abstract contents after a sequence of inserts. -/
def absOf (inputs : List (Int × Int)) : List (Int × Int) :=
  inputs.foldl (fun a p => absInsert a p.1 p.2) []

/-- The next-leaf pointers link the listed leaves in order, the last one
pointing to q. -/
def chainSeg (t : BPlusTree) : List Nat → Option Nat → Prop
  | [], _ => True
  | [l], q => (t.get l).pointer = q
  | l :: l2 :: rest, q => (t.get l).pointer = some l2 ∧ chainSeg t (l2 :: rest) q

/-- The pointer a chain segment is entered through: the first listed leaf,
or the fallback if the segment is empty. -/
def nextHead (l : List Nat) (q : Option Nat) : Option Nat :=
  match l with
  | [] => q
  | r :: _ => some r

/-- RepF t cs lo seps hi kvs lv ids: the trees rooted at cs form a
well-formed forest in the arena of t, with separators seps between
consecutive trees, covering the key range [lo, hi), storing the ordered
key-value pairs kvs, with leaf ids lv left to right and all node ids in
preorder order ids. -/
inductive RepF (t : BPlusTree) :
    List Nat → Option Int → List Int → Option Int →
    List (Int × Int) → List Nat → List Nat → Prop
  | leaf (nid : Nat) (lo hi : Option Int) (kvs : List (Int × Int))
      (hnid : nid < t.nodes.length)
      (hleaf : (t.get nid).is_leaf_node = true)
      (hkeys : (t.get nid).keys = kvs.map Prod.fst)
      (hvals : (t.get nid).values = kvs.map Prod.snd)
      (hsorted : (kvs.map Prod.fst).Pairwise (· < ·))
      (hbnd : ∀ k ∈ kvs.map Prod.fst, lbLE lo k ∧ ubLT k hi) :
      RepF t [nid] lo [] hi kvs [nid] [nid]
  | node (nid : Nat) (lo hi : Option Int) (cs : List Nat) (seps : List Int)
      (kvs : List (Int × Int)) (lv ids : List Nat)
      (hnid : nid < t.nodes.length)
      (hleaf : (t.get nid).is_leaf_node = false)
      (hkeys : (t.get nid).keys = seps)
      (hne : seps ≠ [])
      (hch : (t.get nid).children = cs)
      (hpar : ∀ c ∈ cs, (t.get c).parent = some nid)
      (hF : RepF t cs lo seps hi kvs lv ids) :
      RepF t [nid] lo [] hi kvs lv (nid :: ids)
  | consF (c : Nat) (cs : List Nat) (lo hi : Option Int) (s : Int) (seps : List Int)
      (kvs1 kvs2 : List (Int × Int)) (lv1 lv2 ids1 ids2 : List Nat)
      (hlos : lbLT lo s) (hshi : ubLT s hi)
      (h1 : RepF t [c] lo [] (some s) kvs1 lv1 ids1)
      (h2 : RepF t cs (some s) seps hi kvs2 lv2 ids2)
      (hcs : cs ≠ []) :
      RepF t (c :: cs) lo (s :: seps) hi (kvs1 ++ kvs2) (lv1 ++ lv2) (ids1 ++ ids2)

/-- A left fragment of a forest: trees cs with a separator after every
tree, covering [lo, lo'). -/
def RepSL (t : BPlusTree) (cs : List Nat) (lo : Option Int) (seps : List Int)
    (lo' : Option Int) (kvs : List (Int × Int)) (lv ids : List Nat) : Prop :=
  (cs = [] ∧ seps = [] ∧ lo' = lo ∧ kvs = [] ∧ lv = [] ∧ ids = []) ∨
  (∃ seps0 s, seps = seps0 ++ [s] ∧ lo' = some s ∧ lbLT lo s ∧
    RepF t cs lo seps0 (some s) kvs lv ids)

/-- A right fragment of a forest: trees cs with a separator before every
tree, covering [hi', hi). -/
def RepSR (t : BPlusTree) (cs : List Nat) (hi' : Option Int) (seps : List Int)
    (hi : Option Int) (kvs : List (Int × Int)) (lv ids : List Nat) : Prop :=
  (cs = [] ∧ seps = [] ∧ hi' = hi ∧ kvs = [] ∧ lv = [] ∧ ids = []) ∨
  (∃ seps1 s, seps = s :: seps1 ∧ hi' = some s ∧ ubLT s hi ∧
    RepF t cs (some s) seps1 hi kvs lv ids)

/-- A node that satisfies its representation conditions except that it
holds one key too many and must be split: a leaf with at least 4 keys or
an internal node with more than 4 keys. -/
def Overfull (t : BPlusTree) (cc : Nat) (lo hi : Option Int)
    (kvs : List (Int × Int)) (lv ids : List Nat) : Prop :=
  cc < t.nodes.length ∧
  (((t.get cc).is_leaf_node = true ∧
      (t.get cc).keys = kvs.map Prod.fst ∧
      (t.get cc).values = kvs.map Prod.snd ∧
      (kvs.map Prod.fst).Pairwise (· < ·) ∧
      (∀ k ∈ kvs.map Prod.fst, lbLE lo k ∧ ubLT k hi) ∧
      4 ≤ kvs.length ∧ lv = [cc] ∧ ids = [cc]) ∨
   (∃ cs seps ids2,
      (t.get cc).is_leaf_node = false ∧
      (t.get cc).keys = seps ∧
      (t.get cc).children = cs ∧
      (∀ c ∈ cs, (t.get c).parent = some cc) ∧
      RepF t cs lo seps hi kvs lv ids2 ∧
      ids = cc :: ids2 ∧
      4 < seps.length))

/-- All fields of two node records agree except possibly the parent. -/
def sameShape (a b : Node) : Prop :=
  a.is_leaf_node = b.is_leaf_node ∧ a.keys = b.keys ∧ a.values = b.values ∧
  a.children = b.children ∧ a.pointer = b.pointer

/-- The first phase of split_node: the split of the node itself (leaf or
internal branch), returning the new tree and the promoted key.  Copied of
the source body of split_node; split_node_succ below checks definitional
agreement. -/
def splitStep (t : BPlusTree) (nid : Nat) : BPlusTree × Int :=
  let node := t.get nid
  let newId := t.nodes.length
  let mid := node.keys.length / 2
  if node.is_leaf_node then
    let new_node : Node :=
      { is_leaf_node := true, keys := node.keys.drop mid,
        values := node.values.drop mid, children := [], parent := none,
        pointer := node.pointer }
    let node2 :=
      { node with keys := node.keys.take mid,
                  values := node.values.take mid, pointer := some newId }
    let t2 : BPlusTree :=
      { t with nodes := (t.nodes.set nid node2) ++ [new_node],
               leaf_num := t.leaf_num + 1 }
    (t2, (node.keys.drop mid).headD 0)
  else
    let new_node : Node :=
      { is_leaf_node := false, keys := node.keys.drop (mid + 1),
        values := [], children := node.children.drop (mid + 1),
        parent := none, pointer := none }
    let node2 :=
      { node with keys := node.keys.take mid,
                  children := node.children.take (mid + 1) }
    let t2 : BPlusTree :=
      { t with nodes := (t.nodes.set nid node2) ++ [new_node] }
    (reparent t2 new_node.children newId, node.keys.getD mid 0)

/-- The new-root tail of split_node. -/
def splitNewRoot (t4 : BPlusTree) (nid newId : Nat) (s : Int) : BPlusTree :=
  let rootId := t4.nodes.length
  let new_root : Node :=
    { is_leaf_node := false, keys := [s], values := [],
      children := [nid, newId], parent := none, pointer := none }
  let t5 : BPlusTree := { t4 with nodes := t4.nodes ++ [new_root] }
  let t6 := t5.setNode nid { t5.get nid with parent := some rootId }
  let t7 := t6.setNode newId { t6.get newId with parent := some rootId }
  { t7 with root := rootId }

/-- The parent-insert tail of split_node. -/
def splitParentIns (t4 : BPlusTree) (nid newId : Nat) (s : Int) (pid fuel : Nat) :
    BPlusTree :=
  let parent := t4.get pid
  let position := parent.children.indexOf nid
  let parent2 :=
    { parent with keys := pyInsertIdx parent.keys position s,
                  children := pyInsertIdx parent.children (position + 1) newId }
  let t5 := t4.setNode pid parent2
  let t6 := t5.setNode newId { t5.get newId with parent := some pid }
  if (t6.get pid).keys.length > 4 then BPlusTree.split_node t6 pid fuel else t6

/-- Global well-formedness of a B+ tree state with sorted contents kvs. -/
def TreeWF (t : BPlusTree) (kvs : List (Int × Int)) : Prop :=
  ∃ lv ids, RepF t [t.root] none [] none kvs lv ids ∧
    ids.Nodup ∧ (t.get t.root).parent = none ∧ chainSeg t lv none

/-- The interface produced by the first phase of split_node on an overfull
node cc: the promoted key s, the contents and representations of the two
halves, and frame conditions on the rest of the arena. -/
def SurgeryOut (t : BPlusTree) (cc : Nat) (lo hi : Option Int)
    (kvs : List (Int × Int)) (lv ids : List Nat) (q : Option Nat) : Prop :=
  ∃ s kvs1 kvs2 lv1 lv2 ids1 ids2,
    (splitStep t cc).2 = s ∧
    RepF (splitStep t cc).1 [cc] lo [] (some s) kvs1 lv1 ids1 ∧
    RepF (splitStep t cc).1 [t.nodes.length] (some s) [] hi kvs2 lv2 ids2 ∧
    kvs = kvs1 ++ kvs2 ∧
    lbLT lo s ∧ ubLT s hi ∧
    (ids1 ++ ids2).Perm (ids ++ [t.nodes.length]) ∧
    chainSeg (splitStep t cc).1 (lv1 ++ lv2) q ∧
    (lv1 ++ lv2).headD 0 = lv.headD 0 ∧
    (∀ j, j < t.nodes.length → j ∉ ids → (splitStep t cc).1.get j = t.get j) ∧
    (splitStep t cc).1.nodes.length = t.nodes.length + 1 ∧
    (splitStep t cc).1.root = t.root ∧
    ((splitStep t cc).1.get cc).parent = (t.get cc).parent ∧
    ((splitStep t cc).1.get t.nodes.length).parent = none

/-- The outcome of pushing one insert into a forest: either the forest is
rebuilt with the new pair in place, or a split is still pending on an
overfull node cc of the forest, the rest of the forest decomposed around
it. -/
def InsOut (t : BPlusTree) (cs : List Nat) (lo : Option Int) (seps : List Int)
    (hi : Option Int) (kvs : List (Int × Int)) (lv ids : List Nat)
    (key value : Int) (q : Option Nat) (sfuel : Nat) (V : BPlusTree) : Prop :=
  (∃ lv2 ids2,
    RepF V cs lo seps hi (sortedInsertKV kvs key value) lv2 ids2 ∧
    ids2.Nodup ∧
    (∀ j ∈ ids2, j ∈ ids ∨ t.nodes.length ≤ j) ∧
    chainSeg V lv2 q ∧
    lv2.headD 0 = lv.headD 0 ∧
    t.nodes.length ≤ V.nodes.length ∧
    V.root = t.root ∧
    (∀ j, j < t.nodes.length → j ∉ ids → V.get j = t.get j) ∧
    (∀ c ∈ cs, (V.get c).parent = (t.get c).parent)) ∨
  (∃ T1 fuel1 cc lo2 hi2 kvsc lvc idsc csL csR sepsL sepsR kvsL kvsR lvL lvR idsL idsR,
    V = BPlusTree.split_node T1 cc fuel1 ∧
    cs = csL ++ cc :: csR ∧
    seps = sepsL ++ sepsR ∧
    RepSL T1 csL lo sepsL lo2 kvsL lvL idsL ∧
    RepSR T1 csR hi2 sepsR hi kvsR lvR idsR ∧
    Overfull T1 cc lo2 hi2 kvsc lvc idsc ∧
    sortedInsertKV kvs key value = kvsL ++ kvsc ++ kvsR ∧
    chainSeg T1 (lvL ++ lvc ++ lvR) q ∧
    (lvL ++ lvc ++ lvR).headD 0 = lv.headD 0 ∧
    (idsL ++ (idsc ++ idsR)).Nodup ∧
    (∀ j ∈ idsL ++ (idsc ++ idsR), j ∈ ids ∨ t.nodes.length ≤ j) ∧
    t.nodes.length ≤ T1.nodes.length ∧
    T1.root = t.root ∧
    (∀ j, j < t.nodes.length → j ∉ ids → T1.get j = t.get j) ∧
    (∀ c ∈ cs, (T1.get c).parent = (t.get c).parent) ∧
    sfuel + 1 ≤ fuel1 + ids.length)

/-! # Theorems -/

/-! ## Helper lemmas for the bulk loaders -/

lemma hash_load_eq_foldl (lines : List Line) (S : ExtendibleHash) :
    ExtendibleHash.load_from_file S lines =
      (goodsOf lines).foldl (fun S2 n => (S2.insert n n).2) S := by
  induction lines generalizing S with
  | nil => rfl
  | cons l rest ih =>
    cases l <;> simp [ExtendibleHash.load_from_file, goodsOf, List.foldl, ih]

lemma tree_load_eq_foldl (lines : List Line) (t : BPlusTree) :
    BPlusTree.load_from_file t lines =
      (goodPrefix lines).foldl (fun t2 n => (t2.insert n none).2) t := by
  induction lines generalizing t with
  | nil => rfl
  | cons l rest ih =>
    cases l <;> simp [BPlusTree.load_from_file, goodPrefix, List.foldl, ih]

/-- C7: Bucket.save writes the blob under bucket_0.pkl while the Bucket
constructor looks it up under bucket0.pkl, so re-creating a bucket with the
same identity loads nothing back: after saving a bucket with id 0 holding
one item into an empty store, re-creating id 0 from the resulting store
yields an empty items dict, and the store indeed holds the saved blob under
the underscore name and nothing under the name the constructor reads. -/
theorem C7_save_load_filename_mismatch :
    (Bucket.init 2 1 (some 0)
        (Bucket.save { Bucket.init 2 1 (some 0) [] with items := [(0, 0)] } [])).items
      = [] ∧
    storeGet (Bucket.save { Bucket.init 2 1 (some 0) [] with items := [(0, 0)] } [])
        (saveFileName 0) = some (Blob.bucketBlob [(0, 0)] 1) ∧
    storeGet (Bucket.save { Bucket.init 2 1 (some 0) [] with items := [(0, 0)] } [])
        (loadFileName 0) = none := by
  decide

/-- C2, counterexample: immediately after construction with the default
parameters (bucket capacity 2, global depth 1) both directory slots
reference the initial bucket, whose local depth is 1, so the number of
slots referencing it is 2 and not 2^(global_depth - local_depth) = 1. -/
theorem C2_counterexample_initial_state :
    (ExtendibleHash.init 2 1 []).directory.getD 0 0 =
      (ExtendibleHash.init 2 1 []).directory.getD 1 0 ∧
    (ExtendibleHash.init 2 1
        []).directory.count ((ExtendibleHash.init 2 1 []).directory.getD 0 0) = 2 ∧
    ((ExtendibleHash.init 2 1 []).buckets.getD
        ((ExtendibleHash.init 2 1 []).directory.getD 0 0) default).local_depth = 1 ∧
    (ExtendibleHash.init 2 1 []).global_depth = 1 ∧
    2 ^ ((ExtendibleHash.init 2 1 []).global_depth -
        ((ExtendibleHash.init 2 1 []).buckets.getD
          ((ExtendibleHash.init 2 1 []).directory.getD 0 0) default).local_depth) = 1 := by
  decide

/-- C4: the capacity-2, global-depth-1 scenario.  The hash function is the
identity on 0, 2, 4; after inserting 0 and 2 a single bucket holds both;
the insert of 4 succeeds by splitting: the directory grows to size 4 and
global depth 2, key 0 redistributes to index 0 and key 2 to index 2, and 4
retries into index 0.  Finally the bucket at index 0 holds exactly
{0, 4}, the bucket at index 2 holds exactly {2}, both at local depth 2. -/
theorem C4_hash_split_scenario :
    (ExtendibleHash.init 2 1 []).hash_function 0 = 0 ∧
    (ExtendibleHash.init 2 1 []).hash_function 2 = 2 ∧
    (ExtendibleHash.init 2 1 []).hash_function 4 = 4 ∧
    ((ExtendibleHash.init 2 1 []).insert 0 0).1 = true ∧
    (((ExtendibleHash.init 2 1 []).insert 0 0).2.insert 2 2).1 = true ∧
    ((((ExtendibleHash.init 2 1 []).insert 0 0).2.insert 2 2).2.directory.length = 2 ∧
     ((((ExtendibleHash.init 2 1 []).insert 0 0).2.insert 2 2).2.buckets.map
        Bucket.items) = [[(0, 0), (2, 2)]]) ∧
    (let F := (((((ExtendibleHash.init 2 1 []).insert 0 0).2.insert 2 2).2.insert 4 4))
     F.1 = true ∧
     F.2.directory.length = 4 ∧
     F.2.global_depth = 2 ∧
     F.2.get_directory_index 0 = 0 ∧
     F.2.get_directory_index 2 = 2 ∧
     F.2.get_directory_index 4 = 0 ∧
     (F.2.buckets.getD (F.2.directory.getD 0 0) default).items = [(0, 0), (4, 4)] ∧
     (F.2.buckets.getD (F.2.directory.getD 2 0) default).items = [(2, 2)] ∧
     (F.2.buckets.getD (F.2.directory.getD 0 0) default).local_depth = 2 ∧
     (F.2.buckets.getD (F.2.directory.getD 2 0) default).local_depth = 2) := by
  decide

/-- C5: inserting 1, 2, 3, 4 into a fresh B+ tree: the first three inserts
leave a single leaf; the fourth fills it to 4 keys and splits it into
leaves [1,2] and [3,4] linked in that order, under a new internal root with
key sequence [3] and exactly those two leaves as children; the leaf chain
reads 1,2,3,4.  A further insert of 5 lands in the [3,4] leaf giving
[3,4,5] and allocates no node (no further split). -/
theorem C5_btree_split_scenario :
    (insertAll BPlusTree.init [(1, 1), (2, 2), (3, 3)]).nodes.length = 1 ∧
    (let t := insertAll BPlusTree.init [(1, 1), (2, 2), (3, 3), (4, 4)]
     t.nodes.length = 3 ∧
     t.leaf_num = 2 ∧
     (t.get t.root).is_leaf_node = false ∧
     (t.get t.root).keys = [3] ∧
     (t.get t.root).children = [0, 1] ∧
     (t.get 0).is_leaf_node = true ∧
     (t.get 0).keys = [1, 2] ∧
     (t.get 1).is_leaf_node = true ∧
     (t.get 1).keys = [3, 4] ∧
     (t.get 0).pointer = some 1 ∧
     (t.get 1).pointer = none ∧
     leafChainKeys t = [1, 2, 3, 4]) ∧
    (let t := insertAll BPlusTree.init [(1, 1), (2, 2), (3, 3), (4, 4)]
     let r := t.insert 5 (some 5)
     r.1 = true ∧
     (r.2.get 1).keys = [3, 4, 5] ∧
     r.2.nodes.length = t.nodes.length ∧
     r.2.leaf_num = t.leaf_num ∧
     leafChainKeys r.2 = [1, 2, 3, 4, 5]) := by
  decide

/-- C8, counterexample: in the B+ tree bulk loader the ValueError handler
wraps the whole loop, so a malformed line aborts the rest of the load: on
the file [good 1, bad, good 2] the well-formed line 2 is never inserted,
although the claim says loading continues and every well-formed line is
inserted. -/
theorem C8_counterexample_tree_loader_stops :
    (BPlusTree.load_from_file BPlusTree.init [Line.good 1, Line.bad, Line.good 2]).search 2
      = none ∧
    (BPlusTree.load_from_file BPlusTree.init [Line.good 1, Line.bad, Line.good 2]).search 1
      = some 1 := by
  decide

/-- C8, amended: the extendible-hash loader skips blank and malformed lines
and continues, so it processes exactly the well-formed lines of the whole
file, in order; the B+ tree loader aborts at the first blank or malformed
line, so it processes exactly the well-formed lines preceding it.  Stated
as equality with the corresponding fold of insert. -/
theorem C8_amended_loader_behaviour (lines : List Line) (S : ExtendibleHash)
    (t : BPlusTree) :
    ExtendibleHash.load_from_file S lines =
      (goodsOf lines).foldl (fun S2 n => (S2.insert n n).2) S ∧
    BPlusTree.load_from_file t lines =
      (goodPrefix lines).foldl (fun t2 n => (t2.insert n none).2) t :=
  ⟨hash_load_eq_foldl lines S, tree_load_eq_foldl lines t⟩

/-! ## Groundwork: decimal numerals, file names, the store -/

lemma digitChar_mem_digits (k : Nat) (hk : k < 10) :
    Nat.digitChar k ∈ (['0','1','2','3','4','5','6','7','8','9'] : List Char) := by
  interval_cases k <;> decide

lemma mem_digits_ne_underscore {c : Char}
    (h : c ∈ (['0','1','2','3','4','5','6','7','8','9'] : List Char)) : c ≠ '_' := by
  fin_cases h <;> decide

/-- toDigitsCore only prepends decimal digit characters to its accumulator,
and prepends at least one when it has fuel. -/
lemma toDigitsCore_shape (f : Nat) : ∀ (n : Nat) (acc : List Char),
    ∃ ds : List Char, Nat.toDigitsCore 10 f n acc = ds ++ acc ∧
      (0 < f → ds ≠ []) ∧
      ∀ c ∈ ds, c ∈ (['0','1','2','3','4','5','6','7','8','9'] : List Char) := by
  induction f with
  | zero =>
    intro n acc
    exact ⟨[], rfl, by simp, by simp⟩
  | succ f ih =>
    intro n acc
    simp only [Nat.toDigitsCore]
    by_cases h : n / 10 = 0
    · refine ⟨[Nat.digitChar (n % 10)], by simp [h], by simp, ?_⟩
      intro c hc
      rw [List.mem_singleton] at hc
      subst hc
      exact digitChar_mem_digits _ (Nat.mod_lt _ (by norm_num))
    · obtain ⟨ds, h1, _, h3⟩ := ih (n / 10) (Nat.digitChar (n % 10) :: acc)
      refine ⟨ds ++ [Nat.digitChar (n % 10)], ?_, by simp, ?_⟩
      · simp only [h, if_false, h1, List.append_assoc, List.singleton_append]
      · intro c hc
        rcases List.mem_append.1 hc with h4 | h4
        · exact h3 c h4
        · rw [List.mem_singleton] at h4
          subst h4
          exact digitChar_mem_digits _ (Nat.mod_lt _ (by norm_num))

/-- The decimal representation of a Nat is nonempty and starts with a
digit character. -/
lemma repr_data_shape (n : Nat) :
    ∃ d ds, (Nat.repr n).data = d :: ds ∧
      d ∈ (['0','1','2','3','4','5','6','7','8','9'] : List Char) := by
  obtain ⟨dsl, h1, h2, h3⟩ := toDigitsCore_shape (n + 1) n []
  have hh : (Nat.repr n).data = Nat.toDigitsCore 10 (n + 1) n [] := rfl
  rw [h1, List.append_nil] at hh
  cases dsl with
  | nil => exact absurd rfl (h2 (Nat.succ_pos n))
  | cons d ds => exact ⟨d, ds, hh, h3 d (List.mem_cons_self d ds)⟩

lemma loadFileName_ne_saveFileName (m n : Nat) : loadFileName m ≠ saveFileName n := by
  intro h
  rw [String.ext_iff] at h
  simp only [loadFileName, saveFileName, String.data_append] at h
  obtain ⟨d, ds, hd, hmem⟩ := repr_data_shape m
  rw [hd] at h
  simp only [List.cons_append, List.nil_append, List.cons.injEq, true_and] at h
  exact mem_digits_ne_underscore hmem h.1

lemma loadFileName_ne_metaFileName (m : Nat) : loadFileName m ≠ metaFileName := by
  intro h
  rw [String.ext_iff] at h
  simp only [loadFileName, metaFileName, String.data_append] at h
  simp only [List.cons_append, List.nil_append, List.cons.injEq] at h
  exact absurd h.1 (by decide)

lemma storeGet_storeSet_ne (σ : Store) (k k2 : String) (b : Blob) (h : k ≠ k2) :
    storeGet (storeSet σ k b) k2 = storeGet σ k2 := by
  induction σ with
  | nil => simp [storeSet, storeGet, h]
  | cons p ps ih =>
    simp only [storeSet]
    by_cases hp : p.1 = k
    · rw [if_pos hp]
      show (if k = k2 then some b else storeGet ps k2)
          = (if p.1 = k2 then some p.2 else storeGet ps k2)
      rw [if_neg h, if_neg (by rw [hp]; exact h)]
    · rw [if_neg hp]
      show (if p.1 = k2 then some p.2 else storeGet (storeSet ps k b) k2)
          = (if p.1 = k2 then some p.2 else storeGet ps k2)
      by_cases hq : p.1 = k2
      · rw [if_pos hq, if_pos hq]
      · rw [if_neg hq, if_neg hq]
        exact ih

lemma cleanStore_storeSet (σ : Store) (k : String) (b : Blob)
    (h : CleanStore σ) (hk : ∀ m, k ≠ loadFileName m) : CleanStore (storeSet σ k b) := by
  intro m
  rw [storeGet_storeSet_ne _ _ _ _ (hk m)]
  exact h m

lemma cleanStore_save (b : Bucket) (σ : Store) (h : CleanStore σ) :
    CleanStore (Bucket.save b σ) := by
  unfold Bucket.save
  cases b.bucket_id with
  | none => exact h
  | some id =>
    exact cleanStore_storeSet _ _ _ h
      (fun m => fun he => loadFileName_ne_saveFileName m id he.symm)

lemma cleanStore_metaSet (σ : Store) (gd nid : Nat) (h : CleanStore σ) :
    CleanStore (storeSet σ metaFileName (Blob.metaBlob gd nid)) :=
  cleanStore_storeSet _ _ _ h
    (fun m => fun he => loadFileName_ne_metaFileName m he.symm)

/-- On a clean store, the Bucket constructor just fills in its arguments. -/
lemma bucket_init_clean (c ld id : Nat) (σ : Store) (h : CleanStore σ) :
    Bucket.init c ld (some id) σ =
      { capacity := c, local_depth := ld, items := [], bucket_id := some id } := by
  simp only [Bucket.init, h id]

/-! ## Groundwork: index arithmetic -/

lemma one_shiftLeft_eq (n : Nat) : 1 <<< n = 2 ^ n := by
  simp [Nat.shiftLeft_eq]

lemma gdi_eq_mod (S : ExtendibleHash) (k : Int) :
    S.get_directory_index k = S.hash_function k % 2 ^ S.global_depth := by
  unfold ExtendibleHash.get_directory_index
  rw [one_shiftLeft_eq, Nat.and_pow_two_sub_one_eq_mod]

lemma gdi_lt (S : ExtendibleHash) (k : Int) :
    S.get_directory_index k < 2 ^ S.global_depth := by
  rw [gdi_eq_mod]
  exact Nat.mod_lt _ (Nat.two_pow_pos _)

lemma and_two_pow_ne_zero_iff (i k : Nat) :
    (i &&& 2 ^ k ≠ 0) ↔ (i / 2 ^ k) % 2 = 1 := by
  have ht : i.testBit k = decide (i / 2 ^ k % 2 = 1) := Nat.testBit_to_div_mod
  rw [Nat.and_two_pow]
  cases h : i.testBit k
  · rw [h] at ht
    have hne : i / 2 ^ k % 2 ≠ 1 := by
      intro hc
      rw [hc] at ht
      simp at ht
    simp [h, hne]
  · rw [h] at ht
    have heq : i / 2 ^ k % 2 = 1 := by simpa using ht.symm
    simp [h, heq, (Nat.two_pow_pos k).ne']

/-! ## Groundwork: counting directory slots -/

lemma count_eq_countP_getD (l : List Nat) (x : Nat) :
    l.count x = (List.range l.length).countP (fun i => decide (l.getD i 0 = x)) := by
  induction l with
  | nil => rfl
  | cons a as ih =>
    rw [List.count_cons, List.length_cons, List.range_succ_eq_map, List.countP_cons,
        List.countP_map, ih]
    have h1 : (List.range as.length).countP
          ((fun i => decide ((a :: as).getD i 0 = x)) ∘ Nat.succ)
        = (List.range as.length).countP (fun i => decide (as.getD i 0 = x)) := by
      apply List.countP_congr
      intro i _
      simp [Function.comp]
    have h2 : (decide ((a :: as).getD 0 0 = x)) = (a == x) := by
      simp only [List.getD_cons_zero]
      cases h : a == x
      · simpa using (by simpa using h : a ≠ x)
      · simpa using (by simpa using h : a = x)
    rw [h1, h2]

lemma countP_range_div (m N : Nat) (hm : 0 < m) (P : Nat → Bool) :
    (List.range (m * N)).countP (fun i => P (i / m)) = m * (List.range N).countP P := by
  induction N with
  | zero => simp
  | succ N ih =>
    rw [Nat.mul_succ, List.range_add, List.countP_append, ih, List.countP_map,
        List.range_succ, List.countP_append]
    have hstep : (List.range m).countP ((fun i => P (i / m)) ∘ (fun x => m * N + x))
        = (List.range m).countP (fun _ => P N) := by
      apply List.countP_congr
      intro i hi
      rw [List.mem_range] at hi
      have hdiv : (m * N + i) / m = N := by
        rw [Nat.mul_add_div hm, Nat.div_eq_of_lt hi]
        omega
      simp [Function.comp, hdiv]
    rw [hstep]
    cases hP : P N
    · simp [hP]
    · simp only [hP, List.countP_true, List.length_range, List.countP_cons,
        List.countP_nil, if_true]
      ring

lemma countP_range_mod (w p N : Nat) (hp : p < w) :
    (List.range (w * N)).countP (fun i => decide (i % w = p)) = N := by
  induction N with
  | zero => simp
  | succ N ih =>
    rw [Nat.mul_succ, List.range_add, List.countP_append, ih, List.countP_map]
    have hstep : (List.range w).countP ((fun i => decide (i % w = p)) ∘ (fun x => w * N + x))
        = (List.range w).countP (fun i => decide (i = p)) := by
      apply List.countP_congr
      intro i hi
      rw [List.mem_range] at hi
      simp [Function.comp, Nat.mul_add_mod, Nat.mod_eq_of_lt hi]
    rw [hstep]
    have hone : (List.range w).countP (fun i => decide (i = p)) = 1 := by
      clear hstep ih
      induction w with
      | zero => omega
      | succ w ihw =>
        rw [List.range_succ, List.countP_append]
        rcases Nat.lt_succ_iff_lt_or_eq.1 hp with h | h
        · rw [ihw h]
          have : w ≠ p := Nat.ne_of_gt h
          simp [this]
        · subst h
          have hz : (List.range p).countP (fun i => decide (i = p)) = 0 := by
            rw [List.countP_eq_zero]
            intro a ha
            rw [List.mem_range] at ha
            simp
            omega
          simp [hz]
    rw [hone]

lemma count_slots (G a w p : Nat) (haw : a + w ≤ G) (hp : p < 2 ^ w) :
    (List.range (2 ^ G)).countP (fun i => decide ((i / 2 ^ a) % 2 ^ w = p))
      = 2 ^ (G - w) := by
  have hG : (2:Nat) ^ G = 2 ^ a * (2 ^ w * 2 ^ (G - a - w)) := by
    rw [← pow_add, ← pow_add]
    congr 1
    omega
  rw [hG, countP_range_div (2 ^ a) (2 ^ w * 2 ^ (G - a - w)) (Nat.two_pow_pos a)
        (fun j => decide (j % 2 ^ w = p)),
      countP_range_mod _ _ _ hp, ← pow_add]
  congr 1
  omega

/-! ## Groundwork: bit windows -/

/-- Reducing modulo 2^G does not change the bit window [a, a+w) when
a + w ≤ G. -/
lemma div_mod_window (i a w G : Nat) (h : a + w ≤ G) :
    (i % 2 ^ G / 2 ^ a) % 2 ^ w = (i / 2 ^ a) % 2 ^ w := by
  conv_rhs => rw [← Nat.div_add_mod i (2 ^ G)]
  have hsplit : (2:Nat) ^ G = 2 ^ a * 2 ^ (G - a) := by
    rw [← pow_add]
    congr 1
    omega
  rw [show 2 ^ G * (i / 2 ^ G) + i % 2 ^ G
        = 2 ^ a * (2 ^ (G - a) * (i / 2 ^ G)) + i % 2 ^ G by rw [hsplit]; ring,
      Nat.mul_add_div (Nat.two_pow_pos a),
      show (2:Nat) ^ (G - a) = 2 ^ w * 2 ^ (G - a - w) by
        rw [← pow_add]; congr 1; omega,
      Nat.mul_assoc, Nat.mul_add_mod]

/-! ## grow_directory preserves the invariant -/

lemma getD_append_self (l : List Nat) (i : Nat) (h : i < l.length + l.length) :
    (l ++ l).getD i 0 = l.getD (i % l.length) 0 := by
  by_cases hi : i < l.length
  · rw [List.getD_append _ _ _ _ hi, Nat.mod_eq_of_lt hi]
  · push_neg at hi
    rw [List.getD_append_right _ _ _ _ hi, Nat.mod_eq_sub_mod hi,
        Nat.mod_eq_of_lt (by omega)]

lemma hashInv_grow (gd0 : Nat) (S : ExtendibleHash) (h : HashInv gd0 S) :
    HashInv gd0 S.grow_directory := by
  have hgd : S.grow_directory.global_depth = S.global_depth + 1 := rfl
  have hdir : S.grow_directory.directory = S.directory ++ S.directory := rfl
  have hbk : S.grow_directory.buckets = S.buckets := rfl
  have hnb : S.grow_directory.next_bucket_id = S.next_bucket_id := rfl
  have hst : S.grow_directory.store
      = storeSet S.store metaFileName
          (Blob.metaBlob (S.global_depth + 1) S.next_bucket_id) := rfl
  have hlen2 : S.grow_directory.directory.length
      = S.directory.length + S.directory.length := by
    rw [hdir, List.length_append]
  have hDA : ∀ i, i < S.grow_directory.directory.length →
      dirAt S.grow_directory i = dirAt S (i % S.directory.length) := by
    intro i hi
    rw [hlen2] at hi
    show (S.grow_directory.directory).getD i 0 = S.directory.getD (i % S.directory.length) 0
    rw [hdir]
    exact getD_append_self _ _ hi
  have hmodlt : ∀ i, i % S.directory.length < S.directory.length := by
    intro i
    apply Nat.mod_lt
    rw [h.dirLen]
    exact Nat.two_pow_pos _
  refine ⟨?_, ?_, ?_, ?_, ?_, ?_, ?_, ?_, ?_, ?_⟩
  · rw [hbk, hnb]
    exact h.bucketsLen
  · rw [hlen2, h.dirLen, hgd]
    ring
  · rw [hgd]
    exact Nat.le_succ_of_le h.gdLB
  · intro bid hb
    rw [hbk] at hb
    exact h.ldLB bid hb
  · intro bid hb
    rw [hbk] at hb
    rw [hgd]
    exact le_trans (h.ldUB bid hb) (Nat.le_succ _)
  · intro i hi
    rw [hDA i hi, hbk]
    exact h.dirValid _ (hmodlt i)
  · intro bid hb
    rw [hbk] at hb
    obtain ⟨p, hp, hiff⟩ := h.pattern bid hb
    have hld : ldOf S.grow_directory bid = ldOf S bid := rfl
    rw [hld]
    refine ⟨p, hp, ?_⟩
    intro i hi
    rw [hDA i hi, hiff _ (hmodlt i)]
    have hw : gd0 + (ldOf S bid - gd0) ≤ S.global_depth := by
      have := h.ldLB bid hb
      have := h.ldUB bid hb
      omega
    have : (i % S.directory.length / 2 ^ gd0) % 2 ^ (ldOf S bid - gd0)
        = (i / 2 ^ gd0) % 2 ^ (ldOf S bid - gd0) := by
      rw [h.dirLen]
      exact div_mod_window i gd0 _ _ hw
    rw [this]
  · intro bid hb kv hkv
    rw [hbk] at hb
    have hlt : S.grow_directory.get_directory_index kv.1
        < S.grow_directory.directory.length := by
      rw [hlen2, h.dirLen]
      have := gdi_lt S.grow_directory kv.1
      rw [hgd] at this
      calc S.grow_directory.get_directory_index kv.1 < 2 ^ (S.global_depth + 1) := this
        _ = 2 ^ S.global_depth + 2 ^ S.global_depth := by ring
    rw [hDA _ hlt]
    have hmod : S.grow_directory.get_directory_index kv.1 % S.directory.length
        = S.get_directory_index kv.1 := by
      rw [gdi_eq_mod, gdi_eq_mod, hgd, h.dirLen]
      have hfun : S.grow_directory.hash_function kv.1 = S.hash_function kv.1 := rfl
      rw [hfun]
      exact Nat.mod_mod_of_dvd _ (pow_dvd_pow 2 (Nat.le_succ _))
    rw [hmod]
    exact h.placement bid hb kv hkv
  · intro bid hb
    rw [hbk] at hb
    exact h.keysNodup bid hb
  · rw [hst]
    exact cleanStore_metaSet _ _ _ h.storeClean

/-! ## Dict and arena access lemmas -/

lemma dictLookup_eq_none_iff (l : List (Int × Int)) (k : Int) :
    dictLookup l k = none ↔ k ∉ l.map Prod.fst := by
  induction l with
  | nil => simp [dictLookup]
  | cons p ps ih =>
    rw [List.map_cons]
    show (if p.1 = k then some p.2 else dictLookup ps k) = none ↔ _
    by_cases h : p.1 = k
    · rw [if_pos h]
      constructor
      · intro hc
        exact absurd hc (by simp)
      · intro hc
        refine absurd ?_ hc
        rw [← h]
        exact List.mem_cons_self _ _
    · rw [if_neg h, ih]
      constructor
      · intro hk hmem
        rcases List.mem_cons.1 hmem with hc | hc
        · exact h hc.symm
        · exact hk hc
      · intro hk hmem
        exact hk (List.mem_cons_of_mem _ hmem)

lemma dictInsert_of_not_mem (l : List (Int × Int)) (k v : Int)
    (h : k ∉ l.map Prod.fst) : dictInsert l k v = l ++ [(k, v)] := by
  induction l with
  | nil => rfl
  | cons p ps ih =>
    simp only [List.map_cons, List.mem_cons, not_or] at h
    simp only [dictInsert]
    rw [if_neg (fun hc => h.1 hc.symm), ih h.2]
    rfl

lemma getD_set_self {α : Type} [Inhabited α] (l : List α) (i : Nat) (a : α)
    (h : i < l.length) : (l.set i a).getD i default = a := by
  rw [List.getD_eq_getElem?_getD, List.getElem?_set_eq h]
  rfl

lemma getD_set_ne {α : Type} [Inhabited α] (l : List α) (i j : Nat) (a : α)
    (h : i ≠ j) : (l.set i a).getD j default = l.getD j default := by
  rw [List.getD_eq_getElem?_getD, List.getElem?_set_ne h, ← List.getD_eq_getElem?_getD]

lemma set_getD_self {α : Type} [Inhabited α] (l : List α) (i : Nat)
    (h : i < l.length) : l.set i (l.getD i default) = l := by
  apply List.ext_getElem?
  intro n
  by_cases hn : i = n
  · subst hn
    rw [List.getElem?_set_eq h, List.getD_eq_getElem?_getD, List.getElem?_eq_getElem h]
    rfl
  · rw [List.getElem?_set_ne hn]

/-! ## Bit-window split lemmas -/

lemma mod_window_succ_zero (x w p : Nat) (hp : p < 2 ^ w) :
    x % 2 ^ (w + 1) = p ↔ (x % 2 ^ w = p ∧ (x / 2 ^ w) % 2 = 0) := by
  have hd : x % 2 ^ (w + 1) = x % 2 ^ w + 2 ^ w * (x / 2 ^ w % 2) := Nat.mod_pow_succ
  have h1 : x % 2 ^ w < 2 ^ w := Nat.mod_lt _ (Nat.two_pow_pos w)
  rcases Nat.mod_two_eq_zero_or_one (x / 2 ^ w) with h2 | h2 <;> rw [h2] at hd <;> omega

lemma mod_window_succ_one (x w p : Nat) (hp : p < 2 ^ w) :
    x % 2 ^ (w + 1) = p + 2 ^ w ↔ (x % 2 ^ w = p ∧ (x / 2 ^ w) % 2 = 1) := by
  have hd : x % 2 ^ (w + 1) = x % 2 ^ w + 2 ^ w * (x / 2 ^ w % 2) := Nat.mod_pow_succ
  have h1 : x % 2 ^ w < 2 ^ w := Nat.mod_lt _ (Nat.two_pow_pos w)
  rcases Nat.mod_two_eq_zero_or_one (x / 2 ^ w) with h2 | h2 <;> rw [h2] at hd <;> omega

lemma bit_window (i gd0 w : Nat) :
    (i / 2 ^ (gd0 + w)) % 2 = (i / 2 ^ gd0 / 2 ^ w) % 2 := by
  rw [Nat.div_div_eq_div_mul, ← pow_add]

/-! ## The redistribution loop, characterised pointwise -/

lemma redistribute_spec (items : List (Int × Int)) (S : ExtendibleHash)
    (hval : ∀ kv ∈ items, dirAt S (S.get_directory_index kv.1) < S.buckets.length)
    (hfresh : ∀ kv ∈ items,
      kv.1 ∉ (itemsOf S (dirAt S (S.get_directory_index kv.1))).map Prod.fst)
    (hnd : (items.map Prod.fst).Nodup) :
    (redistribute items S).global_depth = S.global_depth ∧
    (redistribute items S).bucket_capacity = S.bucket_capacity ∧
    (redistribute items S).directory = S.directory ∧
    (redistribute items S).next_bucket_id = S.next_bucket_id ∧
    (redistribute items S).store = S.store ∧
    (redistribute items S).buckets.length = S.buckets.length ∧
    ∀ bid, bid < S.buckets.length →
      bucketAt (redistribute items S) bid =
        { bucketAt S bid with items := (bucketAt S bid).items ++ items.filter (fun kv => decide (dirAt S (S.get_directory_index kv.1) = bid)) } := by
  induction items generalizing S with
  | nil =>
    refine ⟨rfl, rfl, rfl, rfl, rfl, rfl, ?_⟩
    intro bid hb
    show bucketAt S bid = _
    simp
  | cons kv rest ih =>
    obtain ⟨k, v⟩ := kv
    have ht : dirAt S (S.get_directory_index k) < S.buckets.length :=
      hval (k, v) (List.mem_cons_self _ _)
    have hkf : k ∉ (itemsOf S (dirAt S (S.get_directory_index k))).map Prod.fst :=
      hfresh (k, v) (List.mem_cons_self _ _)
    have hknr : k ∉ rest.map Prod.fst := by
      have := hnd
      rw [List.map_cons, List.nodup_cons] at this
      exact this.1
    set t := dirAt S (S.get_directory_index k) with htdef
    set S2 : ExtendibleHash :=
      { S with buckets := S.buckets.set t { bucketAt S t with items := (bucketAt S t).items ++ [(k, v)] } } with hS2
    have hstep : redistribute ((k, v) :: rest) S = redistribute rest S2 := by
      show redistribute rest _ = redistribute rest S2
      rw [hS2]
      have : dictInsert (bucketAt S t).items k v = (bucketAt S t).items ++ [(k, v)] :=
        dictInsert_of_not_mem _ _ _ hkf
      rw [← this]
      rfl
    have hgdi2 : ∀ x : Int, S2.get_directory_index x = S.get_directory_index x :=
      fun _ => rfl
    have hdirAt2 : ∀ j, dirAt S2 j = dirAt S j := fun _ => rfl
    have hlen2 : S2.buckets.length = S.buckets.length := List.length_set _ _ _
    have hBA2 : ∀ bid, bid < S.buckets.length →
        bucketAt S2 bid = (if bid = t
          then { bucketAt S t with items := (bucketAt S t).items ++ [(k, v)] }
          else bucketAt S bid) := by
      intro bid _
      by_cases hbt : bid = t
      · subst hbt
        rw [if_pos rfl]
        exact getD_set_self _ _ _ ht
      · rw [if_neg hbt]
        exact getD_set_ne _ _ _ _ (fun hc => hbt hc.symm)
    have hval2 : ∀ kv ∈ rest, dirAt S2 (S2.get_directory_index kv.1) < S2.buckets.length := by
      intro kv hkv
      rw [hdirAt2, hgdi2, hlen2]
      exact hval kv (List.mem_cons_of_mem _ hkv)
    have hfresh2 : ∀ kv ∈ rest,
        kv.1 ∉ (itemsOf S2 (dirAt S2 (S2.get_directory_index kv.1))).map Prod.fst := by
      intro kv hkv
      rw [hdirAt2, hgdi2]
      have hv := hval kv (List.mem_cons_of_mem _ hkv)
      have hf := hfresh kv (List.mem_cons_of_mem _ hkv)
      show kv.1 ∉ (bucketAt S2 (dirAt S (S.get_directory_index kv.1))).items.map Prod.fst
      rw [hBA2 _ hv]
      by_cases hc : dirAt S (S.get_directory_index kv.1) = t
      · rw [if_pos hc]
        simp only [List.map_append, List.mem_append]
        intro hmem
        rcases hmem with hmem | hmem
        · rw [hc] at hf
          exact hf hmem
        · simp only [List.map_cons, List.map_nil, List.mem_singleton] at hmem
          apply hknr
          rw [← hmem]
          exact List.mem_map_of_mem Prod.fst hkv
      · rw [if_neg hc]
        exact hf
    have hnd2 : (rest.map Prod.fst).Nodup := by
      have := hnd
      rw [List.map_cons, List.nodup_cons] at this
      exact this.2
    obtain ⟨ih1, ih2, ih3, ih4, ih5, ih6, ih7⟩ := ih S2 hval2 hfresh2 hnd2
    rw [hstep]
    refine ⟨ih1, ih2, ih3, ih4, ih5, by rw [ih6, hlen2], ?_⟩
    intro bid hb
    have hb2 : bid < S2.buckets.length := by rw [hlen2]; exact hb
    have h7 := ih7 bid hb2
    have hpredb : (fun kv : Int × Int => decide (dirAt S2 (S2.get_directory_index kv.1) = bid))
        = (fun kv : Int × Int => decide (dirAt S (S.get_directory_index kv.1) = bid)) := rfl
    rw [hpredb] at h7
    rw [h7, hBA2 bid hb]
    by_cases hbt : bid = t
    · rw [if_pos hbt, hbt]
      have hfc : List.filter (fun kv => decide (dirAt S (S.get_directory_index kv.1) = t))
          ((k, v) :: rest)
          = (k, v) :: List.filter (fun kv =>
              decide (dirAt S (S.get_directory_index kv.1) = t)) rest := by
        rw [List.filter_cons]
        rw [if_pos (by simp [← htdef])]
      rw [hfc]
      simp [List.append_assoc]
    · rw [if_neg hbt]
      have hfc : List.filter (fun kv => decide (dirAt S (S.get_directory_index kv.1) = bid))
          ((k, v) :: rest)
          = List.filter (fun kv =>
              decide (dirAt S (S.get_directory_index kv.1) = bid)) rest := by
        rw [List.filter_cons]
        rw [if_neg (by simp only [← htdef, decide_eq_true_eq]; exact fun hc => hbt hc.symm)]
      rw [hfc]

/-! ## splitRest: the split after the optional growth -/

lemma split_bucket_eq_splitRest (S : ExtendibleHash) (index : Nat) :
    S.split_bucket index =
      splitRest
        (if (S.buckets.getD (S.directory.getD index 0) default).local_depth ≥ S.global_depth
         then S.grow_directory else S)
        (S.directory.getD index 0) := rfl

lemma getD_map_range (n i : Nat) (f : Nat → Nat) (h : i < n) :
    ((List.range n).map f).getD i 0 = f i := by
  rw [List.getD_eq_getElem?_getD, List.getElem?_map, List.getElem?_range h]
  rfl

lemma getD_append_left {α : Type} [Inhabited α] (l1 l2 : List α) (i : Nat)
    (h : i < l1.length) : (l1 ++ l2).getD i default = l1.getD i default :=
  List.getD_append _ _ _ _ h

lemma getD_append_last {α : Type} [Inhabited α] (l : List α) (x : α) :
    (l ++ [x]).getD l.length default = x := by
  rw [List.getD_append_right _ _ _ _ (le_refl _)]
  simp

lemma getD_map_f {α β : Type} [Inhabited α] [Inhabited β] (f : α → β) (l : List α)
    (i : Nat) (h : i < l.length) :
    (l.map f).getD i default = f (l.getD i default) := by
  rw [List.getD_eq_getElem?_getD, List.getElem?_map, List.getElem?_eq_getElem h,
      List.getD_eq_getElem?_getD, List.getElem?_eq_getElem h]
  rfl

lemma list_eq_of_getD {α : Type} [Inhabited α] (l1 l2 : List α)
    (hlen : l1.length = l2.length)
    (h : ∀ i, i < l1.length → l1.getD i default = l2.getD i default) : l1 = l2 := by
  apply List.ext_getElem?
  intro i
  by_cases hi : i < l1.length
  · have hi2 : i < l2.length := by omega
    rw [List.getElem?_eq_getElem hi, List.getElem?_eq_getElem hi2]
    have hd := h i hi
    rw [List.getD_eq_getElem?_getD, List.getD_eq_getElem?_getD,
        List.getElem?_eq_getElem hi, List.getElem?_eq_getElem hi2] at hd
    simpa using hd
  · rw [List.getElem?_eq_none (by omega), List.getElem?_eq_none (by omega)]

lemma splitRest_master (gd0 : Nat) (S1 : ExtendibleHash) (old_id : Nat)
    (h : HashInv gd0 S1) (hold : old_id < S1.buckets.length)
    (hL : (bucketAt S1 old_id).local_depth < S1.global_depth) :
    HashInv gd0 (splitRest S1 old_id) ∧
    (allItems (splitRest S1 old_id)).Perm (allItems S1) := by
  set oldB := bucketAt S1 old_id with holdB
  set L := oldB.local_depth with hLdef
  set w := L - gd0 with hwdef
  set new_id := S1.next_bucket_id with hnid
  have hgd0L : gd0 ≤ L := h.ldLB old_id hold
  have hww : gd0 + w = L := by omega
  have hnew_len : new_id = S1.buckets.length := h.bucketsLen.symm
  have hno : old_id ≠ new_id := by omega
  obtain ⟨p, hp0, hiff0⟩ := h.pattern old_id hold
  have hp : p < 2 ^ w := hp0
  have hiff : ∀ i, i < S1.directory.length →
      (S1.directory.getD i 0 = old_id ↔ (i / 2 ^ gd0) % 2 ^ w = p) := hiff0
  have hnew_eq : Bucket.init S1.bucket_capacity (L + 1) (some new_id) S1.store
      = { capacity := S1.bucket_capacity, local_depth := L + 1, items := [],
          bucket_id := some new_id } :=
    bucket_init_clean _ _ _ _ h.storeClean
  set NB : Bucket := { capacity := S1.bucket_capacity, local_depth := L + 1,
                       items := [], bucket_id := some new_id } with hNB
  set OLDC : Bucket := { oldB with local_depth := L + 1, items := [] } with hOLDC
  set B2 : List Bucket := S1.buckets.set old_id { oldB with local_depth := L + 1 } with hB2
  set dir2 : List Nat := (List.range S1.directory.length).map (fun i =>
      let b := S1.directory.getD i 0
      if b = old_id ∧ i &&& 1 <<< L ≠ 0 then new_id else b) with hdir2
  have hB2len : B2.length = S1.buckets.length := List.length_set _ _ _
  set APP : List Bucket :=
    B2 ++ [Bucket.init S1.bucket_capacity (L + 1) (some new_id) S1.store] with hAPP
  have hB2get : APP.getD old_id default = { oldB with local_depth := L + 1 } := by
    rw [hAPP, getD_append_left _ _ _ (by omega), hB2]
    exact getD_set_self _ _ _ hold
  set S5 : ExtendibleHash := { S1 with directory := dir2, next_bucket_id := new_id + 1, buckets := APP.set old_id { APP.getD old_id default with items := [] } } with hS5
  set ITEMS : List (Int × Int) := (APP.getD old_id default).items with hITEMS
  set RS : ExtendibleHash := redistribute ITEMS S5 with hRS
  have hRbk : (splitRest S1 old_id).buckets = RS.buckets := rfl
  have hRdir : (splitRest S1 old_id).directory = RS.directory := rfl
  have hRgd : (splitRest S1 old_id).global_depth = RS.global_depth := rfl
  have hRnext : (splitRest S1 old_id).next_bucket_id = RS.next_bucket_id := rfl
  have hRstore : (splitRest S1 old_id).store =
      storeSet ((bucketAt RS new_id).save ((bucketAt RS old_id).save RS.store))
        metaFileName (Blob.metaBlob RS.global_depth RS.next_bucket_id) := rfl
  have hITEMSeq : ITEMS = oldB.items := by
    rw [hITEMS, hB2get]
  have hS5bk : S5.buckets = (S1.buckets.set old_id OLDC)
      ++ [Bucket.init S1.bucket_capacity (L + 1) (some new_id) S1.store] := by
    show APP.set old_id _ = _
    rw [hB2get, hAPP, List.set_append_left _ _ (by omega), hB2, List.set_set]
  have hS5len : S5.buckets.length = S1.buckets.length + 1 := by
    rw [hS5bk]
    simp [List.length_set]
  have hS5dirlen : S5.directory.length = 2 ^ S1.global_depth := by
    show dir2.length = _
    rw [hdir2, List.length_map, List.length_range, h.dirLen]
  have hgdi5 : ∀ x : Int, S5.get_directory_index x = S1.get_directory_index x :=
    fun _ => rfl
  have hBA5old : bucketAt S5 old_id = OLDC := by
    show S5.buckets.getD old_id default = OLDC
    rw [hS5bk, getD_append_left _ _ _ (by rw [List.length_set]; omega)]
    exact getD_set_self _ _ _ hold
  have hBA5new : bucketAt S5 new_id = NB := by
    show S5.buckets.getD new_id default = NB
    rw [hS5bk, List.getD_append_right _ _ _ _ (by rw [List.length_set]; omega)]
    have hz : new_id - (S1.buckets.set old_id OLDC).length = 0 := by
      rw [List.length_set]
      omega
    rw [hz]
    exact hnew_eq
  have hBA5other : ∀ bid, bid < S1.buckets.length → bid ≠ old_id →
      bucketAt S5 bid = bucketAt S1 bid := by
    intro bid hb hne
    show S5.buckets.getD bid default = S1.buckets.getD bid default
    rw [hS5bk, getD_append_left _ _ _ (by rw [List.length_set]; omega)]
    exact getD_set_ne _ _ _ _ (fun hc => hne hc.symm)
  have hD2 : ∀ i, i < S1.directory.length →
      dir2.getD i 0 = (if S1.directory.getD i 0 = old_id ∧ i &&& 1 <<< L ≠ 0
        then new_id else S1.directory.getD i 0) := by
    intro i hi
    rw [hdir2, getD_map_range _ _ _ hi]
  have hbitiff : ∀ i : Nat, (i &&& 1 <<< L ≠ 0) ↔ (i / 2 ^ gd0 / 2 ^ w) % 2 = 1 := by
    intro i
    rw [one_shiftLeft_eq, and_two_pow_ne_zero_iff, show L = gd0 + w by omega, bit_window]
  have hOld : ∀ i, i < S1.directory.length →
      (dir2.getD i 0 = old_id ↔ (i / 2 ^ gd0) % 2 ^ (w + 1) = p) := by
    intro i hi
    rw [hD2 i hi, mod_window_succ_zero _ _ _ hp]
    by_cases hc : S1.directory.getD i 0 = old_id
    · by_cases hb : i &&& 1 <<< L ≠ 0
      · rw [if_pos ⟨hc, hb⟩]
        have hb1 := (hbitiff i).1 hb
        constructor
        · intro he
          exact absurd he.symm hno
        · intro hwv
          omega
      · rw [if_neg (fun hand => hb hand.2)]
        have hb0 : (i / 2 ^ gd0 / 2 ^ w) % 2 = 0 := by
          have h2 : ¬ ((i / 2 ^ gd0 / 2 ^ w) % 2 = 1) := fun hx => hb ((hbitiff i).2 hx)
          omega
        have hcw : (i / 2 ^ gd0) % 2 ^ w = p := (hiff i hi).1 hc
        constructor
        · intro _
          exact ⟨hcw, hb0⟩
        · intro _
          exact hc
    · rw [if_neg (fun hand => hc hand.1)]
      constructor
      · intro he
        exact absurd he hc
      · intro hwv
        exact absurd ((hiff i hi).2 hwv.1) hc
  have hNew : ∀ i, i < S1.directory.length →
      (dir2.getD i 0 = new_id ↔ (i / 2 ^ gd0) % 2 ^ (w + 1) = p + 2 ^ w) := by
    intro i hi
    rw [hD2 i hi, mod_window_succ_one _ _ _ hp]
    by_cases hc : S1.directory.getD i 0 = old_id
    · by_cases hb : i &&& 1 <<< L ≠ 0
      · rw [if_pos ⟨hc, hb⟩]
        have hb1 := (hbitiff i).1 hb
        have hcw : (i / 2 ^ gd0) % 2 ^ w = p := (hiff i hi).1 hc
        constructor
        · intro _
          exact ⟨hcw, hb1⟩
        · intro _
          rfl
      · rw [if_neg (fun hand => hb hand.2)]
        have hb0 : (i / 2 ^ gd0 / 2 ^ w) % 2 = 0 := by
          have h2 : ¬ ((i / 2 ^ gd0 / 2 ^ w) % 2 = 1) := fun hx => hb ((hbitiff i).2 hx)
          omega
        constructor
        · intro he
          rw [hc] at he
          exact absurd he hno
        · intro hwv
          omega
    · rw [if_neg (fun hand => hc hand.1)]
      have hlt : S1.directory.getD i 0 < S1.buckets.length := h.dirValid i hi
      constructor
      · intro he
        omega
      · intro hwv
        exact absurd ((hiff i hi).2 hwv.1) hc
  have hOther : ∀ bid, bid ≠ old_id → bid ≠ new_id → ∀ i, i < S1.directory.length →
      (dir2.getD i 0 = bid ↔ S1.directory.getD i 0 = bid) := by
    intro bid hne1 hne2 i hi
    rw [hD2 i hi]
    by_cases hcb : S1.directory.getD i 0 = old_id ∧ i &&& 1 <<< L ≠ 0
    · rw [if_pos hcb]
      constructor
      · intro he
        exact absurd he.symm hne2
      · intro he
        rw [hcb.1] at he
        exact absurd he.symm hne1
    · rw [if_neg hcb]
  have htgt : ∀ kv, kv ∈ oldB.items →
      dirAt S5 (S5.get_directory_index kv.1) = old_id ∨
      dirAt S5 (S5.get_directory_index kv.1) = new_id := by
    intro kv hkv
    have hplc := h.placement old_id hold kv hkv
    have hjlt : S1.get_directory_index kv.1 < S1.directory.length := by
      rw [h.dirLen]
      exact gdi_lt _ _
    rw [hgdi5]
    show dir2.getD (S1.get_directory_index kv.1) 0 = old_id ∨
      dir2.getD (S1.get_directory_index kv.1) 0 = new_id
    rw [hD2 _ hjlt]
    by_cases hb : S1.get_directory_index kv.1 &&& 1 <<< L ≠ 0
    · right
      rw [if_pos ⟨hplc, hb⟩]
    · left
      rw [if_neg (fun hand => hb hand.2)]
      exact hplc
  have hval5 : ∀ kv ∈ ITEMS, dirAt S5 (S5.get_directory_index kv.1) < S5.buckets.length := by
    intro kv hkv
    rw [hITEMSeq] at hkv
    rcases htgt kv hkv with hc | hc <;> rw [hc] <;> omega
  have hfresh5 : ∀ kv ∈ ITEMS,
      kv.1 ∉ (itemsOf S5 (dirAt S5 (S5.get_directory_index kv.1))).map Prod.fst := by
    intro kv hkv
    rw [hITEMSeq] at hkv
    rcases htgt kv hkv with hc | hc <;> rw [hc]
    · show kv.1 ∉ (bucketAt S5 old_id).items.map Prod.fst
      rw [hBA5old, hOLDC]
      simp
    · show kv.1 ∉ (bucketAt S5 new_id).items.map Prod.fst
      rw [hBA5new, hNB]
      simp
  have hnd5 : (ITEMS.map Prod.fst).Nodup := by
    rw [hITEMSeq]
    exact h.keysNodup old_id hold
  obtain ⟨r1, r2, r3, r4, r5, r6, r7⟩ := redistribute_spec ITEMS S5 hval5 hfresh5 hnd5
  rw [← hRS] at r1 r2 r3 r4 r5 r6 r7
  set predOld := fun kv : Int × Int => decide (dirAt S5 (S5.get_directory_index kv.1) = old_id) with hpredOld
  set predNew := fun kv : Int × Int => decide (dirAt S5 (S5.get_directory_index kv.1) = new_id) with hpredNew
  set fO := oldB.items.filter predOld with hfO
  set fN := oldB.items.filter predNew with hfN
  have hRSold : bucketAt RS old_id = { oldB with local_depth := L + 1, items := fO } := by
    rw [r7 old_id (by omega), hBA5old, hITEMSeq, hOLDC]
    rfl
  have hRSnew : bucketAt RS new_id = { capacity := S1.bucket_capacity,
                                       local_depth := L + 1, items := fN,
                                       bucket_id := some new_id } := by
    rw [r7 new_id (by omega), hBA5new, hITEMSeq, hNB]
    rfl
  have hRSother : ∀ bid, bid < S1.buckets.length → bid ≠ old_id →
      bucketAt RS bid = bucketAt S1 bid := by
    intro bid hb hne
    rw [r7 bid (by omega), hBA5other bid hb hne, hITEMSeq]
    have hnil : oldB.items.filter
        (fun kv => decide (dirAt S5 (S5.get_directory_index kv.1) = bid)) = [] := by
      rw [List.filter_eq_nil]
      intro kv hkv
      simp only [decide_eq_true_eq]
      rcases htgt kv hkv with hc | hc <;> rw [hc] <;> omega
    rw [hnil, List.append_nil]
  have hRSlen : RS.buckets.length = S1.buckets.length + 1 := by
    rw [r6, hS5len]
  have hdirAtR : ∀ i : Nat, dirAt (splitRest S1 old_id) i = dir2.getD i 0 := by
    intro i
    show (splitRest S1 old_id).directory.getD i 0 = dir2.getD i 0
    rw [hRdir, r3]
  have hgdR : (splitRest S1 old_id).global_depth = S1.global_depth := by
    rw [hRgd, r1]
  have hdlenR : (splitRest S1 old_id).directory.length = S1.directory.length := by
    rw [hRdir, r3, hS5dirlen, h.dirLen]
  have hgdiR : ∀ x : Int,
      (splitRest S1 old_id).get_directory_index x = S1.get_directory_index x := by
    intro x
    rw [gdi_eq_mod, gdi_eq_mod, hgdR]
    rfl
  have hldR : ∀ bid, bid < S1.buckets.length + 1 →
      (bucketAt RS bid).local_depth
        = (if bid = old_id ∨ bid = new_id then L + 1 else (bucketAt S1 bid).local_depth) := by
    intro bid hb
    by_cases h1 : bid = old_id
    · subst h1
      rw [if_pos (Or.inl rfl), hRSold]
    · by_cases h2 : bid = new_id
      · subst h2
        rw [if_pos (Or.inr rfl), hRSnew]
      · rw [if_neg (by tauto), hRSother bid (by omega) h1]
  have hitemsR : ∀ bid, bid < S1.buckets.length + 1 →
      (bucketAt RS bid).items
        = (if bid = old_id then fO else if bid = new_id then fN
           else (bucketAt S1 bid).items) := by
    intro bid hb
    by_cases h1 : bid = old_id
    · subst h1
      rw [if_pos rfl, hRSold]
    · by_cases h2 : bid = new_id
      · subst h2
        rw [if_neg h1, if_pos rfl, hRSnew]
      · rw [if_neg h1, if_neg h2, hRSother bid (by omega) h1]
  have hbRlen : (splitRest S1 old_id).buckets.length = S1.buckets.length + 1 := by
    rw [hRbk, hRSlen]
  constructor
  · refine ⟨?_, ?_, ?_, ?_, ?_, ?_, ?_, ?_, ?_, ?_⟩
    · rw [hbRlen, hRnext, r4]
      show S1.buckets.length + 1 = new_id + 1
      omega
    · rw [hdlenR, hgdR]
      exact h.dirLen
    · rw [hgdR]
      exact h.gdLB
    · intro bid hb
      rw [hbRlen] at hb
      show gd0 ≤ (bucketAt RS bid).local_depth
      rw [hldR bid hb]
      by_cases hc : bid = old_id ∨ bid = new_id
      · rw [if_pos hc]
        omega
      · rw [if_neg hc]
        push_neg at hc
        exact h.ldLB bid (by omega)
    · intro bid hb
      rw [hbRlen] at hb
      show (bucketAt RS bid).local_depth ≤ (splitRest S1 old_id).global_depth
      rw [hgdR, hldR bid hb]
      by_cases hc : bid = old_id ∨ bid = new_id
      · rw [if_pos hc]
        omega
      · rw [if_neg hc]
        push_neg at hc
        exact h.ldUB bid (by omega)
    · intro i hi
      rw [hdlenR] at hi
      rw [hbRlen, hdirAtR i, hD2 i hi]
      by_cases hc : S1.directory.getD i 0 = old_id ∧ i &&& 1 <<< L ≠ 0
      · rw [if_pos hc]
        omega
      · rw [if_neg hc]
        have h2 : S1.directory.getD i 0 < S1.buckets.length := h.dirValid i hi
        omega
    · intro bid hb
      rw [hbRlen] at hb
      have hldx : ldOf (splitRest S1 old_id) bid
          = (if bid = old_id ∨ bid = new_id then L + 1
             else (bucketAt S1 bid).local_depth) := by
        show (bucketAt RS bid).local_depth = _
        exact hldR bid hb
      rw [hldx]
      by_cases h1 : bid = old_id
      · rw [if_pos (Or.inl h1), show L + 1 - gd0 = w + 1 by omega]
        have h2w : (2:Nat) ^ (w + 1) = 2 ^ w + 2 ^ w := by ring
        refine ⟨p, by omega, ?_⟩
        intro i hi
        rw [hdlenR] at hi
        rw [hdirAtR i, h1]
        exact hOld i hi
      · by_cases h2 : bid = new_id
        · rw [if_pos (Or.inr h2), show L + 1 - gd0 = w + 1 by omega]
          have h2w : (2:Nat) ^ (w + 1) = 2 ^ w + 2 ^ w := by ring
          refine ⟨p + 2 ^ w, by omega, ?_⟩
          intro i hi
          rw [hdlenR] at hi
          rw [hdirAtR i, h2]
          exact hNew i hi
        · rw [if_neg (by tauto)]
          obtain ⟨q, hq, hiq⟩ := h.pattern bid (by omega)
          refine ⟨q, hq, ?_⟩
          intro i hi
          rw [hdlenR] at hi
          rw [hdirAtR i, hOther bid h1 h2 i hi]
          exact hiq i hi
    · intro bid hb kv hkv
      rw [hbRlen] at hb
      have hkv2 : kv ∈ (bucketAt RS bid).items := hkv
      rw [hitemsR bid hb] at hkv2
      show dirAt (splitRest S1 old_id) ((splitRest S1 old_id).get_directory_index kv.1) = bid
      rw [hgdiR, hdirAtR]
      by_cases h1 : bid = old_id
      · rw [h1] at hkv2 ⊢
        rw [if_pos rfl] at hkv2
        have := List.of_mem_filter hkv2
        rw [hpredOld] at this
        simp only [decide_eq_true_eq] at this
        exact this
      · by_cases h2 : bid = new_id
        · rw [h2] at hkv2 ⊢
          rw [if_neg (fun hc => h1 ?_), if_pos rfl] at hkv2
          · have := List.of_mem_filter hkv2
            rw [hpredNew] at this
            simp only [decide_eq_true_eq] at this
            exact this
          · rw [h2]
            exact hc
        · rw [if_neg h1, if_neg h2] at hkv2
          have hplc := h.placement bid (by omega) kv hkv2
          have hjlt : S1.get_directory_index kv.1 < S1.directory.length := by
            rw [h.dirLen]
            exact gdi_lt _ _
          rw [(hOther bid h1 h2 _ hjlt)]
          exact hplc
    · intro bid hb
      rw [hbRlen] at hb
      show ((bucketAt RS bid).items.map Prod.fst).Nodup
      rw [hitemsR bid hb]
      by_cases h1 : bid = old_id
      · rw [if_pos h1]
        exact (h.keysNodup old_id hold).sublist ((List.filter_sublist _).map _)
      · by_cases h2 : bid = new_id
        · rw [if_neg h1, if_pos h2]
          exact (h.keysNodup old_id hold).sublist ((List.filter_sublist _).map _)
        · rw [if_neg h1, if_neg h2]
          exact h.keysNodup bid (by omega)
    · rw [hRstore]
      apply cleanStore_storeSet _ _ _ ?_ (fun m he => loadFileName_ne_metaFileName m he.symm)
      apply cleanStore_save
      apply cleanStore_save
      have hst : RS.store = S1.store := r5
      rw [hst]
      exact h.storeClean
  · -- the combined items are a permutation of the originals
    have hS6list : RS.buckets
        = (S1.buckets.set old_id { oldB with local_depth := L + 1, items := fO })
          ++ [{ capacity := S1.bucket_capacity, local_depth := L + 1, items := fN,
                bucket_id := some new_id }] := by
      apply list_eq_of_getD
      · rw [hRSlen]
        simp [List.length_set]
      · intro i hi
        rw [hRSlen] at hi
        show bucketAt RS i = _
        by_cases h1 : i = old_id
        · subst h1
          rw [hRSold, getD_append_left _ _ _ (by rw [List.length_set]; omega)]
          rw [getD_set_self _ _ _ hold]
        · by_cases h2 : i = new_id
          · subst h2
            rw [hRSnew, List.getD_append_right _ _ _ _ (by rw [List.length_set]; omega)]
            have hz : new_id - (S1.buckets.set old_id { oldB with local_depth := L + 1, items := fO }).length = 0 := by
              rw [List.length_set]
              omega
            rw [hz]
            rfl
          · rw [hRSother i (by omega) h1,
                getD_append_left _ _ _ (by rw [List.length_set]; omega)]
            rw [getD_set_ne _ _ _ _ (fun hc => h1 hc.symm)]
            rfl
    set mapIt := S1.buckets.map Bucket.items with hmapIt
    have hlt_m : old_id < mapIt.length := by
      rw [hmapIt, List.length_map]
      exact hold
    have hallR : allItems (splitRest S1 old_id) = (mapIt.set old_id fO).flatten ++ fN := by
      show ((splitRest S1 old_id).buckets.map Bucket.items).flatten = _
      rw [hRbk, hS6list, List.map_append, List.map_set, List.flatten_append]
      simp [hmapIt]
    have hgetm : mapIt.getD old_id default = oldB.items := by
      rw [hmapIt, getD_map_f _ _ _ hold]
      rfl
    have hsplitIt : mapIt = mapIt.take old_id ++ oldB.items :: mapIt.drop (old_id + 1) := by
      conv_lhs => rw [← set_getD_self mapIt old_id hlt_m]
      rw [List.set_eq_take_cons_drop _ hlt_m, hgetm]
    have hset_decomp : mapIt.set old_id fO
        = mapIt.take old_id ++ fO :: mapIt.drop (old_id + 1) :=
      List.set_eq_take_cons_drop _ hlt_m
    have hallS1 : allItems S1 = (mapIt.take old_id).flatten
        ++ (oldB.items ++ (mapIt.drop (old_id + 1)).flatten) := by
      show (S1.buckets.map Bucket.items).flatten = _
      rw [← hmapIt]
      conv_lhs => rw [hsplitIt]
      rw [List.flatten_append, List.flatten_cons]
    have hpart : (fO ++ fN).Perm oldB.items := by
      have hfNc : fN = oldB.items.filter (fun kv => !(predOld kv)) := by
        rw [hfN]
        apply List.filter_congr
        intro kv hkv
        show predNew kv = !predOld kv
        rw [hpredNew, hpredOld]
        rcases htgt kv hkv with hc | hc
        · simp only [hc]
          simp [hno]
        · simp only [hc]
          have hnn : new_id ≠ old_id := fun he => hno he.symm
          simp [hnn]
      rw [hfNc]
      exact List.filter_append_perm _ _
    rw [hallR, hallS1, hset_decomp, List.flatten_append, List.flatten_cons]
    have step1 : ((mapIt.take old_id).flatten ++ (fO ++ (mapIt.drop (old_id + 1)).flatten)) ++ fN
        = (mapIt.take old_id).flatten ++ (fO ++ ((mapIt.drop (old_id + 1)).flatten ++ fN)) := by
      simp [List.append_assoc]
    rw [step1]
    apply List.Perm.append_left
    have step2 : (fO ++ ((mapIt.drop (old_id + 1)).flatten ++ fN)).Perm
        (fO ++ (fN ++ (mapIt.drop (old_id + 1)).flatten)) :=
      List.Perm.append_left fO List.perm_append_comm
    apply step2.trans
    have step3 : fO ++ (fN ++ (mapIt.drop (old_id + 1)).flatten)
        = (fO ++ fN) ++ (mapIt.drop (old_id + 1)).flatten := by
      simp [List.append_assoc]
    rw [step3]
    exact hpart.append_right _

/-! ## Preservation of the hash invariant by split_bucket and insert -/

lemma hashInv_split_bucket (gd0 : Nat) (S : ExtendibleHash) (index : Nat)
    (h : HashInv gd0 S) (hidx : index < S.directory.length) :
    HashInv gd0 (S.split_bucket index) ∧
    (allItems (S.split_bucket index)).Perm (allItems S) := by
  rw [split_bucket_eq_splitRest]
  have hold : S.directory.getD index 0 < S.buckets.length := h.dirValid index hidx
  by_cases hg : (S.buckets.getD (S.directory.getD index 0) default).local_depth
      ≥ S.global_depth
  · rw [if_pos hg]
    have h1 := hashInv_grow gd0 S h
    have hold1 : S.directory.getD index 0 < S.grow_directory.buckets.length := hold
    have hub : (bucketAt S (S.directory.getD index 0)).local_depth ≤ S.global_depth :=
      h.ldUB _ hold
    have hL1 : (bucketAt S.grow_directory (S.directory.getD index 0)).local_depth
        < S.grow_directory.global_depth := by
      show (bucketAt S (S.directory.getD index 0)).local_depth < S.global_depth + 1
      omega
    exact splitRest_master gd0 S.grow_directory _ h1 hold1 hL1
  · rw [if_neg hg]
    push_neg at hg
    exact splitRest_master gd0 S _ h hold hg

lemma insertLoop_succ (key value : Int) (n : Nat) (S : ExtendibleHash) :
    insertLoop key value (n + 1) S =
      (if (dictLookup (S.buckets.getD
              (S.directory.getD (S.get_directory_index key) 0) default).items key).isSome
       then (false, S)
       else
         match Bucket.insert (S.buckets.getD
             (S.directory.getD (S.get_directory_index key) 0) default) key value S.store with
         | (true, b2, σ2) =>
             (true,
               { S with
                   buckets := S.buckets.set (S.directory.getD (S.get_directory_index key) 0) b2,
                   store := σ2 })
         | (false, _, _) =>
             insertLoop key value n (S.split_bucket (S.get_directory_index key))) := rfl

lemma hashInv_append_item (gd0 : Nat) (S : ExtendibleHash) (key value : Int)
    (h : HashInv gd0 S)
    (hnm : key ∉ (itemsOf S (dirAt S (S.get_directory_index key))).map Prod.fst) :
    HashInv gd0 { S with
      buckets := S.buckets.set (dirAt S (S.get_directory_index key))
        { bucketAt S (dirAt S (S.get_directory_index key)) with
          items := itemsOf S (dirAt S (S.get_directory_index key)) ++ [(key, value)] },
      store := Bucket.save
        { bucketAt S (dirAt S (S.get_directory_index key)) with
          items := itemsOf S (dirAt S (S.get_directory_index key)) ++ [(key, value)] }
        S.store } := by
  set bid := dirAt S (S.get_directory_index key) with hbiddef
  set B2 : Bucket := { bucketAt S bid with items := itemsOf S bid ++ [(key, value)] }
    with hB2def
  set T : ExtendibleHash :=
    { S with buckets := S.buckets.set bid B2, store := Bucket.save B2 S.store } with hTdef
  have hbid0 : dirAt S (S.get_directory_index key) < S.buckets.length :=
    h.dirValid _ (by rw [h.dirLen]; exact gdi_lt S key)
  have hbid : bid < S.buckets.length := hbid0
  have hlenT : T.buckets.length = S.buckets.length := by
    show (S.buckets.set bid B2).length = S.buckets.length
    exact List.length_set _ _ _
  have hld : ∀ b, ldOf T b = ldOf S b := by
    intro b
    by_cases he : b = bid
    · subst he
      show ((S.buckets.set bid B2).getD bid default).local_depth
        = (S.buckets.getD bid default).local_depth
      rw [getD_set_self _ _ _ hbid]
      rfl
    · show ((S.buckets.set bid B2).getD b default).local_depth
        = (S.buckets.getD b default).local_depth
      rw [getD_set_ne _ _ _ _ (Ne.symm he)]
  have hit : ∀ b, b ≠ bid → itemsOf T b = itemsOf S b := by
    intro b he
    show ((S.buckets.set bid B2).getD b default).items = (S.buckets.getD b default).items
    rw [getD_set_ne _ _ _ _ (Ne.symm he)]
  have hitb : itemsOf T bid = itemsOf S bid ++ [(key, value)] := by
    show ((S.buckets.set bid B2).getD bid default).items = _
    rw [getD_set_self _ _ _ hbid]
  refine ⟨?_, ?_, ?_, ?_, ?_, ?_, ?_, ?_, ?_, ?_⟩
  · rw [hlenT]
    exact h.bucketsLen
  · exact h.dirLen
  · exact h.gdLB
  · intro b hb
    rw [hlenT] at hb
    rw [hld b]
    exact h.ldLB b hb
  · intro b hb
    rw [hlenT] at hb
    rw [hld b]
    exact h.ldUB b hb
  · intro i hi
    rw [hlenT]
    have hi' : i < S.directory.length := hi
    exact h.dirValid i hi'
  · intro b hb
    rw [hlenT] at hb
    obtain ⟨p, hp, hiff⟩ := h.pattern b hb
    refine ⟨p, ?_, ?_⟩
    · rw [hld b]
      exact hp
    · intro i hi
      have hi' : i < S.directory.length := hi
      rw [hld b]
      have hdi : dirAt T i = dirAt S i := rfl
      rw [hdi]
      exact hiff i hi'
  · intro b hb kv hkv
    rw [hlenT] at hb
    have hgd : dirAt T (T.get_directory_index kv.1) = dirAt S (S.get_directory_index kv.1) :=
      rfl
    rw [hgd]
    by_cases he : b = bid
    · subst he
      have hkv' : kv ∈ itemsOf S bid ++ [(key, value)] := by
        rw [← hitb]
        exact hkv
      rcases List.mem_append.mp hkv' with hL | hR
      · exact h.placement bid hb kv hL
      · have hkveq : kv = (key, value) := by simpa using hR
        subst hkveq
        exact hbiddef.symm
    · have hkv' : kv ∈ itemsOf S b := by
        rw [← hit b he]
        exact hkv
      exact h.placement b hb kv hkv'
  · intro b hb
    rw [hlenT] at hb
    by_cases he : b = bid
    · subst he
      have hmap : (itemsOf T bid).map Prod.fst = (itemsOf S bid).map Prod.fst ++ [key] := by
        rw [hitb]
        simp
      rw [hmap, List.nodup_append]
      refine ⟨h.keysNodup bid hb, List.nodup_singleton key, ?_⟩
      intro a ha hmem
      rw [List.mem_singleton] at hmem
      subst hmem
      exact hnm ha
    · rw [hit b he]
      exact h.keysNodup b hb
  · exact cleanStore_save _ _ h.storeClean

lemma hashInv_insertLoop (gd0 : Nat) (key value : Int) (n : Nat) (S : ExtendibleHash)
    (h : HashInv gd0 S) : HashInv gd0 (insertLoop key value n S).2 := by
  induction n generalizing S with
  | zero => exact h
  | succ n ih =>
    rw [insertLoop_succ]
    set idx := S.get_directory_index key with hidxdef
    set bid := S.directory.getD idx 0 with hbiddef2
    set bucket := S.buckets.getD bid default with hbucketdef
    have hidx : idx < S.directory.length := by
      rw [h.dirLen]
      exact gdi_lt S key
    by_cases hdup : (dictLookup bucket.items key).isSome
    · rw [if_pos hdup]
      exact h
    · rw [if_neg hdup]
      have hnm : key ∉ bucket.items.map Prod.fst := by
        rw [← dictLookup_eq_none_iff]
        exact Option.not_isSome_iff_eq_none.mp hdup
      rcases hBI : Bucket.insert bucket key value S.store with ⟨tf, b2, σ2⟩
      cases tf with
      | false =>
        show HashInv gd0 (insertLoop key value n (S.split_bucket idx)).2
        exact ih _ (hashInv_split_bucket gd0 S idx h hidx).1
      | true =>
        show HashInv gd0 { S with buckets := S.buckets.set bid b2, store := σ2 }
        unfold Bucket.insert at hBI
        rw [if_neg hdup] at hBI
        by_cases hcap : bucket.items.length < bucket.capacity
        · rw [if_pos hcap] at hBI
          have hb2 : { bucket with items := dictInsert bucket.items key value } = b2 :=
            congrArg (fun x => x.2.1) hBI
          have hσ2 : Bucket.save { bucket with
              items := dictInsert bucket.items key value } S.store = σ2 :=
            congrArg (fun x => x.2.2) hBI
          subst hb2
          subst hσ2
          rw [dictInsert_of_not_mem bucket.items key value hnm]
          exact hashInv_append_item gd0 S key value h hnm
        · rw [if_neg hcap] at hBI
          have hfalse : false = true := congrArg (fun x => x.1) hBI
          simp at hfalse

lemma hashInv_insert (gd0 : Nat) (S : ExtendibleHash) (key value : Int)
    (h : HashInv gd0 S) : HashInv gd0 (S.insert key value).2 :=
  hashInv_insertLoop gd0 key value 10 S h

lemma getD_replicate {α : Type} [Inhabited α] (n i : Nat) (a : α) (h : i < n) :
    (List.replicate n a).getD i default = a := by
  rw [List.getD_eq_getElem?_getD, List.getElem?_replicate]
  simp [h]

lemma hashInv_init (c gd0 : Nat) (σ : Store) (hσ : CleanStore σ) :
    HashInv gd0 (ExtendibleHash.init c gd0 σ) := by
  have hbk : bucketAt (ExtendibleHash.init c gd0 σ) 0 =
      { capacity := c, local_depth := gd0, items := [], bucket_id := some 0 } := by
    have h1 : bucketAt (ExtendibleHash.init c gd0 σ) 0 = Bucket.init c gd0 (some 0) σ := rfl
    rw [h1, bucket_init_clean c gd0 0 σ hσ]
  have hld0 : ldOf (ExtendibleHash.init c gd0 σ) 0 = gd0 := by
    show (bucketAt (ExtendibleHash.init c gd0 σ) 0).local_depth = gd0
    rw [hbk]
  have hit0 : itemsOf (ExtendibleHash.init c gd0 σ) 0 = [] := by
    show (bucketAt (ExtendibleHash.init c gd0 σ) 0).items = []
    rw [hbk]
  have hdlen : (ExtendibleHash.init c gd0 σ).directory.length = 2 ^ gd0 := by
    show (List.replicate (2 ^ gd0) (0 : Nat)).length = 2 ^ gd0
    exact List.length_replicate _ _
  have hdir : ∀ i, i < 2 ^ gd0 → dirAt (ExtendibleHash.init c gd0 σ) i = 0 := by
    intro i hi
    show (List.replicate (2 ^ gd0) (0 : Nat)).getD i 0 = 0
    exact getD_replicate _ _ _ hi
  refine ⟨rfl, hdlen, le_refl _, ?_, ?_, ?_, ?_, ?_, ?_, ?_⟩
  · intro b hb
    have hb1 : b < 1 := hb
    have hb0 : b = 0 := by omega
    subst hb0
    rw [hld0]
  · intro b hb
    have hb1 : b < 1 := hb
    have hb0 : b = 0 := by omega
    subst hb0
    rw [hld0]
    exact Nat.le_refl gd0
  · intro i hi
    have hi' : i < 2 ^ gd0 := by
      rw [hdlen] at hi
      exact hi
    rw [hdir i hi']
    show (0 : Nat) < 1
    omega
  · intro b hb
    have hb1 : b < 1 := hb
    have hb0 : b = 0 := by omega
    subst hb0
    refine ⟨0, ?_, ?_⟩
    · rw [hld0]
      simp
    · intro i hi
      have hi' : i < 2 ^ gd0 := by
        rw [hdlen] at hi
        exact hi
      rw [hdir i hi', hld0, Nat.sub_self, pow_zero, Nat.mod_one]
  · intro b hb kv hkv
    have hb1 : b < 1 := hb
    have hb0 : b = 0 := by omega
    subst hb0
    rw [hit0] at hkv
    exact absurd hkv (List.not_mem_nil kv)
  · intro b hb
    have hb1 : b < 1 := hb
    have hb0 : b = 0 := by omega
    subst hb0
    rw [hit0]
    simp
  · exact cleanStore_metaSet σ gd0 1 hσ

lemma reachable_hashInv (c gd0 : Nat) (S : ExtendibleHash)
    (h : Reachable c gd0 S) : HashInv gd0 S := by
  induction h with
  | init σ hσ => exact hashInv_init c gd0 σ hσ
  | step S k v hR ih => exact hashInv_insert gd0 S k v ih

/-- Under the invariant, the number of directory slots referencing bucket bid
is 2 ^ (global_depth - local_depth + gd0). -/
lemma hashInv_count (gd0 : Nat) (S : ExtendibleHash) (h : HashInv gd0 S)
    (bid : Nat) (hb : bid < S.buckets.length) :
    S.directory.count bid = 2 ^ (S.global_depth - ldOf S bid + gd0) := by
  obtain ⟨p, hp, hiff⟩ := h.pattern bid hb
  have h1 := h.ldLB bid hb
  have h2 := h.ldUB bid hb
  have hcong : (List.range (2 ^ S.global_depth)).countP
        (fun i => decide (S.directory.getD i 0 = bid))
      = (List.range (2 ^ S.global_depth)).countP
        (fun i => decide ((i / 2 ^ gd0) % 2 ^ (ldOf S bid - gd0) = p)) := by
    apply List.countP_congr
    intro i hi
    rw [List.mem_range] at hi
    simp only [decide_eq_true_eq]
    exact hiff i (by rw [h.dirLen]; exact hi)
  rw [count_eq_countP_getD, h.dirLen, hcong,
      count_slots S.global_depth gd0 (ldOf S bid - gd0) p (by omega) hp]
  congr 1
  omega

lemma exists_bucket_of_mem_allItems (S : ExtendibleHash) (kv : Int × Int)
    (h : kv ∈ allItems S) :
    ∃ b, b < S.buckets.length ∧ kv ∈ itemsOf S b := by
  unfold allItems at h
  rw [List.mem_flatten] at h
  obtain ⟨l, hl, hkv⟩ := h
  rw [List.mem_map] at hl
  obtain ⟨bk, hbk, hbl⟩ := hl
  obtain ⟨i, hi, hieq⟩ := List.mem_iff_getElem.mp hbk
  refine ⟨i, hi, ?_⟩
  have hil : itemsOf S i = l := by
    show (S.buckets.getD i default).items = l
    rw [List.getD_eq_getElem?_getD, List.getElem?_eq_getElem hi]
    simp only [Option.getD_some, hieq]
    exact hbl
  rw [hil]
  exact hkv

lemma hash_insert_mem_unchanged (c gd0 : Nat) (S : ExtendibleHash) (k v : Int)
    (hR : Reachable c gd0 S) (hk : k ∈ (allItems S).map Prod.fst) :
    S.insert k v = (false, S) := by
  have h := reachable_hashInv c gd0 S hR
  obtain ⟨kv, hkv, hfst⟩ := List.mem_map.mp hk
  obtain ⟨b, hb, hmem⟩ := exists_bucket_of_mem_allItems S kv hkv
  have hplace : dirAt S (S.get_directory_index kv.1) = b := h.placement b hb kv hmem
  rw [hfst] at hplace
  have hkmem : k ∈ (itemsOf S b).map Prod.fst := by
    rw [List.mem_map]
    exact ⟨kv, hmem, hfst⟩
  have hne : ¬ dictLookup (itemsOf S b) k = none :=
    fun hnone => ((dictLookup_eq_none_iff _ _).mp hnone) hkmem
  have hsome : (dictLookup (itemsOf S b) k).isSome := Option.ne_none_iff_isSome.mp hne
  have hcond : (dictLookup (S.buckets.getD
      (S.directory.getD (S.get_directory_index k) 0) default).items k).isSome := by
    rw [show S.directory.getD (S.get_directory_index k) 0 = b from hplace]
    exact hsome
  show insertLoop k v (9 + 1) S = (false, S)
  rw [insertLoop_succ, if_pos hcond]

/-- C2 (amended): in every reachable state of the extendible hash table,
directory slots referencing the same bucket trivially agree on its local
depth, every local depth is at most the global depth, and the number of
slots referencing a bucket is 2 ^ (global_depth - local_depth + gd0),
where gd0 is the construction-time global depth — not
2 ^ (global_depth - local_depth) as the spec states, because the initial
bucket is created with local depth gd0 and the gd0 low index bits never
discriminate between buckets. -/
theorem C2_amended_slot_count (c gd0 : Nat) (S : ExtendibleHash)
    (h : Reachable c gd0 S) :
    (∀ i j, i < S.directory.length → j < S.directory.length →
        dirAt S i = dirAt S j → ldOf S (dirAt S i) = ldOf S (dirAt S j)) ∧
    ∀ bid, bid < S.buckets.length →
      ldOf S bid ≤ S.global_depth ∧
      S.directory.count bid = 2 ^ (S.global_depth - ldOf S bid + gd0) := by
  have hInv := reachable_hashInv c gd0 S h
  refine ⟨?_, ?_⟩
  · intro i j hi hj hij
    rw [hij]
  · intro bid hb
    exact ⟨hInv.ldUB bid hb, hashInv_count gd0 S hInv bid hb⟩

theorem C2_amended_slot_count_witness :
    ((ExtendibleHash.init 2 1 []).directory.count 0
      = 2 ^ ((ExtendibleHash.init 2 1 []).global_depth
          - ldOf (ExtendibleHash.init 2 1 []) 0 + 1)) ∧
    (ExtendibleHash.init 2 1 []).directory.count 0 = 2 :=
  ⟨((C2_amended_slot_count 2 1 (ExtendibleHash.init 2 1 [])
      (Reachable.init [] (fun _ => rfl))).2 0 (by decide)).2,
   by decide⟩

/-- C10: in every reachable state, split_bucket preserves the combined
key-value items stored across all buckets of the table, as a multiset:
the union of all buckets' items after the call is a permutation of the
union before it. -/
theorem C10_split_preserves_items (c gd0 : Nat) (S : ExtendibleHash) (index : Nat)
    (h : Reachable c gd0 S) (hidx : index < S.directory.length) :
    (allItems (S.split_bucket index)).Perm (allItems S) :=
  (hashInv_split_bucket gd0 S index (reachable_hashInv c gd0 S h) hidx).2

theorem C10_split_preserves_items_witness :
    (allItems ((((ExtendibleHash.init 2 1 []).insert 0 0).2.insert 2 2).2.split_bucket
        0)).Perm
      (allItems (((ExtendibleHash.init 2 1 []).insert 0 0).2.insert 2 2).2) ∧
    allItems (((ExtendibleHash.init 2 1 []).insert 0 0).2.insert 2 2).2 = [(0, 0), (2, 2)] :=
  ⟨C10_split_preserves_items 2 1 (((ExtendibleHash.init 2 1 []).insert 0 0).2.insert 2 2).2 0
      (Reachable.step _ 2 2 (Reachable.step _ 0 0 (Reachable.init [] (fun _ => rfl))))
      (by decide),
   by decide⟩

/-! ## B+ tree: basic arena and list lemmas -/

lemma split_node_succ (t : BPlusTree) (nid fuel : Nat) :
    BPlusTree.split_node t nid (fuel + 1) =
      (match ((splitStep t nid).1.get nid).parent with
       | none => splitNewRoot (splitStep t nid).1 nid t.nodes.length (splitStep t nid).2
       | some pid =>
           splitParentIns (splitStep t nid).1 nid t.nodes.length (splitStep t nid).2
             pid fuel) := rfl

lemma length_setNode (t : BPlusTree) (i : Nat) (nd : Node) :
    (t.setNode i nd).nodes.length = t.nodes.length := List.length_set _ _ _

lemma get_setNode_self (t : BPlusTree) (i : Nat) (nd : Node)
    (h : i < t.nodes.length) : (t.setNode i nd).get i = nd :=
  getD_set_self _ _ _ h

lemma get_setNode_ne (t : BPlusTree) (i j : Nat) (nd : Node)
    (h : i ≠ j) : (t.setNode i nd).get j = t.get j :=
  getD_set_ne _ _ _ _ h

lemma root_setNode (t : BPlusTree) (i : Nat) (nd : Node) :
    (t.setNode i nd).root = t.root := rfl

lemma reparent_length (t : BPlusTree) (cs : List Nat) (pid : Nat) :
    (reparent t cs pid).nodes.length = t.nodes.length := by
  induction cs generalizing t with
  | nil => rfl
  | cons c cs ih => rw [reparent, ih, length_setNode]

lemma reparent_root (t : BPlusTree) (cs : List Nat) (pid : Nat) :
    (reparent t cs pid).root = t.root := by
  induction cs generalizing t with
  | nil => rfl
  | cons c cs ih => rw [reparent, ih, root_setNode]

lemma reparent_get (t : BPlusTree) (cs : List Nat) (pid j : Nat)
    (hlt : ∀ c ∈ cs, c < t.nodes.length) :
    (reparent t cs pid).get j =
      if j ∈ cs then { t.get j with parent := some pid } else t.get j := by
  induction cs generalizing t with
  | nil => simp [reparent]
  | cons c cs ih =>
    rw [reparent]
    have hc : c < t.nodes.length := hlt c (List.mem_cons_self c cs)
    have hlt2 : ∀ x ∈ cs, x < (t.setNode c { t.get c with parent := some pid }).nodes.length := by
      intro x hx
      rw [length_setNode]
      exact hlt x (List.mem_cons_of_mem c hx)
    rw [ih _ hlt2]
    by_cases hjc : j ∈ cs
    · rw [if_pos hjc, if_pos (List.mem_cons_of_mem c hjc)]
      by_cases hje : c = j
      · subst hje
        rw [get_setNode_self _ _ _ hc]
      · rw [get_setNode_ne _ _ _ _ hje]
    · rw [if_neg hjc]
      by_cases hje : c = j
      · subst hje
        rw [if_pos (List.mem_cons_self c cs), get_setNode_self _ _ _ hc]
      · rw [get_setNode_ne _ _ _ _ hje]
        have : ¬ j ∈ c :: cs := by
          intro hmem
          rcases List.mem_cons.mp hmem with h1 | h1
          · exact hje h1.symm
          · exact hjc h1
        rw [if_neg this]

/-! ## B+ tree: sorted association list lemmas -/

lemma sortedInsertKV_map_fst (kvs : List (Int × Int)) (key value : Int) :
    (sortedInsertKV kvs key value).map Prod.fst =
      pyInsertIdx (kvs.map Prod.fst) (leafPos key (kvs.map Prod.fst)) key := by
  induction kvs with
  | nil => rfl
  | cons p rest ih =>
    rw [sortedInsertKV]
    by_cases hp : p.1 < key
    · rw [if_pos hp]
      have hgt : key > p.1 := hp
      simp only [List.map_cons, leafPos, if_pos hgt]
      rw [show pyInsertIdx (p.1 :: rest.map Prod.fst) (leafPos key (rest.map Prod.fst) + 1) key
            = p.1 :: pyInsertIdx (rest.map Prod.fst) (leafPos key (rest.map Prod.fst)) key
          from rfl]
      rw [← ih]
    · rw [if_neg hp]
      have hgt : ¬ key > p.1 := hp
      simp only [List.map_cons, leafPos, if_neg hgt]
      rfl

lemma sortedInsertKV_map_snd (kvs : List (Int × Int)) (key value : Int) :
    (sortedInsertKV kvs key value).map Prod.snd =
      pyInsertIdx (kvs.map Prod.snd) (leafPos key (kvs.map Prod.fst)) value := by
  induction kvs with
  | nil => rfl
  | cons p rest ih =>
    rw [sortedInsertKV]
    by_cases hp : p.1 < key
    · rw [if_pos hp]
      have hgt : key > p.1 := hp
      simp only [List.map_cons, leafPos, if_pos hgt]
      rw [show pyInsertIdx (p.2 :: rest.map Prod.snd) (leafPos key (rest.map Prod.fst) + 1) value
            = p.2 :: pyInsertIdx (rest.map Prod.snd) (leafPos key (rest.map Prod.fst)) value
          from rfl]
      rw [← ih]
    · rw [if_neg hp]
      have hgt : ¬ key > p.1 := hp
      simp only [List.map_cons, leafPos, if_neg hgt]
      rfl

lemma mem_sortedInsertKV_fst (kvs : List (Int × Int)) (key value k : Int) :
    k ∈ (sortedInsertKV kvs key value).map Prod.fst ↔
      k = key ∨ k ∈ kvs.map Prod.fst := by
  induction kvs with
  | nil => simp [sortedInsertKV]
  | cons p rest ih =>
    rw [sortedInsertKV]
    by_cases hp : p.1 < key
    · rw [if_pos hp]
      simp only [List.map_cons, List.mem_cons, ih]
      tauto
    · rw [if_neg hp]
      simp only [List.map_cons, List.mem_cons]

lemma sortedInsertKV_sorted (kvs : List (Int × Int)) (key value : Int)
    (hs : (kvs.map Prod.fst).Pairwise (· < ·)) (hk : key ∉ kvs.map Prod.fst) :
    ((sortedInsertKV kvs key value).map Prod.fst).Pairwise (· < ·) := by
  induction kvs with
  | nil => simp [sortedInsertKV]
  | cons p rest ih =>
    rw [List.map_cons, List.pairwise_cons] at hs
    rw [List.map_cons, List.mem_cons] at hk
    push_neg at hk
    rw [sortedInsertKV]
    by_cases hp : p.1 < key
    · rw [if_pos hp]
      rw [List.map_cons, List.pairwise_cons]
      refine ⟨?_, ih hs.2 hk.2⟩
      intro b hb
      rcases (mem_sortedInsertKV_fst rest key value b).mp hb with h1 | h1
      · subst h1
        exact hp
      · exact hs.1 b h1
    · rw [if_neg hp]
      have hlt : key < p.1 := by
        rcases lt_or_eq_of_le (not_lt.mp hp) with h1 | h1
        · exact h1
        · exact absurd h1 hk.1
      rw [show ((key, value) :: p :: rest).map Prod.fst = key :: p.1 :: rest.map Prod.fst
          from rfl]
      rw [List.pairwise_cons]
      constructor
      · intro b hb
        rcases List.mem_cons.mp hb with h1 | h1
        · omega
        · have := hs.1 b h1
          omega
      · rw [List.pairwise_cons]
        exact hs
    
lemma sortedInsertKV_bounds (kvs : List (Int × Int)) (key value : Int)
    (lo hi : Option Int)
    (hb : ∀ k ∈ kvs.map Prod.fst, lbLE lo k ∧ ubLT k hi)
    (hklo : lbLE lo key) (hkhi : ubLT key hi) :
    ∀ k ∈ (sortedInsertKV kvs key value).map Prod.fst, lbLE lo k ∧ ubLT k hi := by
  intro k hk
  rcases (mem_sortedInsertKV_fst kvs key value k).mp hk with h1 | h1
  · subst h1
    exact ⟨hklo, hkhi⟩
  · exact hb k h1

lemma dictLookup_sortedInsertKV_self (kvs : List (Int × Int)) (key value : Int)
    (hk : key ∉ kvs.map Prod.fst) :
    dictLookup (sortedInsertKV kvs key value) key = some value := by
  induction kvs with
  | nil => simp [sortedInsertKV, dictLookup]
  | cons p rest ih =>
    rw [List.map_cons, List.mem_cons] at hk
    push_neg at hk
    rw [sortedInsertKV]
    by_cases hp : p.1 < key
    · rw [if_pos hp, dictLookup, if_neg (by exact fun he => hk.1 he.symm)]
      exact ih hk.2
    · rw [if_neg hp, dictLookup, if_pos rfl]

lemma dictLookup_sortedInsertKV_other (kvs : List (Int × Int)) (key value k : Int)
    (hk : k ≠ key) :
    dictLookup (sortedInsertKV kvs key value) k = dictLookup kvs k := by
  induction kvs with
  | nil =>
    show (if key = k then some value else dictLookup [] k) = none
    rw [if_neg (fun he : key = k => hk he.symm)]
    rfl
  | cons p rest ih =>
    rw [sortedInsertKV]
    by_cases hp : p.1 < key
    · rw [if_pos hp]
      by_cases hpk : p.1 = k
      · rw [dictLookup, if_pos hpk, dictLookup, if_pos hpk]
      · rw [dictLookup, if_neg hpk, dictLookup, if_neg hpk]
        exact ih
    · rw [if_neg hp, dictLookup, if_neg (by exact fun he => hk he.symm)]

lemma sortedInsertKV_append_left (kvs1 kvs2 : List (Int × Int)) (key value : Int)
    (h : ∀ p ∈ kvs1, p.1 < key) :
    sortedInsertKV (kvs1 ++ kvs2) key value = kvs1 ++ sortedInsertKV kvs2 key value := by
  induction kvs1 with
  | nil => rfl
  | cons p rest ih =>
    rw [List.cons_append, sortedInsertKV,
        if_pos (h p (List.mem_cons_self p rest)), List.cons_append,
        ih (fun x hx => h x (List.mem_cons_of_mem p hx))]

lemma sortedInsertKV_append_right (kvs1 kvs2 : List (Int × Int)) (key value : Int)
    (h : ∀ p ∈ kvs2, ¬ p.1 < key) :
    sortedInsertKV (kvs1 ++ kvs2) key value = sortedInsertKV kvs1 key value ++ kvs2 := by
  induction kvs1 with
  | nil =>
    cases kvs2 with
    | nil => rfl
    | cons p rest =>
      have h2 : ¬ p.1 < key := h p (List.mem_cons_self p rest)
      show sortedInsertKV (p :: rest) key value = [(key, value)] ++ p :: rest
      rw [sortedInsertKV, if_neg h2]
      rfl
  | cons p rest ih =>
    rw [List.cons_append, sortedInsertKV, sortedInsertKV]
    by_cases hp : p.1 < key
    · rw [if_pos hp, if_pos hp, ih, List.cons_append]
    · rw [if_neg hp, if_neg hp]
      rfl

/-! ## B+ tree: leaf-level scan lemmas -/

lemma scanLeaf_eq_dictLookup (kvs : List (Int × Int)) (key : Int) :
    scanLeaf key (kvs.map Prod.fst) (kvs.map Prod.snd) = dictLookup kvs key := by
  induction kvs with
  | nil => rfl
  | cons p rest ih =>
    rw [List.map_cons, List.map_cons, scanLeaf, dictLookup]
    by_cases hp : p.1 = key
    · rw [if_pos hp, if_pos hp]
    · rw [if_neg hp, if_neg hp]
      exact ih

lemma leafPos_dup_iff (keys : List Int) (key : Int)
    (hs : keys.Pairwise (· < ·)) :
    keys.get? (leafPos key keys) = some key ↔ key ∈ keys := by
  induction keys with
  | nil => simp [leafPos]
  | cons k ks ih =>
    rw [List.pairwise_cons] at hs
    rw [leafPos]
    by_cases hgt : key > k
    · rw [if_pos hgt]
      rw [show (k :: ks).get? (leafPos key ks + 1) = ks.get? (leafPos key ks) from rfl]
      rw [ih hs.2, List.mem_cons]
      constructor
      · intro h1
        exact Or.inr h1
      · intro h1
        rcases h1 with h1 | h1
        · omega
        · exact h1
    · rw [if_neg hgt]
      rw [show (k :: ks).get? 0 = some k from rfl, List.mem_cons]
      constructor
      · intro h1
        rw [Option.some.injEq] at h1
        exact Or.inl h1.symm
      · intro h1
        rcases h1 with h1 | h1
        · rw [h1]
        · have := hs.1 key h1
          omega

/-! ## B+ tree: chain segment and bound lemmas -/

lemma chainSeg_append (t : BPlusTree) (A B : List Nat) (q : Option Nat) :
    chainSeg t (A ++ B) q ↔ chainSeg t A (nextHead B q) ∧ chainSeg t B q := by
  induction A with
  | nil => simp [chainSeg]
  | cons a A ih =>
    cases A with
    | nil =>
      cases B with
      | nil => simp [chainSeg, nextHead]
      | cons b B' => simp [chainSeg, nextHead]
    | cons a2 A' =>
      simp only [List.cons_append] at ih ⊢
      rw [show chainSeg t (a :: a2 :: (A' ++ B)) q ↔
            ((t.get a).pointer = some a2 ∧ chainSeg t (a2 :: (A' ++ B)) q) from Iff.rfl]
      rw [ih]
      rw [show chainSeg t (a :: a2 :: A') (nextHead B q) ↔
            ((t.get a).pointer = some a2 ∧ chainSeg t (a2 :: A') (nextHead B q)) from Iff.rfl]
      rw [and_assoc]

lemma ubLT_trans {k s : Int} {hi : Option Int} (h1 : k < s) (h2 : ubLT s hi) :
    ubLT k hi := by
  cases hi with
  | none => trivial
  | some b => exact lt_trans h1 h2

lemma ubLT_of_le {k s : Int} {hi : Option Int} (h1 : k ≤ s) (h2 : ubLT s hi) :
    ubLT k hi := by
  cases hi with
  | none => trivial
  | some b => exact lt_of_le_of_lt h1 h2

lemma lbLT_trans {lo : Option Int} {s k : Int} (h1 : lbLT lo s) (h2 : s < k) :
    lbLT lo k := by
  cases lo with
  | none => trivial
  | some a => exact lt_trans h1 h2

lemma lbLE_of_lbLT_le {lo : Option Int} {s k : Int} (h1 : lbLT lo s) (h2 : s ≤ k) :
    lbLE lo k := by
  cases lo with
  | none => trivial
  | some a => exact le_of_lt (lt_of_lt_of_le h1 h2)

lemma lbLE_of_lbLT {lo : Option Int} {s : Int} (h : lbLT lo s) : lbLE lo s :=
  lbLE_of_lbLT_le h (le_refl s)

lemma getD_mem {α : Type} (l : List α) (i : Nat) (d : α) (h : i < l.length) :
    l.getD i d ∈ l := by
  rw [List.getD_eq_getElem?_getD, List.getElem?_eq_getElem h]
  exact List.getElem_mem h

lemma take_ne_nil {α : Type} (l : List α) (n : Nat) (hl : l ≠ []) (hn : 0 < n) :
    l.take n ≠ [] := by
  cases l with
  | nil => exact absurd rfl hl
  | cons a l' =>
    cases n with
    | zero => omega
    | succ n' => simp

/-! ## B+ tree: structural facts of the representation -/

lemma rep_ids_lt {t : BPlusTree} {cs : List Nat} {lo : Option Int} {seps : List Int}
    {hi : Option Int} {kvs : List (Int × Int)} {lv ids : List Nat}
    (h : RepF t cs lo seps hi kvs lv ids) : ∀ i ∈ ids, i < t.nodes.length := by
  induction h with
  | leaf nid lo hi kvs hnid hleaf hkeys hvals hsorted hbnd =>
    intro i hi2
    rw [List.mem_singleton] at hi2
    subst hi2
    exact hnid
  | node nid lo hi cs seps kvs lv ids hnid hleaf hkeys hne hch hpar hF ih =>
    intro i hi2
    rcases List.mem_cons.mp hi2 with h1 | h1
    · subst h1
      exact hnid
    · exact ih i h1
  | consF c cs lo hi s seps kvs1 kvs2 lv1 lv2 ids1 ids2 hlos hshi h1 h2 hcs ih1 ih2 =>
    intro i hi2
    rcases List.mem_append.mp hi2 with h1 | h1
    · exact ih1 i h1
    · exact ih2 i h1

lemma rep_roots_mem {t : BPlusTree} {cs : List Nat} {lo : Option Int} {seps : List Int}
    {hi : Option Int} {kvs : List (Int × Int)} {lv ids : List Nat}
    (h : RepF t cs lo seps hi kvs lv ids) : ∀ c ∈ cs, c ∈ ids := by
  induction h with
  | leaf nid lo hi kvs hnid hleaf hkeys hvals hsorted hbnd =>
    intro c hc
    exact hc
  | node nid lo hi cs seps kvs lv ids hnid hleaf hkeys hne hch hpar hF ih =>
    intro c hc
    rw [List.mem_singleton] at hc
    subst hc
    exact List.mem_cons_self c ids
  | consF c cs lo hi s seps kvs1 kvs2 lv1 lv2 ids1 ids2 hlos hshi h1 h2 hcs ih1 ih2 =>
    intro x hx
    rcases List.mem_cons.mp hx with h1' | h1'
    · subst h1'
      exact List.mem_append_left _ (ih1 x (List.mem_singleton_self x))
    · exact List.mem_append_right _ (ih2 x h1')

lemma rep_lv_sublist {t : BPlusTree} {cs : List Nat} {lo : Option Int} {seps : List Int}
    {hi : Option Int} {kvs : List (Int × Int)} {lv ids : List Nat}
    (h : RepF t cs lo seps hi kvs lv ids) : lv.Sublist ids := by
  induction h with
  | leaf nid lo hi kvs hnid hleaf hkeys hvals hsorted hbnd =>
    exact List.Sublist.refl _
  | node nid lo hi cs seps kvs lv ids hnid hleaf hkeys hne hch hpar hF ih =>
    exact ih.cons nid
  | consF c cs lo hi s seps kvs1 kvs2 lv1 lv2 ids1 ids2 hlos hshi h1 h2 hcs ih1 ih2 =>
    exact ih1.append ih2

lemma rep_lv_ne {t : BPlusTree} {cs : List Nat} {lo : Option Int} {seps : List Int}
    {hi : Option Int} {kvs : List (Int × Int)} {lv ids : List Nat}
    (h : RepF t cs lo seps hi kvs lv ids) : lv ≠ [] := by
  induction h with
  | leaf nid lo hi kvs hnid hleaf hkeys hvals hsorted hbnd => simp
  | node nid lo hi cs seps kvs lv ids hnid hleaf hkeys hne hch hpar hF ih => exact ih
  | consF c cs lo hi s seps kvs1 kvs2 lv1 lv2 ids1 ids2 hlos hshi h1 h2 hcs ih1 ih2 =>
    intro he
    exact ih1 (List.append_eq_nil.mp he).1

lemma rep_kvs_bounds {t : BPlusTree} {cs : List Nat} {lo : Option Int} {seps : List Int}
    {hi : Option Int} {kvs : List (Int × Int)} {lv ids : List Nat}
    (h : RepF t cs lo seps hi kvs lv ids) :
    ∀ k ∈ kvs.map Prod.fst, lbLE lo k ∧ ubLT k hi := by
  induction h with
  | leaf nid lo hi kvs hnid hleaf hkeys hvals hsorted hbnd => exact hbnd
  | node nid lo hi cs seps kvs lv ids hnid hleaf hkeys hne hch hpar hF ih => exact ih
  | consF c cs lo hi s seps kvs1 kvs2 lv1 lv2 ids1 ids2 hlos hshi h1 h2 hcs ih1 ih2 =>
    intro k hk
    rw [List.map_append, List.mem_append] at hk
    rcases hk with hk | hk
    · obtain ⟨hk1, hk2⟩ := ih1 k hk
      exact ⟨hk1, ubLT_trans hk2 hshi⟩
    · obtain ⟨hk1, hk2⟩ := ih2 k hk
      exact ⟨lbLE_of_lbLT_le hlos hk1, hk2⟩

lemma rep_kvs_sorted {t : BPlusTree} {cs : List Nat} {lo : Option Int} {seps : List Int}
    {hi : Option Int} {kvs : List (Int × Int)} {lv ids : List Nat}
    (h : RepF t cs lo seps hi kvs lv ids) :
    (kvs.map Prod.fst).Pairwise (· < ·) := by
  induction h with
  | leaf nid lo hi kvs hnid hleaf hkeys hvals hsorted hbnd => exact hsorted
  | node nid lo hi cs seps kvs lv ids hnid hleaf hkeys hne hch hpar hF ih => exact ih
  | consF c cs lo hi s seps kvs1 kvs2 lv1 lv2 ids1 ids2 hlos hshi h1 h2 hcs ih1 ih2 =>
    rw [List.map_append, List.pairwise_append]
    refine ⟨ih1, ih2, ?_⟩
    intro a ha b hb
    have ha2 := (rep_kvs_bounds h1 a ha).2
    have hb2 := (rep_kvs_bounds h2 b hb).1
    have h3 : a < s := ha2
    have h4 : s ≤ b := hb2
    omega

lemma rep_seps_bounds {t : BPlusTree} {cs : List Nat} {lo : Option Int} {seps : List Int}
    {hi : Option Int} {kvs : List (Int × Int)} {lv ids : List Nat}
    (h : RepF t cs lo seps hi kvs lv ids) :
    ∀ x ∈ seps, lbLT lo x ∧ ubLT x hi := by
  induction h with
  | leaf nid lo hi kvs hnid hleaf hkeys hvals hsorted hbnd => simp
  | node nid lo hi cs seps kvs lv ids hnid hleaf hkeys hne hch hpar hF ih => simp
  | consF c cs lo hi s seps kvs1 kvs2 lv1 lv2 ids1 ids2 hlos hshi h1 h2 hcs ih1 ih2 =>
    intro x hx
    rcases List.mem_cons.mp hx with h1' | h1'
    · subst h1'
      exact ⟨hlos, hshi⟩
    · obtain ⟨hx1, hx2⟩ := ih2 x h1'
      have : s < x := hx1
      exact ⟨lbLT_trans hlos this, hx2⟩

lemma rep_frame {t t2 : BPlusTree} {cs : List Nat} {lo : Option Int} {seps : List Int}
    {hi : Option Int} {kvs : List (Int × Int)} {lv ids : List Nat}
    (h : RepF t cs lo seps hi kvs lv ids) :
    t.nodes.length ≤ t2.nodes.length →
    ids.Nodup →
    (∀ j ∈ ids, sameShape (t2.get j) (t.get j)) →
    (∀ j ∈ ids, j ∉ cs → (t2.get j).parent = (t.get j).parent) →
    RepF t2 cs lo seps hi kvs lv ids := by
  induction h with
  | leaf nid lo hi kvs hnid hleaf hkeys hvals hsorted hbnd =>
    intro hlen hnd hshape hparpres
    obtain ⟨hsl, hsk, hsv, hsc, hsp⟩ := hshape nid (List.mem_singleton_self nid)
    exact RepF.leaf nid lo hi kvs (lt_of_lt_of_le hnid hlen) (hsl.trans hleaf)
      (hsk.trans hkeys) (hsv.trans hvals) hsorted hbnd
  | node nid lo hi cs seps kvs lv ids hnid hleaf hkeys hne hch hpar hF ih =>
    intro hlen hnd hshape hparpres
    have hnd2 : ids.Nodup := (List.nodup_cons.mp hnd).2
    have hnidnot : nid ∉ ids := (List.nodup_cons.mp hnd).1
    obtain ⟨hsl, hsk, hsv, hsc, hsp⟩ := hshape nid (List.mem_cons_self nid ids)
    refine RepF.node nid lo hi cs seps kvs lv ids (lt_of_lt_of_le hnid hlen)
      (hsl.trans hleaf) (hsk.trans hkeys) hne (hsc.trans hch) ?_ ?_
    · intro c hc
      have hcid : c ∈ ids := rep_roots_mem hF c hc
      have hcnot : c ∉ [nid] := by
        rw [List.mem_singleton]
        intro he
        subst he
        exact hnidnot hcid
      rw [hparpres c (List.mem_cons_of_mem nid hcid) hcnot]
      exact hpar c hc
    · apply ih hlen hnd2
      · intro j hj
        exact hshape j (List.mem_cons_of_mem nid hj)
      · intro j hj hjc
        have hjnot : j ∉ [nid] := by
          rw [List.mem_singleton]
          intro he
          subst he
          exact hnidnot hj
        exact hparpres j (List.mem_cons_of_mem nid hj) hjnot
  | consF c cs lo hi s seps kvs1 kvs2 lv1 lv2 ids1 ids2 hlos hshi h1 h2 hcs ih1 ih2 =>
    intro hlen hnd hshape hparpres
    rw [List.nodup_append] at hnd
    obtain ⟨hnd1, hnd2, hdisj⟩ := hnd
    refine RepF.consF c cs lo hi s seps kvs1 kvs2 lv1 lv2 ids1 ids2 hlos hshi ?_ ?_ hcs
    · apply ih1 hlen hnd1
      · intro j hj
        exact hshape j (List.mem_append_left _ hj)
      · intro j hj hjc
        apply hparpres j (List.mem_append_left _ hj)
        intro hmem
        rcases List.mem_cons.mp hmem with he | he
        · refine hjc ?_
          rw [he]
          exact List.mem_singleton_self c
        · exact hdisj hj (rep_roots_mem h2 j he)
    · apply ih2 hlen hnd2
      · intro j hj
        exact hshape j (List.mem_append_right _ hj)
      · intro j hj hjc
        apply hparpres j (List.mem_append_right _ hj)
        intro hmem
        rcases List.mem_cons.mp hmem with he | he
        · subst he
          exact hdisj (rep_roots_mem h1 j (List.mem_singleton_self j)) hj
        · exact hjc he

lemma rep_append_aux {t : BPlusTree} {cs1 : List Nat} {lo : Option Int} {seps1 : List Int}
    {hi1 : Option Int} {kvs1 : List (Int × Int)} {lv1 ids1 : List Nat}
    (h1 : RepF t cs1 lo seps1 hi1 kvs1 lv1 ids1) :
    ∀ (s : Int) (hi : Option Int) (cs2 : List Nat) (seps2 : List Int)
      (kvs2 : List (Int × Int)) (lv2 ids2 : List Nat),
      hi1 = some s → lbLT lo s → ubLT s hi → cs2 ≠ [] →
      RepF t cs2 (some s) seps2 hi kvs2 lv2 ids2 →
      RepF t (cs1 ++ cs2) lo (seps1 ++ s :: seps2) hi (kvs1 ++ kvs2) (lv1 ++ lv2)
        (ids1 ++ ids2) := by
  induction h1 with
  | leaf nid lo hi1 kvs hnid hleaf hkeys hvals hsorted hbnd =>
    intro s hi cs2 seps2 kvs2 lv2 ids2 hs hlos hshi hcs2 hrep2
    subst hs
    exact RepF.consF nid cs2 lo hi s seps2 kvs kvs2 [nid] lv2 [nid] ids2 hlos hshi
      (RepF.leaf nid lo (some s) kvs hnid hleaf hkeys hvals hsorted hbnd) hrep2 hcs2
  | node nid lo hi1 cs seps kvs lv ids hnid hleaf hkeys hne hch hpar hF ih =>
    intro s hi cs2 seps2 kvs2 lv2 ids2 hs hlos hshi hcs2 hrep2
    subst hs
    exact RepF.consF nid cs2 lo hi s seps2 kvs kvs2 lv lv2 (nid :: ids) ids2 hlos hshi
      (RepF.node nid lo (some s) cs seps kvs lv ids hnid hleaf hkeys hne hch hpar hF)
      hrep2 hcs2
  | consF c cs lo hi1 s1 seps kvsA kvsB lvA lvB idsA idsB hlos1 hshi1 hA hB hcs ihA ihB =>
    intro s hi cs2 seps2 kvs2 lv2 ids2 hs hlos hshi hcs2 hrep2
    subst hs
    have hs1s : lbLT (some s1) s := hshi1
    have hrec := ihB s hi cs2 seps2 kvs2 lv2 ids2 rfl hs1s hshi hcs2 hrep2
    have hshi1' : ubLT s1 hi := ubLT_trans hshi1 hshi
    have hres := RepF.consF c (cs ++ cs2) lo hi s1 (seps ++ s :: seps2) kvsA (kvsB ++ kvs2)
      lvA (lvB ++ lv2) idsA (idsB ++ ids2) hlos1 hshi1' hA hrec
      (by intro he; exact hcs (List.append_eq_nil.mp he).1)
    simpa [List.append_assoc] using hres

lemma rep_append {t : BPlusTree} {cs1 cs2 : List Nat} {lo : Option Int}
    {seps1 seps2 : List Int} {s : Int} {hi : Option Int}
    {kvs1 kvs2 : List (Int × Int)} {lv1 lv2 ids1 ids2 : List Nat}
    (h1 : RepF t cs1 lo seps1 (some s) kvs1 lv1 ids1)
    (h2 : RepF t cs2 (some s) seps2 hi kvs2 lv2 ids2)
    (hlos : lbLT lo s) (hshi : ubLT s hi) (hcs2 : cs2 ≠ []) :
    RepF t (cs1 ++ cs2) lo (seps1 ++ s :: seps2) hi (kvs1 ++ kvs2) (lv1 ++ lv2)
      (ids1 ++ ids2) :=
  rep_append_aux h1 s hi cs2 seps2 kvs2 lv2 ids2 rfl hlos hshi hcs2 h2

lemma rep_split {t : BPlusTree} {cs : List Nat} {lo : Option Int} {seps : List Int}
    {hi : Option Int} {kvs : List (Int × Int)} {lv ids : List Nat}
    (h : RepF t cs lo seps hi kvs lv ids) :
    ∀ m, m < seps.length →
    ∃ kvs1 kvs2 lv1 lv2 ids1 ids2,
      RepF t (cs.take (m+1)) lo (seps.take m) (some (seps.getD m 0)) kvs1 lv1 ids1 ∧
      RepF t (cs.drop (m+1)) (some (seps.getD m 0)) (seps.drop (m+1)) hi kvs2 lv2 ids2 ∧
      kvs = kvs1 ++ kvs2 ∧ lv = lv1 ++ lv2 ∧ ids = ids1 ++ ids2 ∧
      lbLT lo (seps.getD m 0) ∧ ubLT (seps.getD m 0) hi := by
  induction h with
  | leaf nid lo hi kvs hnid hleaf hkeys hvals hsorted hbnd =>
    intro m hm
    simp at hm
  | node nid lo hi cs seps kvs lv ids hnid hleaf hkeys hne hch hpar hF ih =>
    intro m hm
    simp at hm
  | consF c cs lo hi s seps kvs1 kvs2 lv1 lv2 ids1 ids2 hlos hshi h1 h2 hcs ih1 ih2 =>
    intro m hm
    cases m with
    | zero =>
      exact ⟨kvs1, kvs2, lv1, lv2, ids1, ids2, h1, h2, rfl, rfl, rfl, hlos, hshi⟩
    | succ m' =>
      have hm' : m' < seps.length := by simpa using hm
      obtain ⟨k1, k2, l1, l2, i1, i2, hL, hR, hk, hl, hi', hlo2, hhi2⟩ := ih2 m' hm'
      have hgm : (s :: seps).getD (m' + 1) 0 = seps.getD m' 0 := rfl
      have hsm : s < seps.getD m' 0 := hlo2
      have htake : cs.take (m' + 1) ≠ [] := take_ne_nil cs (m' + 1) hcs (by omega)
      refine ⟨kvs1 ++ k1, k2, lv1 ++ l1, l2, ids1 ++ i1, i2, ?_, ?_, ?_, ?_, ?_, ?_, ?_⟩
      · rw [hgm]
        exact RepF.consF c (cs.take (m' + 1)) lo (some (seps.getD m' 0)) s (seps.take m')
          kvs1 k1 lv1 l1 ids1 i1 hlos hsm h1 hL htake
      · rw [hgm]
        exact hR
      · rw [hk, List.append_assoc]
      · rw [hl, List.append_assoc]
      · rw [hi', List.append_assoc]
      · rw [hgm]
        exact lbLT_trans hlos hsm
      · rw [hgm]
        exact hhi2

lemma dictLookup_eq_none_of_forall (kvs : List (Int × Int)) (k : Int)
    (h : ∀ x ∈ kvs.map Prod.fst, x ≠ k) : dictLookup kvs k = none :=
  (dictLookup_eq_none_iff kvs k).mpr (fun hmem => (h k hmem) rfl)

lemma dictLookup_append_of_none (A B : List (Int × Int)) (k : Int)
    (h : dictLookup A k = none) : dictLookup (A ++ B) k = dictLookup B k := by
  induction A with
  | nil => rfl
  | cons p rest ih =>
    rw [dictLookup] at h
    by_cases hp : p.1 = k
    · rw [if_pos hp] at h
      exact absurd h (by simp)
    · rw [if_neg hp] at h
      rw [List.cons_append, dictLookup, if_neg hp]
      exact ih h

lemma dictLookup_append_of_left (A B : List (Int × Int)) (k : Int)
    (h : dictLookup B k = none) : dictLookup (A ++ B) k = dictLookup A k := by
  induction A with
  | nil => exact h
  | cons p rest ih =>
    rw [List.cons_append, dictLookup, dictLookup]
    by_cases hp : p.1 = k
    · rw [if_pos hp, if_pos hp]
    · rw [if_neg hp, if_neg hp]
      exact ih

/-! ## B+ tree: search correctness over the representation -/

lemma search_master {t : BPlusTree} {cs : List Nat} {lo : Option Int} {seps : List Int}
    {hi : Option Int} {kvs : List (Int × Int)} {lv ids : List Nat}
    (h : RepF t cs lo seps hi kvs lv ids) :
    ∀ (key : Int) (fuel : Nat), lbLE lo key → ubLT key hi → ids.length ≤ fuel →
    ∃ lid, descend t key fuel (cs.getD (routePos key seps) 0) = lid ∧
      lid ∈ lv ∧
      scanLeaf key (t.get lid).keys (t.get lid).values = dictLookup kvs key ∧
      ((t.get lid).keys.get? (leafPos key (t.get lid).keys) = some key ↔
        key ∈ kvs.map Prod.fst) := by
  induction h with
  | leaf nid lo hi kvs hnid hleaf hkeys hvals hsorted hbnd =>
    intro key fuel hlo hhi hfuel
    cases fuel with
    | zero => simp at hfuel
    | succ f =>
      have hd : descend t key (f + 1) nid =
          (if (t.get nid).is_leaf_node then nid
           else descend t key f ((t.get nid).children.getD
             (routePos key (t.get nid).keys) 0)) := rfl
      refine ⟨nid, ?_, List.mem_singleton_self nid, ?_, ?_⟩
      · show descend t key (f + 1) nid = nid
        rw [hd, if_pos hleaf]
      · rw [hkeys, hvals, scanLeaf_eq_dictLookup]
      · rw [hkeys]
        exact leafPos_dup_iff _ _ hsorted
  | node nid lo hi cs seps kvs lv ids hnid hleaf hkeys hne hch hpar hF ih =>
    intro key fuel hlo hhi hfuel
    cases fuel with
    | zero => simp at hfuel
    | succ f =>
      have hd : descend t key (f + 1) nid =
          (if (t.get nid).is_leaf_node then nid
           else descend t key f ((t.get nid).children.getD
             (routePos key (t.get nid).keys) 0)) := rfl
      have hfl : (t.get nid).is_leaf_node = false := hleaf
      have hf2 : ids.length ≤ f := by
        rw [List.length_cons] at hfuel
        omega
      obtain ⟨lid, hdesc, hmem, hscan, hdup⟩ := ih key f hlo hhi hf2
      refine ⟨lid, ?_, hmem, hscan, hdup⟩
      show descend t key (f + 1) nid = lid
      rw [hd, if_neg (by rw [hfl]; exact Bool.false_ne_true), hch, hkeys]
      exact hdesc
  | consF c cs lo hi s seps kvs1 kvs2 lv1 lv2 ids1 ids2 hlos hshi h1 h2 hcs ih1 ih2 =>
    intro key fuel hlo hhi hfuel
    have hrp : routePos key (s :: seps) =
        (if key ≥ s then routePos key seps + 1 else 0) := rfl
    by_cases hks : key ≥ s
    · rw [hrp, if_pos hks]
      have hget : (c :: cs).getD (routePos key seps + 1) 0 = cs.getD (routePos key seps) 0 :=
        rfl
      rw [hget]
      have hf2 : ids2.length ≤ fuel := by
        rw [List.length_append] at hfuel
        omega
      have hlo2 : lbLE (some s) key := hks
      obtain ⟨lid, hdesc, hmem, hscan, hdup⟩ := ih2 key fuel hlo2 hhi hf2
      have hnone : dictLookup kvs1 key = none := by
        apply dictLookup_eq_none_of_forall
        intro x hx
        have := (rep_kvs_bounds h1 x hx).2
        have hxs : x < s := this
        have hsk : s ≤ key := hks
        omega
      refine ⟨lid, hdesc, List.mem_append_right _ hmem, ?_, ?_⟩
      · rw [dictLookup_append_of_none _ _ _ hnone]
        exact hscan
      · rw [List.map_append, List.mem_append]
        rw [hdup]
        constructor
        · intro hk
          exact Or.inr hk
        · intro hk
          rcases hk with hk | hk
          · have := (rep_kvs_bounds h1 key hk).2
            have : key < s := this
            have hsk : s ≤ key := hks
            omega
          · exact hk
    · rw [hrp, if_neg hks]
      have hget : (c :: cs).getD 0 0 = ([c] : List Nat).getD (routePos key ([] : List Int)) 0 :=
        rfl
      rw [hget]
      have hf1 : ids1.length ≤ fuel := by
        rw [List.length_append] at hfuel
        omega
      have hhi1 : ubLT key (some s) := by
        have : ¬ s ≤ key := hks
        show key < s
        omega
      obtain ⟨lid, hdesc, hmem, hscan, hdup⟩ := ih1 key fuel hlo hhi1 hf1
      have hnone : dictLookup kvs2 key = none := by
        apply dictLookup_eq_none_of_forall
        intro x hx
        have := (rep_kvs_bounds h2 x hx).1
        have hxs : s ≤ x := this
        have hsk : key < s := hhi1
        omega
      refine ⟨lid, hdesc, List.mem_append_left _ hmem, ?_, ?_⟩
      · rw [dictLookup_append_of_left _ _ _ hnone]
        exact hscan
      · rw [List.map_append, List.mem_append]
        rw [hdup]
        constructor
        · intro hk
          exact Or.inl hk
        · intro hk
          rcases hk with hk | hk
          · exact hk
          · have := (rep_kvs_bounds h2 key hk).1
            have hsx : s ≤ key := this
            have hsk : key < s := hhi1
            omega

/-! ## B+ tree: the split surgery -/

lemma chainSeg_congr {t t2 : BPlusTree} {lv : List Nat} {q : Option Nat}
    (h : chainSeg t lv q)
    (hp : ∀ l ∈ lv, (t2.get l).pointer = (t.get l).pointer) :
    chainSeg t2 lv q := by
  induction lv with
  | nil => trivial
  | cons l rest ih =>
    cases rest with
    | nil =>
      show (t2.get l).pointer = q
      rw [hp l (List.mem_singleton_self l)]
      exact h
    | cons l2 rest2 =>
      obtain ⟨h1, h2⟩ := h
      refine ⟨?_, ?_⟩
      · rw [hp l (List.mem_cons_self _ _)]
        exact h1
      · exact ih h2 (fun x hx => hp x (List.mem_cons_of_mem _ hx))

lemma rep_roots_nodup {t : BPlusTree} {cs : List Nat} {lo : Option Int} {seps : List Int}
    {hi : Option Int} {kvs : List (Int × Int)} {lv ids : List Nat}
    (h : RepF t cs lo seps hi kvs lv ids) : ids.Nodup → cs.Nodup := by
  induction h with
  | leaf nid lo hi kvs hnid hleaf hkeys hvals hsorted hbnd =>
    intro hnd
    exact hnd
  | node nid lo hi cs seps kvs lv ids hnid hleaf hkeys hne hch hpar hF ih =>
    intro hnd
    simp
  | consF c cs lo hi s seps kvs1 kvs2 lv1 lv2 ids1 ids2 hlos hshi h1 h2 hcs ih1 ih2 =>
    intro hnd
    rw [List.nodup_append] at hnd
    obtain ⟨hnd1, hnd2, hdisj⟩ := hnd
    rw [List.nodup_cons]
    refine ⟨?_, ih2 hnd2⟩
    intro hmem
    exact hdisj (rep_roots_mem h1 c (List.mem_singleton_self c)) (rep_roots_mem h2 c hmem)

lemma lbLT_of_lbLE_lt {lo : Option Int} {k s : Int} (h1 : lbLE lo k) (h2 : k < s) :
    lbLT lo s := by
  cases lo with
  | none => trivial
  | some a => exact lt_of_le_of_lt h1 h2

lemma splitStep_leaf (t : BPlusTree) (cc : Nat)
    (hleaf : (t.get cc).is_leaf_node = true) :
    splitStep t cc =
      ({ t with
           nodes := (t.nodes.set cc
               { t.get cc with
                   keys := (t.get cc).keys.take ((t.get cc).keys.length / 2),
                   values := (t.get cc).values.take ((t.get cc).keys.length / 2),
                   pointer := some t.nodes.length })
             ++ [{ is_leaf_node := true,
                   keys := (t.get cc).keys.drop ((t.get cc).keys.length / 2),
                   values := (t.get cc).values.drop ((t.get cc).keys.length / 2),
                   children := [], parent := none,
                   pointer := (t.get cc).pointer }],
           leaf_num := t.leaf_num + 1 },
       ((t.get cc).keys.drop ((t.get cc).keys.length / 2)).headD 0) := by
  simp only [splitStep]
  rw [if_pos hleaf]

lemma splitStep_internal (t : BPlusTree) (cc : Nat)
    (hleaf : (t.get cc).is_leaf_node = false) :
    splitStep t cc =
      (reparent
          { t with
              nodes := (t.nodes.set cc
                  { t.get cc with
                      keys := (t.get cc).keys.take ((t.get cc).keys.length / 2),
                      children :=
                        (t.get cc).children.take ((t.get cc).keys.length / 2 + 1) })
                ++ [{ is_leaf_node := false,
                      keys := (t.get cc).keys.drop ((t.get cc).keys.length / 2 + 1),
                      values := [],
                      children :=
                        (t.get cc).children.drop ((t.get cc).keys.length / 2 + 1),
                      parent := none, pointer := none }] }
          ((t.get cc).children.drop ((t.get cc).keys.length / 2 + 1)) t.nodes.length,
       (t.get cc).keys.getD ((t.get cc).keys.length / 2) 0) := by
  simp only [splitStep]
  rw [if_neg (by rw [hleaf]; exact Bool.false_ne_true)]

lemma surgery_leaf {t : BPlusTree} {cc : Nat} {lo hi : Option Int}
    {kvs : List (Int × Int)} {q : Option Nat}
    (hcc : cc < t.nodes.length)
    (hleaf : (t.get cc).is_leaf_node = true)
    (hkeys : (t.get cc).keys = kvs.map Prod.fst)
    (hvals : (t.get cc).values = kvs.map Prod.snd)
    (hsorted : (kvs.map Prod.fst).Pairwise (· < ·))
    (hbnd : ∀ k ∈ kvs.map Prod.fst, lbLE lo k ∧ ubLT k hi)
    (hlen4 : 4 ≤ kvs.length)
    (hptr : (t.get cc).pointer = q) :
    SurgeryOut t cc lo hi kvs [cc] [cc] q := by
  have heval := splitStep_leaf t cc hleaf
  set mid := (t.get cc).keys.length / 2 with hmiddef
  set L := t.nodes.length with hLdef
  set node2 : Node :=
    { t.get cc with
        keys := (t.get cc).keys.take mid,
        values := (t.get cc).values.take mid,
        pointer := some L } with hnode2def
  set newnd : Node :=
    { is_leaf_node := true,
      keys := (t.get cc).keys.drop mid,
      values := (t.get cc).values.drop mid,
      children := [],
      parent := none,
      pointer := (t.get cc).pointer } with hnewdef
  set T4 : BPlusTree :=
    { t with
        nodes := (t.nodes.set cc node2) ++ [newnd],
        leaf_num := t.leaf_num + 1 } with hT4def
  have hklen : (t.get cc).keys.length = kvs.length := by
    rw [hkeys, List.length_map]
  have hmid2 : 2 ≤ mid := by
    rw [hmiddef, hklen]
    omega
  have hmidlt : mid < kvs.length := by
    rw [hmiddef, hklen]
    omega
  have hkvs2len : (kvs.drop mid).length = kvs.length - mid := List.length_drop _ _
  have hkvs2ne : kvs.drop mid ≠ [] := by
    intro he
    rw [he] at hkvs2len
    simp at hkvs2len
    omega
  have hkvs1len : (kvs.take mid).length = mid := by
    rw [List.length_take]
    omega
  have hkvs1ne : kvs.take mid ≠ [] := by
    intro he
    rw [he] at hkvs1len
    simp at hkvs1len
    omega
  obtain ⟨p2, rest2, hp2⟩ := List.exists_cons_of_ne_nil hkvs2ne
  have hdropkeys : (t.get cc).keys.drop mid = (kvs.drop mid).map Prod.fst := by
    rw [hkeys, List.map_drop]
  have htakekeys : (t.get cc).keys.take mid = (kvs.take mid).map Prod.fst := by
    rw [hkeys, List.map_take]
  have hdropvals : (t.get cc).values.drop mid = (kvs.drop mid).map Prod.snd := by
    rw [hvals, List.map_drop]
  have htakevals : (t.get cc).values.take mid = (kvs.take mid).map Prod.snd := by
    rw [hvals, List.map_take]
  have hs : ((t.get cc).keys.drop mid).headD 0 = p2.1 := by
    rw [hdropkeys, hp2]
    rfl
  have hsplitmap : kvs.map Prod.fst = (kvs.take mid).map Prod.fst ++ (kvs.drop mid).map Prod.fst := by
    rw [← List.map_append, List.take_append_drop]
  have hcross : ∀ a ∈ (kvs.take mid).map Prod.fst, ∀ b ∈ (kvs.drop mid).map Prod.fst,
      a < b := by
    have := hsorted
    rw [hsplitmap, List.pairwise_append] at this
    exact this.2.2
  have hsmem : p2.1 ∈ (kvs.drop mid).map Prod.fst := by
    rw [hp2]
    exact List.mem_cons_self _ _
  have hsmemall : p2.1 ∈ kvs.map Prod.fst := by
    rw [hsplitmap]
    exact List.mem_append_right _ hsmem
  have hdropsorted : ((kvs.drop mid).map Prod.fst).Pairwise (· < ·) := by
    refine List.Pairwise.sublist ?_ hsorted
    rw [List.map_drop]
    exact List.drop_sublist _ _
  have hT4len : T4.nodes.length = L + 1 := by
    show ((t.nodes.set cc node2) ++ [newnd]).length = L + 1
    rw [List.length_append, List.length_set]
    rfl
  have hgetcc : T4.get cc = node2 := by
    show ((t.nodes.set cc node2) ++ [newnd]).getD cc default = node2
    rw [getD_append_left _ _ _ (by rw [List.length_set]; exact hcc),
        getD_set_self _ _ _ hcc]
  have hgetL : T4.get L = newnd := by
    have h1 : ((t.nodes.set cc node2) ++ [newnd]).getD
        ((t.nodes.set cc node2).length) default = newnd := getD_append_last _ _
    rw [List.length_set] at h1
    exact h1
  have hgetother : ∀ j, j < L → j ≠ cc → T4.get j = t.get j := by
    intro j hj hjc
    show ((t.nodes.set cc node2) ++ [newnd]).getD j default = t.get j
    rw [getD_append_left _ _ _ (by rw [List.length_set]; exact hj),
        getD_set_ne _ _ _ _ (fun he => hjc he.symm)]
    rfl
  have hstep1 : (splitStep t cc).1 = T4 := by
    rw [heval]
  have hstep2 : (splitStep t cc).2 = p2.1 := by
    rw [heval]
    exact hs
  refine ⟨p2.1, kvs.take mid, kvs.drop mid, [cc], [L], [cc], [L],
    hstep2, ?_, ?_, (List.take_append_drop mid kvs).symm, ?_, ?_, ?_, ?_, ?_, ?_, ?_, ?_, ?_, ?_⟩
  · rw [hstep1]
    refine RepF.leaf cc lo (some p2.1) (kvs.take mid) ?_ ?_ ?_ ?_ ?_ ?_
    · rw [hT4len]
      omega
    · rw [hgetcc]
      exact hleaf
    · rw [hgetcc]
      show (t.get cc).keys.take mid = _
      exact htakekeys
    · rw [hgetcc]
      show (t.get cc).values.take mid = _
      exact htakevals
    · refine List.Pairwise.sublist ?_ hsorted
      rw [List.map_take]
      exact List.take_sublist _ _
    · intro k hk
      refine ⟨(hbnd k ?_).1, ?_⟩
      · rw [hsplitmap]
        exact List.mem_append_left _ hk
      · show k < p2.1
        exact hcross k hk p2.1 hsmem
  · rw [hstep1]
    refine RepF.leaf L (some p2.1) hi (kvs.drop mid) ?_ ?_ ?_ ?_ ?_ ?_
    · rw [hT4len]
      omega
    · rw [hgetL]
    · rw [hgetL]
      show (t.get cc).keys.drop mid = _
      exact hdropkeys
    · rw [hgetL]
      show (t.get cc).values.drop mid = _
      exact hdropvals
    · exact hdropsorted
    · intro k hk
      refine ⟨?_, (hbnd k ?_).2⟩
      · show p2.1 ≤ k
        rw [hp2] at hk
        rcases List.mem_cons.mp hk with he | he
        · omega
        · rw [hp2, List.map_cons, List.pairwise_cons] at hdropsorted
          have := hdropsorted.1 k he
          omega
      · rw [hsplitmap]
        exact List.mem_append_right _ hk
  · obtain ⟨p1, rest1, hp1⟩ := List.exists_cons_of_ne_nil hkvs1ne
    have h1 : p1.1 ∈ (kvs.take mid).map Prod.fst := by
      rw [hp1]
      exact List.mem_cons_self _ _
    have hlt : p1.1 < p2.1 := hcross p1.1 h1 p2.1 hsmem
    have hle : lbLE lo p1.1 := by
      refine (hbnd p1.1 ?_).1
      rw [hsplitmap]
      exact List.mem_append_left _ h1
    exact lbLT_of_lbLE_lt hle hlt
  · exact (hbnd p2.1 hsmemall).2
  · exact List.Perm.refl _
  · rw [hstep1]
    refine ⟨?_, ?_⟩
    · rw [hgetcc]
    · show (T4.get L).pointer = q
      rw [hgetL]
      exact hptr
  · rfl
  · intro j hj hjmem
    rw [hstep1]
    refine hgetother j hj ?_
    intro he
    rw [he] at hjmem
    exact hjmem (List.mem_singleton_self cc)
  · rw [hstep1]
    exact hT4len
  · rw [hstep1]
  · rw [hstep1, hgetcc]
  · rw [hstep1, hgetL]

lemma rep_cs_length {t : BPlusTree} {cs : List Nat} {lo : Option Int} {seps : List Int}
    {hi : Option Int} {kvs : List (Int × Int)} {lv ids : List Nat}
    (h : RepF t cs lo seps hi kvs lv ids) : cs.length = seps.length + 1 := by
  induction h with
  | leaf nid lo hi kvs hnid hleaf hkeys hvals hsorted hbnd => rfl
  | node nid lo hi cs seps kvs lv ids hnid hleaf hkeys hne hch hpar hF ih => rfl
  | consF c cs lo hi s seps kvs1 kvs2 lv1 lv2 ids1 ids2 hlos hshi h1 h2 hcs ih1 ih2 =>
    rw [List.length_cons, List.length_cons, ih2]

lemma surgery_internal {t : BPlusTree} {cc : Nat} {lo hi : Option Int}
    {kvs : List (Int × Int)} {lv ids2 : List Nat} {q : Option Nat}
    {cs : List Nat} {seps : List Int}
    (hcc : cc < t.nodes.length)
    (hleaf : (t.get cc).is_leaf_node = false)
    (hkeys : (t.get cc).keys = seps)
    (hch : (t.get cc).children = cs)
    (hpar : ∀ c ∈ cs, (t.get c).parent = some cc)
    (hrep : RepF t cs lo seps hi kvs lv ids2)
    (h5 : 4 < seps.length)
    (hnd : (cc :: ids2).Nodup)
    (hchain : chainSeg t lv q) :
    SurgeryOut t cc lo hi kvs lv (cc :: ids2) q := by
  have heval := splitStep_internal t cc hleaf
  set mid := (t.get cc).keys.length / 2 with hmiddef
  set L := t.nodes.length with hLdef
  rw [hch, hkeys] at heval
  have hslen : (t.get cc).keys.length = seps.length := by rw [hkeys]
  have hmidval : mid = seps.length / 2 := by rw [hmiddef, hslen]
  have hmid2 : 2 ≤ mid := by rw [hmidval]; omega
  have hmidlt : mid < seps.length := by rw [hmidval]; omega
  have hmp2 : mid + 1 < seps.length := by rw [hmidval]; omega
  set node2 : Node :=
    { t.get cc with
        keys := seps.take mid,
        children := cs.take (mid + 1) } with hnode2def
  set newnd : Node :=
    { is_leaf_node := false,
      keys := seps.drop (mid + 1),
      values := [],
      children := cs.drop (mid + 1),
      parent := none,
      pointer := none } with hnewdef
  set T2 : BPlusTree :=
    { t with nodes := (t.nodes.set cc node2) ++ [newnd] } with hT2def
  set T4 : BPlusTree := reparent T2 (cs.drop (mid + 1)) L with hT4def
  have hndcc : cc ∉ ids2 := (List.nodup_cons.mp hnd).1
  have hnd2 : ids2.Nodup := (List.nodup_cons.mp hnd).2
  have hcsnd : cs.Nodup := rep_roots_nodup hrep hnd2
  have hcssub : ∀ c ∈ cs, c ∈ ids2 := rep_roots_mem hrep
  have hcslt : ∀ c ∈ cs, c < t.nodes.length :=
    fun c hc => rep_ids_lt hrep c (hcssub c hc)
  obtain ⟨kvsA, kvsB, lvA, lvB, idsA, idsB, hL, hR, hkvseq, hlveq, hids2eq, hlos, hshi⟩ :=
    rep_split hrep mid hmidlt
  have hdisjAB : ∀ a ∈ idsA, a ∉ idsB := by
    rw [hids2eq, List.nodup_append] at hnd2
    exact hnd2.2.2
  have hndA : idsA.Nodup := by
    rw [hids2eq, List.nodup_append] at hnd2
    exact hnd2.1
  have hndB : idsB.Nodup := by
    rw [hids2eq, List.nodup_append] at hnd2
    exact hnd2.2.1
  have hcsRsubB : ∀ c ∈ cs.drop (mid + 1), c ∈ idsB := rep_roots_mem hR
  have hcsLsubA : ∀ c ∈ cs.take (mid + 1), c ∈ idsA := rep_roots_mem hL
  have hT2len : T2.nodes.length = L + 1 := by
    show ((t.nodes.set cc node2) ++ [newnd]).length = L + 1
    rw [List.length_append, List.length_set]
    rfl
  have hT4len : T4.nodes.length = L + 1 := by
    show (reparent T2 (cs.drop (mid + 1)) L).nodes.length = L + 1
    rw [reparent_length]
    exact hT2len
  have hT2getcc : T2.get cc = node2 := by
    show ((t.nodes.set cc node2) ++ [newnd]).getD cc default = node2
    rw [getD_append_left _ _ _ (by rw [List.length_set]; exact hcc),
        getD_set_self _ _ _ hcc]
  have hT2getL : T2.get L = newnd := by
    have h1 : ((t.nodes.set cc node2) ++ [newnd]).getD
        ((t.nodes.set cc node2).length) default = newnd := getD_append_last _ _
    rw [List.length_set] at h1
    exact h1
  have hT2other : ∀ j, j < L → j ≠ cc → T2.get j = t.get j := by
    intro j hj hjc
    show ((t.nodes.set cc node2) ++ [newnd]).getD j default = t.get j
    rw [getD_append_left _ _ _ (by rw [List.length_set]; exact hj),
        getD_set_ne _ _ _ _ (fun he => hjc he.symm)]
    rfl
  have hdomain : ∀ c ∈ cs.drop (mid + 1), c < T2.nodes.length := by
    intro c hc
    rw [hT2len]
    have := hcslt c ((List.drop_sublist _ _).subset hc)
    omega
  have hgetT4 : ∀ j, T4.get j =
      if j ∈ cs.drop (mid + 1) then { T2.get j with parent := some L }
      else T2.get j := by
    intro j
    show (reparent T2 (cs.drop (mid + 1)) L).get j = _
    exact reparent_get T2 _ L j hdomain
  have hccnotR : cc ∉ cs.drop (mid + 1) := by
    intro hmem
    exact hndcc (hcssub cc ((List.drop_sublist _ _).subset hmem))
  have hLnotR : L ∉ cs.drop (mid + 1) := by
    intro hmem
    have := hcslt L ((List.drop_sublist _ _).subset hmem)
    omega
  have hT4getcc : T4.get cc = node2 := by
    rw [hgetT4 cc, if_neg hccnotR]
    exact hT2getcc
  have hT4getL : T4.get L = newnd := by
    rw [hgetT4 L, if_neg hLnotR]
    exact hT2getL
  have hT4other : ∀ j, j < L → j ∉ (cc :: ids2) → T4.get j = t.get j := by
    intro j hj hjmem
    have hjcc : j ≠ cc := fun he => hjmem (he ▸ List.mem_cons_self cc ids2)
    have hjids : j ∉ ids2 := fun hmem => hjmem (List.mem_cons_of_mem cc hmem)
    have hjR : j ∉ cs.drop (mid + 1) :=
      fun hmem => hjids (hcssub j ((List.drop_sublist _ _).subset hmem))
    rw [hgetT4 j, if_neg hjR]
    exact hT2other j hj hjcc
  have hT4idsA : ∀ j ∈ idsA, T4.get j = t.get j := by
    intro j hj
    have hjR : j ∉ cs.drop (mid + 1) := by
      intro hmem
      exact hdisjAB j hj (hcsRsubB j hmem)
    have hjcc : j ≠ cc := by
      intro he
      subst he
      exact hndcc (by rw [hids2eq]; exact List.mem_append_left _ hj)
    have hjlt : j < t.nodes.length :=
      rep_ids_lt hrep j (by rw [hids2eq]; exact List.mem_append_left _ hj)
    rw [hgetT4 j, if_neg hjR]
    exact hT2other j hjlt hjcc
  have hT4idsB : ∀ j ∈ idsB, T4.get j =
      (if j ∈ cs.drop (mid + 1) then { t.get j with parent := some L } else t.get j) := by
    intro j hj
    have hjcc : j ≠ cc := by
      intro he
      subst he
      exact hndcc (by rw [hids2eq]; exact List.mem_append_right _ hj)
    have hjlt : j < t.nodes.length :=
      rep_ids_lt hrep j (by rw [hids2eq]; exact List.mem_append_right _ hj)
    rw [hgetT4 j]
    by_cases hjR : j ∈ cs.drop (mid + 1)
    · rw [if_pos hjR, if_pos hjR, hT2other j hjlt hjcc]
    · rw [if_neg hjR, if_neg hjR]
      exact hT2other j hjlt hjcc
  have hrepLT4 : RepF T4 (cs.take (mid + 1)) lo (seps.take mid) (some (seps.getD mid 0))
      kvsA lvA idsA := by
    apply rep_frame hL
    · rw [hT4len]
      omega
    · exact hndA
    · intro j hj
      rw [hT4idsA j hj]
      exact ⟨rfl, rfl, rfl, rfl, rfl⟩
    · intro j hj hjc
      rw [hT4idsA j hj]
  have hrepRT4 : RepF T4 (cs.drop (mid + 1)) (some (seps.getD mid 0))
      (seps.drop (mid + 1)) hi kvsB lvB idsB := by
    apply rep_frame hR
    · rw [hT4len]
      omega
    · exact hndB
    · intro j hj
      rw [hT4idsB j hj]
      by_cases hjR : j ∈ cs.drop (mid + 1)
      · rw [if_pos hjR]
        exact ⟨rfl, rfl, rfl, rfl, rfl⟩
      · rw [if_neg hjR]
        exact ⟨rfl, rfl, rfl, rfl, rfl⟩
    · intro j hj hjc
      rw [hT4idsB j hj, if_neg hjc]
  have hsepsLne : seps.take mid ≠ [] := by
    apply take_ne_nil
    · intro he
      rw [he] at h5
      simp at h5
    · omega
  have hsepsRlen : (seps.drop (mid + 1)).length = seps.length - (mid + 1) :=
    List.length_drop _ _
  have hsepsRne : seps.drop (mid + 1) ≠ [] := by
    intro he
    rw [he] at hsepsRlen
    simp at hsepsRlen
    omega
  have hcsRlen : (cs.drop (mid + 1)).length = cs.length - (mid + 1) := List.length_drop _ _
  have hcsRne : cs.drop (mid + 1) ≠ [] := by
    intro he
    rw [he] at hcsRlen
    simp at hcsRlen
    have := rep_cs_length hrep
    omega
  have hstep1 : (splitStep t cc).1 = T4 := by
    rw [heval]
  have hstep2 : (splitStep t cc).2 = seps.getD mid 0 := by
    rw [heval]
  refine ⟨seps.getD mid 0, kvsA, kvsB, lvA, lvB, cc :: idsA, L :: idsB,
    hstep2, ?_, ?_, hkvseq, hlos, hshi, ?_, ?_, ?_, ?_, ?_, ?_, ?_, ?_⟩
  · rw [hstep1]
    refine RepF.node cc lo (some (seps.getD mid 0)) (cs.take (mid + 1)) (seps.take mid)
      kvsA lvA idsA ?_ ?_ ?_ hsepsLne ?_ ?_ hrepLT4
    · rw [hT4len]
      omega
    · rw [hT4getcc]
      exact hleaf
    · rw [hT4getcc]
    · rw [hT4getcc]
    · intro c hc
      have hcA : c ∈ idsA := hcsLsubA c hc
      rw [hT4idsA c hcA]
      exact hpar c ((List.take_sublist _ _).subset hc)
  · rw [hstep1]
    refine RepF.node L (some (seps.getD mid 0)) hi (cs.drop (mid + 1))
      (seps.drop (mid + 1)) kvsB lvB idsB ?_ ?_ ?_ hsepsRne ?_ ?_ hrepRT4
    · rw [hT4len]
      omega
    · rw [hT4getL]
    · rw [hT4getL]
    · rw [hT4getL]
    · intro c hc
      have hcB : c ∈ idsB := hcsRsubB c hc
      rw [hT4idsB c hcB, if_pos hc]
  · have h1 := @List.perm_middle Nat L idsA idsB
    have h2 := @List.perm_append_comm Nat (idsA ++ idsB) [L]
    have hperm : (idsA ++ L :: idsB).Perm ((idsA ++ idsB) ++ [L]) := h1.trans h2.symm
    show ((cc :: idsA) ++ L :: idsB).Perm ((cc :: ids2) ++ [L])
    rw [hids2eq]
    exact hperm.cons cc
  · rw [hstep1]
    have hlvsub : ∀ l ∈ lv, l ∈ ids2 := fun l hl => (rep_lv_sublist hrep).subset hl
    have hchain2 : chainSeg T4 lv q := by
      apply chainSeg_congr hchain
      intro l hl
      have hlids : l ∈ ids2 := hlvsub l hl
      have hllt : l < t.nodes.length := rep_ids_lt hrep l hlids
      have hlcc : l ≠ cc := by
        intro he
        subst he
        exact hndcc hlids
      rw [hgetT4 l]
      by_cases hlR : l ∈ cs.drop (mid + 1)
      · rw [if_pos hlR, hT2other l hllt hlcc]
      · rw [if_neg hlR]
        rw [hT2other l hllt hlcc]
    rw [← hlveq]
    exact hchain2
  · rw [← hlveq]
  · intro j hj hjmem
    rw [hstep1]
    exact hT4other j hj hjmem
  · rw [hstep1]
    exact hT4len
  · rw [hstep1]
    show (reparent T2 (cs.drop (mid + 1)) L).root = t.root
    rw [reparent_root]
  · rw [hstep1, hT4getcc]
  · rw [hstep1, hT4getL]

lemma surgery {t : BPlusTree} {cc : Nat} {lo hi : Option Int}
    {kvs : List (Int × Int)} {lv ids : List Nat} {q : Option Nat}
    (hov : Overfull t cc lo hi kvs lv ids)
    (hnd : ids.Nodup)
    (hchain : chainSeg t lv q) :
    SurgeryOut t cc lo hi kvs lv ids q := by
  obtain ⟨hcc, hcase⟩ := hov
  rcases hcase with ⟨hleaf, hkeys, hvals, hsorted, hbnd, hlen4, hlv, hids⟩ |
    ⟨cs, seps, ids2, hleaf, hkeys, hch, hpar, hrep, hids, h5⟩
  · subst hlv
    subst hids
    have hptr : (t.get cc).pointer = q := hchain
    exact surgery_leaf hcc hleaf hkeys hvals hsorted hbnd hlen4 hptr
  · subst hids
    exact surgery_internal hcc hleaf hkeys hch hpar hrep h5 hnd hchain

/-! ## B+ tree: small helpers for the insert development -/

lemma length_sortedInsertKV (kvs : List (Int × Int)) (key value : Int) :
    (sortedInsertKV kvs key value).length = kvs.length + 1 := by
  induction kvs with
  | nil => rfl
  | cons p rest ih =>
    rw [sortedInsertKV]
    by_cases hp : p.1 < key
    · rw [if_pos hp, List.length_cons, ih, List.length_cons]
    · rw [if_neg hp]
      rfl

lemma rep_cs_ne {t : BPlusTree} {cs : List Nat} {lo : Option Int} {seps : List Int}
    {hi : Option Int} {kvs : List (Int × Int)} {lv ids : List Nat}
    (h : RepF t cs lo seps hi kvs lv ids) : cs ≠ [] := by
  have := rep_cs_length h
  intro he
  rw [he] at this
  simp at this

lemma overfull_lv_ne {t : BPlusTree} {cc : Nat} {lo hi : Option Int}
    {kvs : List (Int × Int)} {lv ids : List Nat}
    (h : Overfull t cc lo hi kvs lv ids) : lv ≠ [] := by
  obtain ⟨hcc, hcase⟩ := h
  rcases hcase with ⟨h1, h2, h3, h4, h5, h6, hlv, hids⟩ |
    ⟨cs, seps, ids2, h1, h2, h3, h4, hrep, hids, h5⟩
  · rw [hlv]
    simp
  · exact rep_lv_ne hrep

lemma overfull_ids_lt {t : BPlusTree} {cc : Nat} {lo hi : Option Int}
    {kvs : List (Int × Int)} {lv ids : List Nat}
    (h : Overfull t cc lo hi kvs lv ids) : ∀ j ∈ ids, j < t.nodes.length := by
  obtain ⟨hcc, hcase⟩ := h
  rcases hcase with ⟨h1, h2, h3, h4, h5, h6, hlv, hids⟩ |
    ⟨cs, seps, ids2, h1, h2, h3, h4, hrep, hids, h5⟩
  · intro j hj
    rw [hids, List.mem_singleton] at hj
    subst hj
    exact hcc
  · intro j hj
    rw [hids] at hj
    rcases List.mem_cons.mp hj with he | he
    · subst he
      exact hcc
    · exact rep_ids_lt hrep j he

lemma overfull_lv_sub {t : BPlusTree} {cc : Nat} {lo hi : Option Int}
    {kvs : List (Int × Int)} {lv ids : List Nat}
    (h : Overfull t cc lo hi kvs lv ids) : ∀ l ∈ lv, l ∈ ids := by
  obtain ⟨hcc, hcase⟩ := h
  rcases hcase with ⟨h1, h2, h3, h4, h5, h6, hlv, hids⟩ |
    ⟨cs, seps, ids2, h1, h2, h3, h4, hrep, hids, h5⟩
  · intro l hl
    rw [hlv] at hl
    rw [hids]
    exact hl
  · intro l hl
    rw [hids]
    exact List.mem_cons_of_mem cc ((rep_lv_sublist hrep).subset hl)

lemma headD_append {α : Type} [Inhabited α] (A B : List α) (d : α) (hA : A ≠ []) :
    (A ++ B).headD d = A.headD d := by
  cases A with
  | nil => exact absurd rfl hA
  | cons a A' => rfl

lemma nextHead_append (A B : List Nat) (q : Option Nat) (hA : A ≠ []) :
    nextHead (A ++ B) q = some (A.headD 0) := by
  cases A with
  | nil => exact absurd rfl hA
  | cons a A' => rfl

lemma nextHead_of_ne (A : List Nat) (q : Option Nat) (hA : A ≠ []) :
    nextHead A q = some (A.headD 0) := by
  cases A with
  | nil => exact absurd rfl hA
  | cons a A' => rfl

lemma indexOf_append_cons (l1 l2 : List Nat) (a : Nat) (h : a ∉ l1) :
    (l1 ++ a :: l2).indexOf a = l1.length := by
  induction l1 with
  | nil => simp [List.indexOf_cons]
  | cons b rest ih =>
    rw [List.mem_cons] at h
    push_neg at h
    rw [List.cons_append, List.indexOf_cons]
    have hba : (b == a) = false := by
      rw [beq_eq_false_iff_ne]
      exact fun he => h.1 he.symm
    rw [hba]
    show (rest ++ a :: l2).indexOf a + 1 = rest.length + 1
    rw [ih h.2]

lemma repSL_length {t : BPlusTree} {cs : List Nat} {lo : Option Int} {seps : List Int}
    {lo' : Option Int} {kvs : List (Int × Int)} {lv ids : List Nat}
    (h : RepSL t cs lo seps lo' kvs lv ids) : seps.length = cs.length := by
  rcases h with ⟨hcs, hseps, h1, h2, h3, h4⟩ | ⟨seps0, s, hseps, hlo', hlos, hrep⟩
  · rw [hcs, hseps]
    rfl
  · rw [hseps, List.length_append, rep_cs_length hrep]
    rfl

lemma repSL_roots {t : BPlusTree} {cs : List Nat} {lo : Option Int} {seps : List Int}
    {lo' : Option Int} {kvs : List (Int × Int)} {lv ids : List Nat}
    (h : RepSL t cs lo seps lo' kvs lv ids) : ∀ c ∈ cs, c ∈ ids := by
  rcases h with ⟨hcs, hseps, h1, h2, h3, h4⟩ | ⟨seps0, s, hseps, hlo', hlos, hrep⟩
  · intro c hc
    rw [hcs] at hc
    exact absurd hc (List.not_mem_nil c)
  · exact rep_roots_mem hrep

lemma repSL_ids_lt {t : BPlusTree} {cs : List Nat} {lo : Option Int} {seps : List Int}
    {lo' : Option Int} {kvs : List (Int × Int)} {lv ids : List Nat}
    (h : RepSL t cs lo seps lo' kvs lv ids) : ∀ j ∈ ids, j < t.nodes.length := by
  rcases h with ⟨hcs, hseps, h1, h2, h3, h4⟩ | ⟨seps0, s, hseps, hlo', hlos, hrep⟩
  · intro j hj
    rw [h4] at hj
    exact absurd hj (List.not_mem_nil j)
  · exact rep_ids_lt hrep

lemma repSL_lv_sub {t : BPlusTree} {cs : List Nat} {lo : Option Int} {seps : List Int}
    {lo' : Option Int} {kvs : List (Int × Int)} {lv ids : List Nat}
    (h : RepSL t cs lo seps lo' kvs lv ids) : ∀ l ∈ lv, l ∈ ids := by
  rcases h with ⟨hcs, hseps, h1, h2, h3, h4⟩ | ⟨seps0, s, hseps, hlo', hlos, hrep⟩
  · intro l hl
    rw [h3] at hl
    exact absurd hl (List.not_mem_nil l)
  · exact fun l hl => (rep_lv_sublist hrep).subset hl

lemma repSL_frame {t t2 : BPlusTree} {cs : List Nat} {lo : Option Int} {seps : List Int}
    {lo' : Option Int} {kvs : List (Int × Int)} {lv ids : List Nat}
    (h : RepSL t cs lo seps lo' kvs lv ids)
    (hlen : t.nodes.length ≤ t2.nodes.length) (hnd : ids.Nodup)
    (heq : ∀ j ∈ ids, t2.get j = t.get j) : RepSL t2 cs lo seps lo' kvs lv ids := by
  rcases h with ⟨hcs, hseps, h1, h2, h3, h4⟩ | ⟨seps0, s, hseps, hlo', hlos, hrep⟩
  · exact Or.inl ⟨hcs, hseps, h1, h2, h3, h4⟩
  · refine Or.inr ⟨seps0, s, hseps, hlo', hlos, ?_⟩
    apply rep_frame hrep hlen hnd
    · intro j hj
      rw [heq j hj]
      exact ⟨rfl, rfl, rfl, rfl, rfl⟩
    · intro j hj hjc
      rw [heq j hj]

lemma repSR_roots {t : BPlusTree} {cs : List Nat} {hi' : Option Int} {seps : List Int}
    {hi : Option Int} {kvs : List (Int × Int)} {lv ids : List Nat}
    (h : RepSR t cs hi' seps hi kvs lv ids) : ∀ c ∈ cs, c ∈ ids := by
  rcases h with ⟨hcs, hseps, h1, h2, h3, h4⟩ | ⟨seps1, s, hseps, hhi', hshi, hrep⟩
  · intro c hc
    rw [hcs] at hc
    exact absurd hc (List.not_mem_nil c)
  · exact rep_roots_mem hrep

lemma repSR_ids_lt {t : BPlusTree} {cs : List Nat} {hi' : Option Int} {seps : List Int}
    {hi : Option Int} {kvs : List (Int × Int)} {lv ids : List Nat}
    (h : RepSR t cs hi' seps hi kvs lv ids) : ∀ j ∈ ids, j < t.nodes.length := by
  rcases h with ⟨hcs, hseps, h1, h2, h3, h4⟩ | ⟨seps1, s, hseps, hhi', hshi, hrep⟩
  · intro j hj
    rw [h4] at hj
    exact absurd hj (List.not_mem_nil j)
  · exact rep_ids_lt hrep

lemma repSR_lv_sub {t : BPlusTree} {cs : List Nat} {hi' : Option Int} {seps : List Int}
    {hi : Option Int} {kvs : List (Int × Int)} {lv ids : List Nat}
    (h : RepSR t cs hi' seps hi kvs lv ids) : ∀ l ∈ lv, l ∈ ids := by
  rcases h with ⟨hcs, hseps, h1, h2, h3, h4⟩ | ⟨seps1, s, hseps, hhi', hshi, hrep⟩
  · intro l hl
    rw [h3] at hl
    exact absurd hl (List.not_mem_nil l)
  · exact fun l hl => (rep_lv_sublist hrep).subset hl

lemma repSR_frame {t t2 : BPlusTree} {cs : List Nat} {hi' : Option Int} {seps : List Int}
    {hi : Option Int} {kvs : List (Int × Int)} {lv ids : List Nat}
    (h : RepSR t cs hi' seps hi kvs lv ids)
    (hlen : t.nodes.length ≤ t2.nodes.length) (hnd : ids.Nodup)
    (heq : ∀ j ∈ ids, t2.get j = t.get j) : RepSR t2 cs hi' seps hi kvs lv ids := by
  rcases h with ⟨hcs, hseps, h1, h2, h3, h4⟩ | ⟨seps1, s, hseps, hhi', hshi, hrep⟩
  · exact Or.inl ⟨hcs, hseps, h1, h2, h3, h4⟩
  · refine Or.inr ⟨seps1, s, hseps, hhi', hshi, ?_⟩
    apply rep_frame hrep hlen hnd
    · intro j hj
      rw [heq j hj]
      exact ⟨rfl, rfl, rfl, rfl, rfl⟩
    · intro j hj hjc
      rw [heq j hj]

lemma repSL_cons {t : BPlusTree} {c : Nat} {cs : List Nat} {lo : Option Int} {s : Int}
    {seps : List Int} {lo' : Option Int} {kvs1 kvs2 : List (Int × Int)}
    {lv1 lv2 ids1 ids2 : List Nat}
    (h1 : RepF t [c] lo [] (some s) kvs1 lv1 ids1)
    (hlos : lbLT lo s)
    (h2 : RepSL t cs (some s) seps lo' kvs2 lv2 ids2) :
    RepSL t (c :: cs) lo (s :: seps) lo' (kvs1 ++ kvs2) (lv1 ++ lv2) (ids1 ++ ids2) := by
  rcases h2 with ⟨hcs, hseps, hlo', hkvs, hlv, hids⟩ |
    ⟨seps0, slast, hseps, hlo', hlast, hrep⟩
  · subst hcs
    subst hseps
    subst hlo'
    subst hkvs
    subst hlv
    subst hids
    refine Or.inr ⟨[], s, rfl, rfl, hlos, ?_⟩
    simpa using h1
  · subst hseps
    subst hlo'
    refine Or.inr ⟨s :: seps0, slast, rfl, rfl, lbLT_trans hlos hlast, ?_⟩
    have := rep_append h1 hrep hlos hlast (rep_cs_ne hrep)
    simpa using this

lemma nodup_mid_insert (A B C : List Nat) (x : Nat)
    (h : (A ++ (B ++ C)).Nodup) (hx : x ∉ A ++ (B ++ C)) :
    (A ++ ((B ++ [x]) ++ C)).Nodup := by
  have h1 : (A ++ ((B ++ [x]) ++ C)) = (A ++ B) ++ x :: C := by
    simp [List.append_assoc]
  rw [h1]
  have h2 : ((A ++ B) ++ x :: C).Perm (x :: ((A ++ B) ++ C)) := List.perm_middle
  refine h2.symm.nodup ?_
  rw [List.nodup_cons]
  constructor
  · intro hmem
    apply hx
    rw [← List.append_assoc]
    exact hmem
  · rw [List.append_assoc]
    exact h

lemma overfull_cc_mem {t : BPlusTree} {cc : Nat} {lo hi : Option Int}
    {kvs : List (Int × Int)} {lv ids : List Nat}
    (h : Overfull t cc lo hi kvs lv ids) : cc ∈ ids := by
  obtain ⟨hcc, hcase⟩ := h
  rcases hcase with ⟨h1, h2, h3, h4, h5, h6, hlv, hids⟩ |
    ⟨cs, seps, ids2, h1, h2, h3, h4, hrep, hids, h5⟩
  · rw [hids]
    exact List.mem_singleton_self cc
  · rw [hids]
    exact List.mem_cons_self _ _

set_option maxHeartbeats 1000000 in
lemma insert_master {t : BPlusTree} {cs : List Nat} {lo : Option Int} {seps : List Int}
    {hi : Option Int} {kvs : List (Int × Int)} {lv ids : List Nat}
    (hrep : RepF t cs lo seps hi kvs lv ids) :
    ∀ (key value : Int) (q : Option Nat) (fuel sfuel : Nat),
      lbLE lo key → ubLT key hi →
      key ∉ kvs.map Prod.fst →
      ids.Nodup →
      chainSeg t lv q →
      ids.length ≤ fuel → ids.length ≤ sfuel →
      ∃ lid ks vs,
        descend t key fuel (cs.getD (routePos key seps) 0) = lid ∧
        Leaf.insert_key_and_value (t.get lid).keys (t.get lid).values key value
          = some (ks, vs) ∧
        InsOut t cs lo seps hi kvs lv ids key value q sfuel
          (if 4 ≤ ks.length then
            BPlusTree.split_node
              (t.setNode lid { t.get lid with keys := ks, values := vs }) lid sfuel
           else t.setNode lid { t.get lid with keys := ks, values := vs }) := by
  induction hrep with
  | leaf nid lo hi kvs hnid hleaf hkeys hvals hsorted hbnd =>
    intro key value q fuel sfuel hlo hhi hnotin hnd hchain hfuel hsfuel
    cases fuel with
    | zero => simp at hfuel
    | succ f =>
      have hdesc : descend t key (f + 1)
          (([nid] : List Nat).getD (routePos key ([] : List Int)) 0) = nid := by
        show descend t key (f + 1) nid = nid
        have hd : descend t key (f + 1) nid =
            (if (t.get nid).is_leaf_node then nid
             else descend t key f ((t.get nid).children.getD
               (routePos key (t.get nid).keys) 0)) := rfl
        rw [hd, if_pos hleaf]
      have hdup : ¬ (t.get nid).keys.get? (leafPos key (t.get nid).keys) = some key := by
        rw [hkeys, leafPos_dup_iff _ _ hsorted]
        exact hnotin
      have hins : Leaf.insert_key_and_value (t.get nid).keys (t.get nid).values key value
          = some (pyInsertIdx (t.get nid).keys (leafPos key (t.get nid).keys) key,
                  pyInsertIdx (t.get nid).values (leafPos key (t.get nid).keys) value) := by
        show (if (t.get nid).keys.get? (leafPos key (t.get nid).keys) = some key then none
              else some (pyInsertIdx (t.get nid).keys (leafPos key (t.get nid).keys) key,
                pyInsertIdx (t.get nid).values (leafPos key (t.get nid).keys) value))
            = _
        rw [if_neg hdup]
      have hks : pyInsertIdx (t.get nid).keys (leafPos key (t.get nid).keys) key
          = (sortedInsertKV kvs key value).map Prod.fst := by
        rw [hkeys, sortedInsertKV_map_fst]
      have hvs : pyInsertIdx (t.get nid).values (leafPos key (t.get nid).keys) value
          = (sortedInsertKV kvs key value).map Prod.snd := by
        rw [hvals, hkeys, sortedInsertKV_map_snd]
      have hkslen : (pyInsertIdx (t.get nid).keys (leafPos key (t.get nid).keys) key).length
          = kvs.length + 1 := by
        rw [hks, List.length_map, length_sortedInsertKV]
      have hT2get : (t.setNode nid { t.get nid with
            keys := pyInsertIdx (t.get nid).keys (leafPos key (t.get nid).keys) key,
            values := pyInsertIdx (t.get nid).values (leafPos key (t.get nid).keys) value }).get
          nid = { t.get nid with
            keys := pyInsertIdx (t.get nid).keys (leafPos key (t.get nid).keys) key,
            values := pyInsertIdx (t.get nid).values (leafPos key (t.get nid).keys) value } :=
        get_setNode_self _ _ _ hnid
      set ks := pyInsertIdx (t.get nid).keys (leafPos key (t.get nid).keys) key with hksdef
      set vs := pyInsertIdx (t.get nid).values (leafPos key (t.get nid).keys) value with hvsdef
      set T2 := t.setNode nid { t.get nid with keys := ks, values := vs } with hT2def
      have hT2other : ∀ j, j ≠ nid → T2.get j = t.get j :=
        fun j hj => get_setNode_ne _ _ _ _ (fun he => hj he.symm)
      have hT2len : T2.nodes.length = t.nodes.length := length_setNode _ _ _
      have hT2root : T2.root = t.root := rfl
      have hchainT2 : (T2.get nid).pointer = q := by
        rw [hT2get]
        exact hchain
      refine ⟨nid, ks, vs, hdesc, hins, ?_⟩
      by_cases hfull : 4 ≤ ks.length
      · rw [if_pos hfull]
        right
        refine ⟨T2, sfuel, nid, lo, hi, sortedInsertKV kvs key value, [nid], [nid],
          [], [], [], [], [], [], [], [], [], [],
          rfl, rfl, rfl, Or.inl ⟨rfl, rfl, rfl, rfl, rfl, rfl⟩,
          Or.inl ⟨rfl, rfl, rfl, rfl, rfl, rfl⟩, ?_, by simp, ?_, rfl, by simp, ?_,
          le_of_eq hT2len.symm, hT2root, ?_, ?_, by simp⟩
        · refine ⟨by rw [hT2len]; exact hnid, Or.inl ⟨?_, ?_, ?_, ?_, ?_, ?_, rfl, rfl⟩⟩
          · rw [hT2get]
            exact hleaf
          · rw [hT2get]
            exact hks
          · rw [hT2get]
            exact hvs
          · exact sortedInsertKV_sorted kvs key value hsorted hnotin
          · exact sortedInsertKV_bounds kvs key value lo hi hbnd hlo hhi
          · rw [← length_sortedInsertKV kvs key value] at hkslen
            omega
        · show chainSeg T2 ([] ++ [nid] ++ []) q
          show (T2.get nid).pointer = q
          exact hchainT2
        · intro j hj
          simp at hj
          subst hj
          exact Or.inl (List.mem_singleton_self _)
        · intro j hj hjmem
          refine hT2other j ?_
          intro he
          rw [he] at hjmem
          exact hjmem (List.mem_singleton_self nid)
        · intro x hx
          rw [List.mem_singleton] at hx
          subst hx
          rw [hT2get]
      · rw [if_neg hfull]
        left
        refine ⟨[nid], [nid], ?_, by simp, ?_, ?_, rfl, le_of_eq hT2len.symm, hT2root,
          ?_, ?_⟩
        · refine RepF.leaf nid lo hi (sortedInsertKV kvs key value)
            (by rw [hT2len]; exact hnid) ?_ ?_ ?_ ?_ ?_
          · rw [hT2get]
            exact hleaf
          · rw [hT2get]
            exact hks
          · rw [hT2get]
            exact hvs
          · exact sortedInsertKV_sorted kvs key value hsorted hnotin
          · exact sortedInsertKV_bounds kvs key value lo hi hbnd hlo hhi
        · intro j hj
          simp at hj
          subst hj
          exact Or.inl (List.mem_singleton_self _)
        · show (T2.get nid).pointer = q
          exact hchainT2
        · intro j hj hjmem
          refine hT2other j ?_
          intro he
          rw [he] at hjmem
          exact hjmem (List.mem_singleton_self nid)
        · intro x hx
          rw [List.mem_singleton] at hx
          subst hx
          rw [hT2get]
  | node nid lo hi cs seps kvs lv ids hnid hleaf hkeys hne hch hpar hF ih =>
    intro key value q fuel sfuel hlo hhi hnotin hnd hchain hfuel hsfuel
    have hndF : ids.Nodup := (List.nodup_cons.mp hnd).2
    have hnidF : nid ∉ ids := (List.nodup_cons.mp hnd).1
    cases fuel with
    | zero => simp at hfuel
    | succ f =>
      have hfF : ids.length ≤ f := by
        rw [List.length_cons] at hfuel
        omega
      have hsF : ids.length ≤ sfuel := by
        rw [List.length_cons] at hsfuel
        omega
      obtain ⟨lid, ks, vs, hdesc, hins, hout⟩ :=
        ih key value q f sfuel hlo hhi hnotin hndF hchain hfF hsF
      refine ⟨lid, ks, vs, ?_, hins, ?_⟩
      · show descend t key (f + 1) nid = lid
        have hd : descend t key (f + 1) nid =
            (if (t.get nid).is_leaf_node then nid
             else descend t key f ((t.get nid).children.getD
               (routePos key (t.get nid).keys) 0)) := rfl
        rw [hd, if_neg (by rw [hleaf]; exact Bool.false_ne_true), hch, hkeys]
        exact hdesc
      · rcases hout with
          ⟨lv2, ids2, hrepV, hnd2, hmem2, hchain2, hhead2, hlenV, hrootV, hframeV, hparV⟩ |
          ⟨T1, fuel1, cc, lo2, hi2, kvsc, lvc, idsc, csL, csR, sepsL, sepsR, kvsL, kvsR,
            lvL, lvR, idsL, idsR, hVeq, hcseq, hsepseq, hSL, hSR, hov, hkvseq, hchainT,
            hheadT, hndT, hmemT, hlenT, hrootT, hframeT, hparT, hfuelT⟩
        · left
          have hgetnid := hframeV nid hnid hnidF
          refine ⟨lv2, nid :: ids2, ?_, ?_, ?_, hchain2, hhead2, hlenV, hrootV, ?_, ?_⟩
          · exact RepF.node nid lo hi cs seps _ lv2 ids2 (lt_of_lt_of_le hnid hlenV)
              (by rw [hgetnid]; exact hleaf) (by rw [hgetnid]; exact hkeys) hne
              (by rw [hgetnid]; exact hch)
              (fun x hx => by rw [hparV x hx]; exact hpar x hx) hrepV
          · rw [List.nodup_cons]
            refine ⟨?_, hnd2⟩
            intro hmem
            rcases hmem2 nid hmem with hA | hA
            · exact hnidF hA
            · omega
          · intro j hj
            rcases List.mem_cons.mp hj with he | he
            · subst he
              exact Or.inl (List.mem_cons_self _ _)
            · rcases hmem2 j he with hA | hA
              · exact Or.inl (List.mem_cons_of_mem _ hA)
              · exact Or.inr hA
          · intro j hj hjmem
            refine hframeV j hj ?_
            intro hmem
            exact hjmem (List.mem_cons_of_mem _ hmem)
          · intro x hx
            rw [List.mem_singleton] at hx
            subst hx
            rw [hgetnid]
        · -- the pending split reached a child of this node: run one cascade step
          have hccmemcs : cc ∈ cs := by
            rw [hcseq]
            exact List.mem_append_right _ (List.mem_cons_self _ _)
          have hmemT3 : ∀ j, j ∈ idsL ∨ j ∈ idsc ∨ j ∈ idsR →
              j ∈ ids ∨ t.nodes.length ≤ j := by
            intro j hj
            apply hmemT j
            rcases hj with hA | hA | hA
            · exact List.mem_append_left _ hA
            · exact List.mem_append_right _ (List.mem_append_left _ hA)
            · exact List.mem_append_right _ (List.mem_append_right _ hA)
          have hnidL : nid ∉ idsL := by
            intro hmem
            rcases hmemT3 nid (Or.inl hmem) with hA | hA
            · exact hnidF hA
            · omega
          have hnidc : nid ∉ idsc := by
            intro hmem
            rcases hmemT3 nid (Or.inr (Or.inl hmem)) with hA | hA
            · exact hnidF hA
            · omega
          have hnidR : nid ∉ idsR := by
            intro hmem
            rcases hmemT3 nid (Or.inr (Or.inr hmem)) with hA | hA
            · exact hnidF hA
            · omega
          have hnidlt1 : nid < T1.nodes.length := lt_of_lt_of_le hnid hlenT
          have hT1nid : T1.get nid = t.get nid := hframeT nid hnid hnidF
          obtain ⟨f1, rfl⟩ : ∃ f1, fuel1 = f1 + 1 := by
            refine ⟨fuel1 - 1, ?_⟩
            omega
          have hndT0 := hndT
          rw [List.nodup_append] at hndT
          obtain ⟨hndL, hndcR, hdisjLcR⟩ := hndT
          rw [List.nodup_append] at hndcR
          obtain ⟨hndc, hndR, hdisjcR⟩ := hndcR
          have hidsclt := overfull_ids_lt hov
          have hchainA := (chainSeg_append T1 (lvL ++ lvc) lvR q).mp hchainT
          have hchainB := (chainSeg_append T1 lvL lvc (nextHead lvR q)).mp hchainA.1
          have hchainlvc : chainSeg T1 lvc (nextHead lvR q) := hchainB.2
          obtain ⟨s, kvsc1, kvsc2, lvc1, lvc2, idsc1, idsc2, hs2, hRcc, hRnew, hkvsc12,
            hlos2, hshi2, hpermc, hchainc4, hheadc, hframec, hlen4T, hroot4, hparcc4,
            hparnew4⟩ := surgery hov hndc hchainlvc
          have hccmemidsc : cc ∈ idsc := overfull_cc_mem hov
          have hccltT1 : cc < T1.nodes.length := hidsclt cc hccmemidsc
          have hccL : cc ∉ csL := by
            intro hmem
            exact hdisjLcR (repSL_roots hSL cc hmem) (List.mem_append_left _ hccmemidsc)
          have hccnid : cc ≠ nid := by
            intro he
            subst he
            exact hnidc hccmemidsc
          have hT4nid : (splitStep T1 cc).1.get nid = t.get nid := by
            rw [hframec nid hnidlt1 hnidc]
            exact hT1nid
          have hparfact : ((splitStep T1 cc).1.get cc).parent = some nid := by
            rw [hparcc4, hparT cc hccmemcs, hpar cc hccmemcs]
          have hlenLL : csL.length = sepsL.length := (repSL_length hSL).symm
          have hidx : cs.indexOf cc = csL.length := by
            rw [hcseq]
            exact indexOf_append_cons csL csR cc hccL
          have hpyk : pyInsertIdx (t.get nid).keys ((t.get nid).children.indexOf cc) s
              = sepsL ++ s :: sepsR := by
            rw [hkeys, hch, hidx, hlenLL, hsepseq]
            show (sepsL ++ sepsR).take sepsL.length ++ s :: (sepsL ++ sepsR).drop sepsL.length
              = _
            rw [List.take_left, List.drop_left]
          have hpyc : pyInsertIdx (t.get nid).children ((t.get nid).children.indexOf cc + 1)
              T1.nodes.length = csL ++ cc :: T1.nodes.length :: csR := by
            rw [hch, hidx, hcseq]
            show (csL ++ cc :: csR).take (csL.length + 1) ++ T1.nodes.length ::
              (csL ++ cc :: csR).drop (csL.length + 1) = _
            rw [List.take_append, List.drop_append]
            simp [List.append_assoc]
          set P2 : Node :=
            { t.get nid with
                keys := sepsL ++ s :: sepsR,
                children := csL ++ cc :: T1.nodes.length :: csR } with hP2def
          set T6 := ((splitStep T1 cc).1.setNode nid P2).setNode T1.nodes.length
            { ((splitStep T1 cc).1.setNode nid P2).get T1.nodes.length with
                parent := some nid } with hT6def
          have hW : (if 4 ≤ ks.length then
                BPlusTree.split_node
                  (t.setNode lid { t.get lid with keys := ks, values := vs }) lid sfuel
              else t.setNode lid { t.get lid with keys := ks, values := vs })
              = (if (T6.get nid).keys.length > 4 then BPlusTree.split_node T6 nid f1
                 else T6) := by
            rw [hVeq, split_node_succ, hparfact]
            show splitParentIns (splitStep T1 cc).1 cc T1.nodes.length (splitStep T1 cc).2
              nid f1 = _
            rw [hs2]
            simp only [splitParentIns]
            rw [hT4nid, hpyk, hpyc]
          rw [hW]
          -- facts about T6
          have hnidlt4 : nid < (splitStep T1 cc).1.nodes.length := by
            rw [hlen4T]
            omega
          have hnewlt4 : T1.nodes.length < (splitStep T1 cc).1.nodes.length := by
            rw [hlen4T]
            omega
          have hT6len : T6.nodes.length = T1.nodes.length + 1 := by
            show (((splitStep T1 cc).1.setNode nid P2).setNode T1.nodes.length
              _).nodes.length = _
            rw [length_setNode, length_setNode]
            exact hlen4T
          have hT6getnew : T6.get T1.nodes.length =
              { (splitStep T1 cc).1.get T1.nodes.length with parent := some nid } := by
            show (((splitStep T1 cc).1.setNode nid P2).setNode T1.nodes.length _).get
              T1.nodes.length = _
            rw [get_setNode_self _ _ _ (by rw [length_setNode]; exact hnewlt4),
                get_setNode_ne _ _ _ _ (by omega)]
          have hT6getnid : T6.get nid = P2 := by
            show (((splitStep T1 cc).1.setNode nid P2).setNode T1.nodes.length _).get nid = _
            rw [get_setNode_ne _ _ _ _ (by omega)]
            exact get_setNode_self _ _ _ hnidlt4
          have hT6other : ∀ j, j ≠ nid → j ≠ T1.nodes.length →
              T6.get j = (splitStep T1 cc).1.get j := by
            intro j hj1 hj2
            show (((splitStep T1 cc).1.setNode nid P2).setNode T1.nodes.length _).get j = _
            rw [get_setNode_ne _ _ _ _ (fun he => hj2 he.symm),
                get_setNode_ne _ _ _ _ (fun he => hj1 he.symm)]
          -- id bookkeeping around the two halves
          have hndfreshc : (idsc ++ [T1.nodes.length]).Nodup := by
            rw [List.nodup_append]
            refine ⟨hndc, List.nodup_singleton _, ?_⟩
            intro a ha hmem
            rw [List.mem_singleton] at hmem
            have h2 := hidsclt a ha
            rw [hmem] at h2
            omega
          have hndc12 : (idsc1 ++ idsc2).Nodup := hpermc.symm.nodup hndfreshc
          have hmemc12 : ∀ j, j ∈ idsc1 ∨ j ∈ idsc2 →
              j ∈ idsc ∨ j = T1.nodes.length := by
            intro j hj
            have hjm : j ∈ idsc1 ++ idsc2 := by
              rcases hj with h1 | h1
              · exact List.mem_append_left _ h1
              · exact List.mem_append_right _ h1
            have := hpermc.mem_iff.mp hjm
            rcases List.mem_append.mp this with h1 | h1
            · exact Or.inl h1
            · rw [List.mem_singleton] at h1
              exact Or.inr h1
          have hnewinc2 : T1.nodes.length ∈ idsc2 :=
            rep_roots_mem hRnew T1.nodes.length (List.mem_singleton_self _)
          have hc1sub : ∀ j ∈ idsc1, j ∈ idsc := by
            intro j hj
            rcases hmemc12 j (Or.inl hj) with h1 | h1
            · exact h1
            · subst h1
              rw [List.nodup_append] at hndc12
              exact absurd hnewinc2 (hndc12.2.2 hj)
          have hT6idsc1 : ∀ j ∈ idsc1, T6.get j = (splitStep T1 cc).1.get j := by
            intro j hj
            have hjc : j ∈ idsc := hc1sub j hj
            refine hT6other j ?_ ?_
            · intro he
              subst he
              exact hnidc hjc
            · intro he
              have := hidsclt j hjc
              omega
          have hT6idsc2 : ∀ j ∈ idsc2, sameShape (T6.get j) ((splitStep T1 cc).1.get j)
              ∧ (j ∉ [T1.nodes.length] → (T6.get j).parent
                  = ((splitStep T1 cc).1.get j).parent) := by
            intro j hj
            by_cases he : j = T1.nodes.length
            · subst he
              rw [hT6getnew]
              refine ⟨⟨rfl, rfl, rfl, rfl, rfl⟩, ?_⟩
              intro hmem
              exact absurd (List.mem_singleton_self _) hmem
            · rcases hmemc12 j (Or.inr hj) with h1 | h1
              · have heq : T6.get j = (splitStep T1 cc).1.get j := by
                  refine hT6other j ?_ he
                  intro he2
                  subst he2
                  exact hnidc h1
                rw [heq]
                exact ⟨⟨rfl, rfl, rfl, rfl, rfl⟩, fun _ => rfl⟩
              · exact absurd h1 he
          have hRcc6 : RepF T6 [cc] lo2 [] (some s) kvsc1 lvc1 idsc1 := by
            rw [List.nodup_append] at hndc12
            apply rep_frame hRcc (by rw [hT6len, hlen4T]) hndc12.1
            · intro j hj
              rw [hT6idsc1 j hj]
              exact ⟨rfl, rfl, rfl, rfl, rfl⟩
            · intro j hj hjc
              rw [hT6idsc1 j hj]
          have hRnew6 : RepF T6 [T1.nodes.length] (some s) [] hi2 kvsc2 lvc2 idsc2 := by
            rw [List.nodup_append] at hndc12
            apply rep_frame hRnew (by rw [hT6len, hlen4T]) hndc12.2.1
            · intro j hj
              exact (hT6idsc2 j hj).1
            · intro j hj hjc
              exact (hT6idsc2 j hj).2 hjc
          -- pieces of the surrounding forest, carried to T6
          have hT6idsL : ∀ j ∈ idsL, T6.get j = T1.get j := by
            intro j hj
            have hjlt : j < T1.nodes.length := repSL_ids_lt hSL j hj
            have hjnid : j ≠ nid := fun he => hnidL (he ▸ hj)
            have hjc : j ∉ idsc :=
              fun hmem => hdisjLcR hj (List.mem_append_left _ hmem)
            rw [hT6other j hjnid (by omega), hframec j hjlt hjc]
          have hT6idsR : ∀ j ∈ idsR, T6.get j = T1.get j := by
            intro j hj
            have hjlt : j < T1.nodes.length := repSR_ids_lt hSR j hj
            have hjnid : j ≠ nid := fun he => hnidR (he ▸ hj)
            have hjc : j ∉ idsc := fun hmem => hdisjcR hmem hj
            rw [hT6other j hjnid (by omega), hframec j hjlt hjc]
          have hSL6 : RepSL T6 csL lo sepsL lo2 kvsL lvL idsL :=
            repSL_frame hSL (by rw [hT6len]; omega) hndL hT6idsL
          have hSR6 : RepSR T6 csR hi2 sepsR hi kvsR lvR idsR :=
            repSR_frame hSR (by rw [hT6len]; omega) hndR hT6idsR
          have hmid : RepF T6 [cc, T1.nodes.length] lo2 [s] hi2 (kvsc1 ++ kvsc2)
              (lvc1 ++ lvc2) (idsc1 ++ idsc2) :=
            RepF.consF cc [T1.nodes.length] lo2 hi2 s [] kvsc1 kvsc2 lvc1 lvc2 idsc1 idsc2
              hlos2 hshi2 hRcc6 hRnew6 (by simp)
          have hshiF : ubLT s hi := by
            rcases hSR with ⟨hcsR0, hsepsR0, hhi2eq, hA, hB, hC⟩ |
              ⟨sepsR1, sx, hsepsReq, hhi2eq, hsxhi, hrepRx⟩
            · rw [← hhi2eq]
              exact hshi2
            · subst hhi2eq
              exact ubLT_trans hshi2 hsxhi
          have hmidR : RepF T6 ([cc, T1.nodes.length] ++ csR) lo2 ([s] ++ sepsR) hi
              ((kvsc1 ++ kvsc2) ++ kvsR) ((lvc1 ++ lvc2) ++ lvR)
              ((idsc1 ++ idsc2) ++ idsR) := by
            rcases hSR6 with ⟨hcsR0, hsepsR0, hhi2eq, hkvsR0, hlvR0, hidsR0⟩ |
              ⟨sepsR1, sx, hsepsReq, hhi2eq, hsxhi, hrepRx⟩
            · subst hcsR0
              subst hsepsR0
              subst hkvsR0
              subst hlvR0
              subst hidsR0
              subst hhi2eq
              simpa using hmid
            · subst hsepsReq
              subst hhi2eq
              have := rep_append hmid hrepRx (lbLT_trans hlos2 hshi2) hsxhi
                (rep_cs_ne hrepRx)
              simpa using this
          have hfinalF : RepF T6 (csL ++ cc :: T1.nodes.length :: csR)
              lo (sepsL ++ s :: sepsR) hi
              (kvsL ++ ((kvsc1 ++ kvsc2) ++ kvsR)) (lvL ++ ((lvc1 ++ lvc2) ++ lvR))
              (idsL ++ ((idsc1 ++ idsc2) ++ idsR)) := by
            rcases hSL6 with ⟨hcsL0, hsepsL0, hlo2eq, hkvsL0, hlvL0, hidsL0⟩ |
              ⟨seps0, slast, hsepsLeq, hlo2eq, hlasthi, hrepLx⟩
            · subst hcsL0
              subst hsepsL0
              subst hkvsL0
              subst hlvL0
              subst hidsL0
              subst hlo2eq
              simpa using hmidR
            · subst hsepsLeq
              subst hlo2eq
              have hub : ubLT slast hi := ubLT_trans hlos2 hshiF
              have := rep_append hrepLx hmidR hlasthi hub (by simp)
              simpa [List.append_assoc] using this
          -- chain of the rebuilt leaves
          have hlvc1ne : lvc1 ≠ [] := rep_lv_ne hRcc
          have hlvcne : lvc ≠ [] := overfull_lv_ne hov
          have hT6ptrc : ∀ l ∈ lvc1 ++ lvc2,
              (T6.get l).pointer = ((splitStep T1 cc).1.get l).pointer := by
            intro l hl
            rcases List.mem_append.mp hl with h1 | h1
            · rw [hT6idsc1 l ((rep_lv_sublist hRcc).subset h1)]
            · have hli : l ∈ idsc2 := (rep_lv_sublist hRnew).subset h1
              have := (hT6idsc2 l hli).1
              exact this.2.2.2.2
          have hchainc6 : chainSeg T6 (lvc1 ++ lvc2) (nextHead lvR q) :=
            chainSeg_congr hchainc4 hT6ptrc
          have hne12 : lvc1 ++ lvc2 ≠ [] :=
            fun he => hlvc1ne (List.append_eq_nil.mp he).1
          have hchainL6 : chainSeg T6 lvL (nextHead ((lvc1 ++ lvc2) ++ lvR) q) := by
            have h1 : nextHead ((lvc1 ++ lvc2) ++ lvR) q = nextHead (lvc ++ lvR) q := by
              rw [nextHead_append _ _ _ hne12, nextHead_append _ _ _ hlvcne, hheadc]
            rw [h1, nextHead_append _ _ _ hlvcne]
            have h2 : nextHead lvc (nextHead lvR q) = some (lvc.headD 0) :=
              nextHead_of_ne _ _ hlvcne
            rw [← h2]
            refine chainSeg_congr hchainB.1 ?_
            intro l hl
            rw [hT6idsL l (repSL_lv_sub hSL l hl)]
          have hchainR6 : chainSeg T6 lvR q := by
            refine chainSeg_congr hchainA.2 ?_
            intro l hl
            rw [hT6idsR l (repSR_lv_sub hSR l hl)]
          have hchainFinal : chainSeg T6 (lvL ++ ((lvc1 ++ lvc2) ++ lvR)) q := by
            rw [chainSeg_append]
            refine ⟨?_, ?_⟩
            · exact hchainL6
            · rw [chainSeg_append]
              exact ⟨hchainc6, hchainR6⟩
          -- head of the rebuilt leaves
          have hheadFinal : (lvL ++ ((lvc1 ++ lvc2) ++ lvR)).headD 0 = lv.headD 0 := by
            rw [← hheadT]
            cases lvL with
            | nil =>
              show ((lvc1 ++ lvc2) ++ lvR).headD 0 = ((([] : List Nat) ++ lvc) ++ lvR).headD 0
              rw [headD_append _ _ _ hne12]
              rw [show (([] : List Nat) ++ lvc) ++ lvR = lvc ++ lvR from by simp]
              rw [headD_append _ _ _ hlvcne]
              exact hheadc
            | cons a lvL2 =>
              rfl
          -- well-formedness of the rebuilt id list
          have hpermBig : (idsL ++ ((idsc1 ++ idsc2) ++ idsR)).Perm
              (idsL ++ ((idsc ++ [T1.nodes.length]) ++ idsR)) :=
            ((hpermc.append_right idsR).append_left idsL)
          have hfresh : T1.nodes.length ∉ idsL ++ (idsc ++ idsR) := by
            intro hmem
            rcases List.mem_append.mp hmem with h1 | h1
            · have := repSL_ids_lt hSL _ h1
              omega
            · rcases List.mem_append.mp h1 with h2 | h2
              · have := hidsclt _ h2
                omega
              · have := repSR_ids_lt hSR _ h2
                omega
          have hndFinal : (idsL ++ ((idsc1 ++ idsc2) ++ idsR)).Nodup :=
            hpermBig.symm.nodup (nodup_mid_insert idsL idsc idsR _ hndT0 hfresh)
          have hmemFinal : ∀ j ∈ idsL ++ ((idsc1 ++ idsc2) ++ idsR),
              j ∈ idsL ∨ j ∈ idsc ∨ j ∈ idsR ∨ j = T1.nodes.length := by
            intro j hj
            rcases List.mem_append.mp hj with h1 | h1
            · exact Or.inl h1
            · rcases List.mem_append.mp h1 with h2 | h2
              · rcases hmemc12 j (by
                    rcases List.mem_append.mp h2 with h3 | h3
                    · exact Or.inl h3
                    · exact Or.inr h3) with h3 | h3
                · exact Or.inr (Or.inl h3)
                · exact Or.inr (Or.inr (Or.inr h3))
              · exact Or.inr (Or.inr (Or.inl h2))
          have hnidFinal : nid ∉ idsL ++ ((idsc1 ++ idsc2) ++ idsR) := by
            intro hmem
            rcases hmemFinal nid hmem with h1 | h1 | h1 | h1
            · exact hnidL h1
            · exact hnidc h1
            · exact hnidR h1
            · omega
          have hmemClause : ∀ j ∈ idsL ++ ((idsc1 ++ idsc2) ++ idsR),
              j ∈ nid :: ids ∨ t.nodes.length ≤ j := by
            intro j hj
            rcases hmemFinal j hj with h1 | h1 | h1 | h1
            · rcases hmemT3 j (Or.inl h1) with h2 | h2
              · exact Or.inl (List.mem_cons_of_mem _ h2)
              · exact Or.inr h2
            · rcases hmemT3 j (Or.inr (Or.inl h1)) with h2 | h2
              · exact Or.inl (List.mem_cons_of_mem _ h2)
              · exact Or.inr h2
            · rcases hmemT3 j (Or.inr (Or.inr h1)) with h2 | h2
              · exact Or.inl (List.mem_cons_of_mem _ h2)
              · exact Or.inr h2
            · rw [h1]
              exact Or.inr hlenT
          -- frame, root, parents
          have hframeFinal : ∀ j, j < t.nodes.length → j ∉ nid :: ids →
              T6.get j = t.get j := by
            intro j hj hjmem
            have hjnid : j ≠ nid := fun he => hjmem (he ▸ List.mem_cons_self _ _)
            have hjids : j ∉ ids := fun hmem => hjmem (List.mem_cons_of_mem _ hmem)
            have hjc : j ∉ idsc := by
              intro hmem
              rcases hmemT3 j (Or.inr (Or.inl hmem)) with h1 | h1
              · exact hjids h1
              · omega
            rw [hT6other j hjnid (by omega), hframec j (by omega) hjc,
                hframeT j hj hjids]
          have hrootFinal : T6.root = t.root := by
            show (((splitStep T1 cc).1.setNode nid P2).setNode T1.nodes.length
              _).root = t.root
            rw [root_setNode, root_setNode, hroot4, hrootT]
          have hkeysP2 : (T6.get nid).keys = sepsL ++ s :: sepsR := by
            rw [hT6getnid]
          have hchP2 : (T6.get nid).children = csL ++ cc :: T1.nodes.length :: csR := by
            rw [hT6getnid]
          have hleafP2 : (T6.get nid).is_leaf_node = false := by
            rw [hT6getnid]
            exact hleaf
          have hparP2 : (T6.get nid).parent = (t.get nid).parent := by
            rw [hT6getnid]
          have hparRoots : ∀ x ∈ csL ++ cc :: T1.nodes.length :: csR,
              (T6.get x).parent = some nid := by
            intro x hx
            rcases List.mem_append.mp hx with h1 | h1
            · rw [hT6idsL x (repSL_roots hSL x h1), hparT x (by
                  rw [hcseq]
                  exact List.mem_append_left _ h1)]
              exact hpar x (by rw [hcseq]; exact List.mem_append_left _ h1)
            · rcases List.mem_cons.mp h1 with h2 | h2
              · rw [h2]
                rw [show T6.get cc = (splitStep T1 cc).1.get cc from
                      hT6other cc hccnid (by omega)]
                rw [hparcc4, hparT cc hccmemcs]
                exact hpar cc hccmemcs
              · rcases List.mem_cons.mp h2 with h3 | h3
                · rw [h3, hT6getnew]
                · rw [hT6idsR x (repSR_roots hSR x h3), hparT x (by
                      rw [hcseq]
                      exact List.mem_append_right _ (List.mem_cons_of_mem _ h3))]
                  exact hpar x (by
                    rw [hcseq]
                    exact List.mem_append_right _ (List.mem_cons_of_mem _ h3))
          have hkvsFinal : sortedInsertKV kvs key value
              = kvsL ++ ((kvsc1 ++ kvsc2) ++ kvsR) := by
            rw [hkvseq, hkvsc12]
            simp [List.append_assoc]
          have hlenT6t : t.nodes.length ≤ T6.nodes.length := by
            rw [hT6len]
            omega
          by_cases hbig : (T6.get nid).keys.length > 4
          · rw [if_pos hbig]
            right
            refine ⟨T6, f1, nid, lo, hi, sortedInsertKV kvs key value,
              lvL ++ ((lvc1 ++ lvc2) ++ lvR), nid :: (idsL ++ ((idsc1 ++ idsc2) ++ idsR)),
              [], [], [], [], [], [], [], [], [], [],
              rfl, rfl, rfl, Or.inl ⟨rfl, rfl, rfl, rfl, rfl, rfl⟩,
              Or.inl ⟨rfl, rfl, rfl, rfl, rfl, rfl⟩, ?_, by simp, ?_, ?_, ?_, ?_,
              hlenT6t, hrootFinal, ?_, ?_, ?_⟩
            · refine ⟨by rw [hT6len]; omega, Or.inr ⟨csL ++ cc :: T1.nodes.length :: csR,
                sepsL ++ s :: sepsR, idsL ++ ((idsc1 ++ idsc2) ++ idsR),
                hleafP2, hkeysP2, hchP2, hparRoots, ?_, rfl, ?_⟩⟩
              · rw [hkvsFinal]
                exact hfinalF
              · rw [hkeysP2] at hbig
                exact hbig
            · show chainSeg T6 ([] ++ (lvL ++ ((lvc1 ++ lvc2) ++ lvR)) ++ []) q
              rw [show ([] ++ (lvL ++ ((lvc1 ++ lvc2) ++ lvR)) ++ [] : List Nat)
                    = lvL ++ ((lvc1 ++ lvc2) ++ lvR) from by simp]
              exact hchainFinal
            · show ([] ++ (lvL ++ ((lvc1 ++ lvc2) ++ lvR)) ++ []).headD 0 = lv.headD 0
              rw [show ([] ++ (lvL ++ ((lvc1 ++ lvc2) ++ lvR)) ++ [] : List Nat)
                    = lvL ++ ((lvc1 ++ lvc2) ++ lvR) from by simp]
              exact hheadFinal
            · show (([] : List Nat) ++ ((nid :: (idsL ++ ((idsc1 ++ idsc2) ++ idsR))) ++ [])).Nodup
              rw [show (([] : List Nat) ++ ((nid :: (idsL ++ ((idsc1 ++ idsc2) ++ idsR))) ++ []))
                    = nid :: (idsL ++ ((idsc1 ++ idsc2) ++ idsR)) from by simp]
              rw [List.nodup_cons]
              exact ⟨hnidFinal, hndFinal⟩
            · intro j hj
              rw [show (([] : List Nat) ++ ((nid :: (idsL ++ ((idsc1 ++ idsc2) ++ idsR))) ++ []))
                    = nid :: (idsL ++ ((idsc1 ++ idsc2) ++ idsR)) from by simp] at hj
              rcases List.mem_cons.mp hj with h1 | h1
              · rw [h1]
                exact Or.inl (List.mem_cons_self _ _)
              · exact hmemClause j h1
            · exact hframeFinal
            · intro x hx
              rw [List.mem_singleton] at hx
              rw [hx]
              exact hparP2
            · show sfuel + 1 ≤ f1 + (nid :: ids).length
              rw [List.length_cons]
              omega
          · rw [if_neg hbig]
            left
            refine ⟨lvL ++ ((lvc1 ++ lvc2) ++ lvR),
              nid :: (idsL ++ ((idsc1 ++ idsc2) ++ idsR)), ?_, ?_, ?_, hchainFinal,
              hheadFinal, hlenT6t, hrootFinal, hframeFinal, ?_⟩
            · refine RepF.node nid lo hi (csL ++ cc :: T1.nodes.length :: csR)
                (sepsL ++ s :: sepsR) (sortedInsertKV kvs key value)
                (lvL ++ ((lvc1 ++ lvc2) ++ lvR)) (idsL ++ ((idsc1 ++ idsc2) ++ idsR))
                (by rw [hT6len]; omega) hleafP2 hkeysP2 (by
                  intro he
                  rcases List.append_eq_nil.mp he with ⟨hA, hB⟩
                  exact absurd hB (by simp)) hchP2 hparRoots ?_
              rw [hkvsFinal]
              exact hfinalF
            · rw [List.nodup_cons]
              exact ⟨hnidFinal, hndFinal⟩
            · intro j hj
              rcases List.mem_cons.mp hj with h1 | h1
              · rw [h1]
                exact Or.inl (List.mem_cons_self _ _)
              · exact hmemClause j h1
            · intro x hx
              rw [List.mem_singleton] at hx
              rw [hx]
              exact hparP2
  | consF c cs lo hi s seps kvs1 kvs2 lv1 lv2 ids1 ids2 hlos hshi h1 h2 hcs ih1 ih2 =>
    intro key value q fuel sfuel hlo hhi hnotin hnd hchain hfuel hsfuel
    rw [List.nodup_append] at hnd
    obtain ⟨hnd1, hnd2, hdisj⟩ := hnd
    have hchain12 := (chainSeg_append t lv1 lv2 q).mp hchain
    have hids1lt := rep_ids_lt h1
    have hids2lt := rep_ids_lt h2
    have hlv1ne : lv1 ≠ [] := rep_lv_ne h1
    have hlv2ne : lv2 ≠ [] := rep_lv_ne h2
    have hrp : routePos key (s :: seps) = (if key ≥ s then routePos key seps + 1 else 0) :=
      rfl
    have hfuel2 : ids2.length ≤ fuel := by
      rw [List.length_append] at hfuel
      omega
    have hsfuel2 : ids2.length ≤ sfuel := by
      rw [List.length_append] at hsfuel
      omega
    have hfuel1 : ids1.length ≤ fuel := by
      rw [List.length_append] at hfuel
      omega
    have hsfuel1 : ids1.length ≤ sfuel := by
      rw [List.length_append] at hsfuel
      omega
    by_cases hks : key ≥ s
    · have hnotin2 : key ∉ kvs2.map Prod.fst := by
        intro hmem
        exact hnotin (by rw [List.map_append, List.mem_append]; exact Or.inr hmem)
      obtain ⟨lid, ks, vs, hdesc, hins, hout⟩ :=
        ih2 key value q fuel sfuel hks hhi hnotin2 hnd2 hchain12.2 hfuel2 hsfuel2
      refine ⟨lid, ks, vs, ?_, hins, ?_⟩
      · rw [hrp, if_pos hks]
        exact hdesc
      · set W := (if 4 ≤ ks.length then
            BPlusTree.split_node
              (t.setNode lid { t.get lid with keys := ks, values := vs }) lid sfuel
          else t.setNode lid { t.get lid with keys := ks, values := vs }) with hWdef
        have hkvs1lt : ∀ p ∈ kvs1, p.1 < key := by
          intro p hp
          have hpm : p.1 ∈ kvs1.map Prod.fst := List.mem_map_of_mem Prod.fst hp
          have hb := (rep_kvs_bounds h1 p.1 hpm).2
          have h3 : p.1 < s := hb
          have h4 : s ≤ key := hks
          omega
        have hkvs' : sortedInsertKV (kvs1 ++ kvs2) key value
            = kvs1 ++ sortedInsertKV kvs2 key value :=
          sortedInsertKV_append_left _ _ _ _ hkvs1lt
        rcases hout with
          ⟨lv2x, ids2x, hrepV, hnd2x, hmem2x, hchain2x, hhead2x, hlenV, hrootV, hframeV,
            hparV⟩ |
          ⟨T1, fuel1, cc, lo2, hi2, kvsc, lvc, idsc, csL, csR, sepsL, sepsR, kvsL, kvsR,
            lvL, lvR, idsL, idsR, hVeq, hcseq, hsepseq, hSL, hSR, hov, hkvseq, hchainT,
            hheadT, hndT, hmemT, hlenT, hrootT, hframeT, hparT, hfuelT⟩
        · left
          have hfr1 : ∀ j ∈ ids1, W.get j = t.get j := by
            intro j hj
            exact hframeV j (hids1lt j hj) (fun hmem => hdisj hj hmem)
          have h1V : RepF W [c] lo [] (some s) kvs1 lv1 ids1 := by
            apply rep_frame h1 hlenV hnd1
            · intro j hj
              rw [hfr1 j hj]
              exact ⟨rfl, rfl, rfl, rfl, rfl⟩
            · intro j hj hjc
              rw [hfr1 j hj]
          refine ⟨lv1 ++ lv2x, ids1 ++ ids2x, ?_, ?_, ?_, ?_, ?_, hlenV, hrootV, ?_, ?_⟩
          · rw [hkvs']
            exact RepF.consF c cs lo hi s seps kvs1 _ lv1 lv2x ids1 ids2x hlos hshi h1V
              hrepV hcs
          · rw [List.nodup_append]
            refine ⟨hnd1, hnd2x, ?_⟩
            intro a ha hmem
            rcases hmem2x a hmem with hA | hA
            · exact hdisj ha hA
            · have := hids1lt a ha
              omega
          · intro j hj
            rcases List.mem_append.mp hj with hA | hA
            · exact Or.inl (List.mem_append_left _ hA)
            · rcases hmem2x j hA with hB | hB
              · exact Or.inl (List.mem_append_right _ hB)
              · exact Or.inr hB
          · rw [chainSeg_append]
            refine ⟨?_, hchain2x⟩
            have hlv2xne : lv2x ≠ [] := rep_lv_ne hrepV
            rw [nextHead_of_ne _ _ hlv2xne, hhead2x, ← nextHead_of_ne lv2 q hlv2ne]
            refine chainSeg_congr hchain12.1 ?_
            intro l hl
            rw [hfr1 l ((rep_lv_sublist h1).subset hl)]
          · rw [headD_append _ _ _ hlv1ne, headD_append _ _ _ hlv1ne]
          · intro j hj hjmem
            refine hframeV j hj ?_
            intro hmem
            exact hjmem (List.mem_append_right _ hmem)
          · intro x hx
            rcases List.mem_cons.mp hx with hA | hA
            · rw [hA, hfr1 c (rep_roots_mem h1 c (List.mem_singleton_self c))]
            · exact hparV x hA
        · right
          have hfrT1 : ∀ j ∈ ids1, T1.get j = t.get j := by
            intro j hj
            exact hframeT j (hids1lt j hj) (fun hmem => hdisj hj hmem)
          have h1T1 : RepF T1 [c] lo [] (some s) kvs1 lv1 ids1 := by
            apply rep_frame h1 hlenT hnd1
            · intro j hj
              rw [hfrT1 j hj]
              exact ⟨rfl, rfl, rfl, rfl, rfl⟩
            · intro j hj hjc
              rw [hfrT1 j hj]
          refine ⟨T1, fuel1, cc, lo2, hi2, kvsc, lvc, idsc, c :: csL, csR, s :: sepsL,
            sepsR, kvs1 ++ kvsL, kvsR, lv1 ++ lvL, lvR, ids1 ++ idsL, idsR, hVeq, ?_, ?_,
            ?_, hSR, hov, ?_, ?_, ?_, ?_, ?_, hlenT, hrootT, ?_, ?_, ?_⟩
          · rw [hcseq]
            rfl
          · rw [hsepseq]
            rfl
          · exact repSL_cons h1T1 hlos hSL
          · rw [hkvs', hkvseq]
            simp [List.append_assoc]
          · have hlvcne : lvc ≠ [] := overfull_lv_ne hov
            have hLRne : (lvL ++ lvc) ++ lvR ≠ [] := by
              intro he
              exact hlvcne (List.append_eq_nil.mp (List.append_eq_nil.mp he).1).2
            show chainSeg T1 (((lv1 ++ lvL) ++ lvc) ++ lvR) q
            rw [show ((lv1 ++ lvL) ++ lvc) ++ lvR = lv1 ++ ((lvL ++ lvc) ++ lvR) from by
                  simp [List.append_assoc]]
            rw [chainSeg_append]
            refine ⟨?_, hchainT⟩
            rw [nextHead_of_ne _ _ hLRne, hheadT, ← nextHead_of_ne lv2 q hlv2ne]
            refine chainSeg_congr hchain12.1 ?_
            intro l hl
            rw [hfrT1 l ((rep_lv_sublist h1).subset hl)]
          · show (((lv1 ++ lvL) ++ lvc) ++ lvR).headD 0 = (lv1 ++ lv2).headD 0
            rw [show ((lv1 ++ lvL) ++ lvc) ++ lvR = lv1 ++ ((lvL ++ lvc) ++ lvR) from by
                  simp [List.append_assoc],
                headD_append _ _ _ hlv1ne, headD_append _ _ _ hlv1ne]
          · show ((ids1 ++ idsL) ++ (idsc ++ idsR)).Nodup
            rw [show (ids1 ++ idsL) ++ (idsc ++ idsR)
                  = ids1 ++ (idsL ++ (idsc ++ idsR)) from by simp [List.append_assoc]]
            rw [List.nodup_append]
            refine ⟨hnd1, hndT, ?_⟩
            intro a ha hmem
            rcases hmemT a hmem with hA | hA
            · exact hdisj ha hA
            · have := hids1lt a ha
              omega
          · intro j hj
            rw [show (ids1 ++ idsL) ++ (idsc ++ idsR)
                  = ids1 ++ (idsL ++ (idsc ++ idsR)) from by simp [List.append_assoc]] at hj
            rcases List.mem_append.mp hj with hA | hA
            · exact Or.inl (List.mem_append_left _ hA)
            · rcases hmemT j hA with hB | hB
              · exact Or.inl (List.mem_append_right _ hB)
              · exact Or.inr hB
          · intro j hj hjmem
            refine hframeT j hj ?_
            intro hmem
            exact hjmem (List.mem_append_right _ hmem)
          · intro x hx
            rcases List.mem_cons.mp hx with hA | hA
            · rw [hA, hfrT1 c (rep_roots_mem h1 c (List.mem_singleton_self c))]
            · exact hparT x hA
          · show sfuel + 1 ≤ fuel1 + (ids1 ++ ids2).length
            rw [List.length_append]
            omega
    · have hnotin1 : key ∉ kvs1.map Prod.fst := by
        intro hmem
        exact hnotin (by rw [List.map_append, List.mem_append]; exact Or.inl hmem)
      have hkhi1 : ubLT key (some s) := by
        show key < s
        omega
      obtain ⟨lid, ks, vs, hdesc, hins, hout⟩ :=
        ih1 key value (nextHead lv2 q) fuel sfuel hlo hkhi1 hnotin1 hnd1 hchain12.1
          hfuel1 hsfuel1
      refine ⟨lid, ks, vs, ?_, hins, ?_⟩
      · rw [hrp, if_neg hks]
        exact hdesc
      · set W := (if 4 ≤ ks.length then
            BPlusTree.split_node
              (t.setNode lid { t.get lid with keys := ks, values := vs }) lid sfuel
          else t.setNode lid { t.get lid with keys := ks, values := vs }) with hWdef
        have hkvs2ge : ∀ p ∈ kvs2, ¬ p.1 < key := by
          intro p hp
          have hpm : p.1 ∈ kvs2.map Prod.fst := List.mem_map_of_mem Prod.fst hp
          have hb := (rep_kvs_bounds h2 p.1 hpm).1
          have h3 : s ≤ p.1 := hb
          have h4 : ¬ s ≤ key := hks
          omega
        have hkvs' : sortedInsertKV (kvs1 ++ kvs2) key value
            = sortedInsertKV kvs1 key value ++ kvs2 :=
          sortedInsertKV_append_right _ _ _ _ hkvs2ge
        rcases hout with
          ⟨lv1x, ids1x, hrepV, hnd1x, hmem1x, hchain1x, hhead1x, hlenV, hrootV, hframeV,
            hparV⟩ |
          ⟨T1, fuel1, cc, lo2, hi2, kvsc, lvc, idsc, csL, csR, sepsL, sepsR, kvsL, kvsR,
            lvL, lvR, idsL, idsR, hVeq, hcseq, hsepseq, hSL, hSR, hov, hkvseq, hchainT,
            hheadT, hndT, hmemT, hlenT, hrootT, hframeT, hparT, hfuelT⟩
        · left
          have hfr2 : ∀ j ∈ ids2, W.get j = t.get j := by
            intro j hj
            exact hframeV j (hids2lt j hj) (fun hmem => hdisj hmem hj)
          have h2V : RepF W cs (some s) seps hi kvs2 lv2 ids2 := by
            apply rep_frame h2 hlenV hnd2
            · intro j hj
              rw [hfr2 j hj]
              exact ⟨rfl, rfl, rfl, rfl, rfl⟩
            · intro j hj hjc
              rw [hfr2 j hj]
          refine ⟨lv1x ++ lv2, ids1x ++ ids2, ?_, ?_, ?_, ?_, ?_, hlenV, hrootV, ?_, ?_⟩
          · rw [hkvs']
            exact RepF.consF c cs lo hi s seps _ kvs2 lv1x lv2 ids1x ids2 hlos hshi hrepV
              h2V hcs
          · rw [List.nodup_append]
            refine ⟨hnd1x, hnd2, ?_⟩
            intro a ha hmem
            rcases hmem1x a ha with hA | hA
            · exact hdisj hA hmem
            · have := hids2lt a hmem
              omega
          · intro j hj
            rcases List.mem_append.mp hj with hA | hA
            · rcases hmem1x j hA with hB | hB
              · exact Or.inl (List.mem_append_left _ hB)
              · exact Or.inr hB
            · exact Or.inl (List.mem_append_right _ hA)
          · rw [chainSeg_append]
            refine ⟨?_, ?_⟩
            · have hlv1xne : lv1x ≠ [] := rep_lv_ne hrepV
              rw [nextHead_of_ne _ _ hlv2ne]
              rw [← nextHead_of_ne lv2 q hlv2ne]
              exact hchain1x
            · refine chainSeg_congr hchain12.2 ?_
              intro l hl
              rw [hfr2 l ((rep_lv_sublist h2).subset hl)]
          · have hlv1xne : lv1x ≠ [] := rep_lv_ne hrepV
            rw [headD_append _ _ _ hlv1xne, headD_append _ _ _ hlv1ne, hhead1x]
          · intro j hj hjmem
            refine hframeV j hj ?_
            intro hmem
            exact hjmem (List.mem_append_left _ hmem)
          · intro x hx
            rcases List.mem_cons.mp hx with hA | hA
            · rw [hA]
              exact hparV c (List.mem_singleton_self c)
            · rw [hfr2 x (rep_roots_mem h2 x hA)]
        · right
          obtain ⟨hcsL0, hccc, hcsR0⟩ : csL = [] ∧ cc = c ∧ csR = [] := by
            cases csL with
            | nil =>
              rw [List.nil_append] at hcseq
              injection hcseq with hA hB
              exact ⟨rfl, hA.symm, hB.symm⟩
            | cons x xs =>
              rw [List.cons_append] at hcseq
              injection hcseq with hA hB
              exact absurd hB.symm (by simp)
          subst hcsL0
          subst hcsR0
          subst hccc
          have hsepsL0 : sepsL = [] := (List.append_eq_nil.mp hsepseq.symm).1
          have hsepsR0 : sepsR = [] := (List.append_eq_nil.mp hsepseq.symm).2
          subst hsepsL0
          subst hsepsR0
          rcases hSL with ⟨hA1, hB1, hlo2eq, hkvsL0, hlvL0, hidsL0⟩ |
            ⟨seps0, sx, hseq, hC1, hD1, hE1⟩
          swap
          · exact absurd hseq.symm (by simp)
          subst hkvsL0
          subst hlvL0
          subst hidsL0
          rcases hSR with ⟨hA2, hB2, hhi2eq, hkvsR0, hlvR0, hidsR0⟩ |
            ⟨seps1, sx, hseq2, hC2, hD2, hE2⟩
          swap
          · exact absurd hseq2 (by simp)
          subst hkvsR0
          subst hlvR0
          subst hidsR0
          subst hhi2eq
          have hfrT2 : ∀ j ∈ ids2, T1.get j = t.get j := by
            intro j hj
            exact hframeT j (hids2lt j hj) (fun hmem => hdisj hmem hj)
          have h2T1 : RepF T1 cs (some s) seps hi kvs2 lv2 ids2 := by
            apply rep_frame h2 hlenT hnd2
            · intro j hj
              rw [hfrT2 j hj]
              exact ⟨rfl, rfl, rfl, rfl, rfl⟩
            · intro j hj hjc
              rw [hfrT2 j hj]
          have hkvscx : sortedInsertKV kvs1 key value = kvsc := by
            simpa using hkvseq
          have hlvcne : lvc ≠ [] := overfull_lv_ne hov
          refine ⟨T1, fuel1, cc, lo2, some s, kvsc, lvc, idsc, [], cs, [], s :: seps,
            [], kvs2, [], lv2, [], ids2, hVeq, rfl, rfl,
            Or.inl ⟨rfl, rfl, hlo2eq, rfl, rfl, rfl⟩, ?_, hov, ?_, ?_, ?_, ?_, ?_, hlenT,
            hrootT, ?_, ?_, ?_⟩
          · exact Or.inr ⟨seps, s, rfl, rfl, hshi, h2T1⟩
          · rw [hkvs', hkvscx]
            simp
          · show chainSeg T1 (([] ++ lvc) ++ lv2) q
            rw [show (([] : List Nat) ++ lvc) ++ lv2 = lvc ++ lv2 from by simp]
            rw [chainSeg_append]
            refine ⟨?_, ?_⟩
            · have hsub : chainSeg T1 (([] ++ lvc) ++ []) (nextHead lv2 q) := hchainT
              rw [show (([] : List Nat) ++ lvc) ++ [] = lvc from by simp] at hsub
              rw [nextHead_of_ne _ _ hlv2ne]
              rw [← nextHead_of_ne lv2 q hlv2ne]
              exact hsub
            · refine chainSeg_congr hchain12.2 ?_
              intro l hl
              rw [hfrT2 l ((rep_lv_sublist h2).subset hl)]
          · show (([] ++ lvc) ++ lv2).headD 0 = (lv1 ++ lv2).headD 0
            have hsubh : (([] ++ lvc) ++ []).headD 0 = lv1.headD 0 := hheadT
            rw [show (([] : List Nat) ++ lvc) ++ [] = lvc from by simp] at hsubh
            rw [show (([] : List Nat) ++ lvc) ++ lv2 = lvc ++ lv2 from by simp]
            rw [headD_append _ _ _ hlvcne, headD_append _ _ _ hlv1ne]
            exact hsubh
          · show (([] : List Nat) ++ (idsc ++ ids2)).Nodup
            have hndcx : idsc.Nodup := by
              have := hndT
              simpa using this
            rw [List.nil_append, List.nodup_append]
            refine ⟨hndcx, hnd2, ?_⟩
            intro a ha hmem
            have haM : a ∈ ([] : List Nat) ++ (idsc ++ []) := by
              simp
              exact ha
            rcases hmemT a haM with hA | hA
            · exact hdisj hA hmem
            · have := hids2lt a hmem
              omega
          · intro j hj
            rw [List.nil_append] at hj
            rcases List.mem_append.mp hj with hA | hA
            · have haM : j ∈ ([] : List Nat) ++ (idsc ++ []) := by
                simp
                exact hA
              rcases hmemT j haM with hB | hB
              · exact Or.inl (List.mem_append_left _ hB)
              · exact Or.inr hB
            · exact Or.inl (List.mem_append_right _ hA)
          · intro j hj hjmem
            refine hframeT j hj ?_
            intro hmem
            exact hjmem (List.mem_append_left _ hmem)
          · intro x hx
            rcases List.mem_cons.mp hx with hA | hA
            · rw [hA]
              exact hparT cc (List.mem_singleton_self cc)
            · rw [hfrT2 x (rep_roots_mem h2 x hA)]
          · show sfuel + 1 ≤ fuel1 + (ids1 ++ ids2).length
            rw [List.length_append]
            omega

lemma splitNewRoot_root (t4 : BPlusTree) (nid newId : Nat) (s : Int) :
    (splitNewRoot t4 nid newId s).root = t4.nodes.length := rfl

lemma splitNewRoot_len (t4 : BPlusTree) (nid newId : Nat) (s : Int) :
    (splitNewRoot t4 nid newId s).nodes.length = t4.nodes.length + 1 := by
  show (((t4.nodes ++ [_]).set nid _).set newId _).length = t4.nodes.length + 1
  rw [List.length_set, List.length_set, List.length_append]
  rfl

lemma splitNewRoot_get (t4 : BPlusTree) (nid newId : Nat) (s : Int) (j : Nat)
    (hnid : nid < t4.nodes.length) (hnew : newId < t4.nodes.length) (hne : nid ≠ newId) :
    (splitNewRoot t4 nid newId s).get j =
      if j = newId then { t4.get newId with parent := some t4.nodes.length }
      else if j = nid then { t4.get nid with parent := some t4.nodes.length }
      else if j = t4.nodes.length then
        { is_leaf_node := false, keys := [s], values := [], children := [nid, newId],
          parent := none, pointer := none }
      else t4.get j := by
  show (((t4.nodes ++ [_]).set nid _).set newId _).getD j default = _
  by_cases hj1 : j = newId
  · subst hj1
    rw [if_pos rfl]
    rw [getD_set_self _ _ _
      (by rw [List.length_set, List.length_append, List.length_singleton]; omega)]
    exact congrArg (fun nd => { nd with parent := some t4.nodes.length })
      ((getD_set_ne _ _ _ _ hne).trans (getD_append_left _ _ _ hnew))
  · by_cases hj2 : j = nid
    · subst hj2
      rw [if_neg hj1, if_pos rfl]
      rw [getD_set_ne _ _ _ _ (fun h => hj1 h.symm)]
      rw [getD_set_self _ _ _
        (by rw [List.length_append, List.length_singleton]; omega)]
      exact congrArg (fun nd => { nd with parent := some t4.nodes.length })
        (getD_append_left _ _ _ hnid)
    · by_cases hj3 : j = t4.nodes.length
      · subst hj3
        rw [if_neg hj1, if_neg hj2, if_pos rfl]
        rw [getD_set_ne _ _ _ _ (Nat.ne_of_lt hnew),
            getD_set_ne _ _ _ _ (Nat.ne_of_lt hnid)]
        exact getD_append_last _ _
      · rw [if_neg hj1, if_neg hj2, if_neg hj3]
        rw [getD_set_ne _ _ _ _ (fun h => hj1 h.symm),
            getD_set_ne _ _ _ _ (fun h => hj2 h.symm)]
        by_cases hj4 : j < t4.nodes.length
        · exact getD_append_left _ _ _ hj4
        · show (t4.nodes ++ [_]).getD j default = t4.nodes.getD j default
          rw [List.getD_eq_default _ _
                (by rw [List.length_append, List.length_singleton]; omega),
              List.getD_eq_default _ _ (by omega)]

lemma nodup_length_le {l : List Nat} {n : Nat} (hnd : l.Nodup) (hlt : ∀ x ∈ l, x < n) :
    l.length ≤ n := by
  classical
  have hc : l.toFinset.card = l.length := List.toFinset_card_of_nodup hnd
  have hsub : l.toFinset ⊆ Finset.range n := by
    intro x hx
    rw [List.mem_toFinset] at hx
    rw [Finset.mem_range]
    exact hlt x hx
  have hle := Finset.card_le_card hsub
  rw [hc, Finset.card_range] at hle
  exact hle

lemma newRoot_wf {T4 : BPlusTree} {nid newId : Nat} {s : Int}
    {kvs1 kvs2 : List (Int × Int)} {lv1 lv2 ids1 ids2 : List Nat}
    (hrep1 : RepF T4 [nid] none [] (some s) kvs1 lv1 ids1)
    (hrep2 : RepF T4 [newId] (some s) [] none kvs2 lv2 ids2)
    (hnd : (ids1 ++ ids2).Nodup)
    (hchain : chainSeg T4 (lv1 ++ lv2) none) :
    TreeWF (splitNewRoot T4 nid newId s) (kvs1 ++ kvs2) := by
  obtain ⟨hnd1, hnd2, hdisj⟩ := List.nodup_append.mp hnd
  have hmem1 : nid ∈ ids1 := rep_roots_mem hrep1 nid (List.mem_singleton_self nid)
  have hmem2 : newId ∈ ids2 := rep_roots_mem hrep2 newId (List.mem_singleton_self newId)
  have hnid : nid < T4.nodes.length := rep_ids_lt hrep1 nid hmem1
  have hnew : newId < T4.nodes.length := rep_ids_lt hrep2 newId hmem2
  have hne : nid ≠ newId := fun h => hdisj hmem1 (h ▸ hmem2)
  have hlenW : (splitNewRoot T4 nid newId s).nodes.length = T4.nodes.length + 1 :=
    splitNewRoot_len T4 nid newId s
  have hlenW2 : T4.nodes.length ≤ (splitNewRoot T4 nid newId s).nodes.length := by
    rw [hlenW]
    omega
  have hframe : ∀ j, j ≠ nid → j ≠ newId → j ≠ T4.nodes.length →
      (splitNewRoot T4 nid newId s).get j = T4.get j := by
    intro j h1 h2 h3
    rw [splitNewRoot_get T4 nid newId s j hnid hnew hne, if_neg h2, if_neg h1, if_neg h3]
  have hshape1 : ∀ j ∈ ids1, sameShape ((splitNewRoot T4 nid newId s).get j) (T4.get j) := by
    intro j hj
    by_cases e1 : j = newId
    · rw [splitNewRoot_get T4 nid newId s j hnid hnew hne, if_pos e1, e1]
      exact ⟨rfl, rfl, rfl, rfl, rfl⟩
    · by_cases e2 : j = nid
      · rw [splitNewRoot_get T4 nid newId s j hnid hnew hne, if_neg e1, if_pos e2, e2]
        exact ⟨rfl, rfl, rfl, rfl, rfl⟩
      · rw [hframe j e2 e1 (Nat.ne_of_lt (rep_ids_lt hrep1 j hj))]
        exact ⟨rfl, rfl, rfl, rfl, rfl⟩
  have hshape2 : ∀ j ∈ ids2, sameShape ((splitNewRoot T4 nid newId s).get j) (T4.get j) := by
    intro j hj
    by_cases e1 : j = newId
    · rw [splitNewRoot_get T4 nid newId s j hnid hnew hne, if_pos e1, e1]
      exact ⟨rfl, rfl, rfl, rfl, rfl⟩
    · by_cases e2 : j = nid
      · rw [splitNewRoot_get T4 nid newId s j hnid hnew hne, if_neg e1, if_pos e2, e2]
        exact ⟨rfl, rfl, rfl, rfl, rfl⟩
      · rw [hframe j e2 e1 (Nat.ne_of_lt (rep_ids_lt hrep2 j hj))]
        exact ⟨rfl, rfl, rfl, rfl, rfl⟩
  have h1W : RepF (splitNewRoot T4 nid newId s) [nid] none [] (some s) kvs1 lv1 ids1 := by
    apply rep_frame hrep1 hlenW2 hnd1 hshape1
    intro j hj hjnot
    have e2 : j ≠ nid := fun h => hjnot (h ▸ List.mem_singleton_self nid)
    have e1 : j ≠ newId := fun h => hdisj hj (h ▸ hmem2)
    rw [hframe j e2 e1 (Nat.ne_of_lt (rep_ids_lt hrep1 j hj))]
  have h2W : RepF (splitNewRoot T4 nid newId s) [newId] (some s) [] none kvs2 lv2 ids2 := by
    apply rep_frame hrep2 hlenW2 hnd2 hshape2
    intro j hj hjnot
    have e1 : j ≠ newId := fun h => hjnot (h ▸ List.mem_singleton_self newId)
    have e2 : j ≠ nid := fun h => hdisj hmem1 (h ▸ hj)
    rw [hframe j e2 e1 (Nat.ne_of_lt (rep_ids_lt hrep2 j hj))]
  have hlenne : T4.nodes.length ≠ newId := Nat.ne_of_gt hnew
  have hlenne2 : T4.nodes.length ≠ nid := Nat.ne_of_gt hnid
  have hgetRoot : (splitNewRoot T4 nid newId s).get T4.nodes.length =
      { is_leaf_node := false, keys := [s], values := [], children := [nid, newId],
        parent := none, pointer := none } := by
    rw [splitNewRoot_get T4 nid newId s T4.nodes.length hnid hnew hne, if_neg hlenne,
        if_neg hlenne2, if_pos rfl]
  have hrootrep : RepF (splitNewRoot T4 nid newId s) [T4.nodes.length] none [] none
      (kvs1 ++ kvs2) (lv1 ++ lv2) (T4.nodes.length :: (ids1 ++ ids2)) := by
    refine RepF.node T4.nodes.length none none [nid, newId] [s] (kvs1 ++ kvs2)
      (lv1 ++ lv2) (ids1 ++ ids2) ?_ ?_ ?_ ?_ ?_ ?_ ?_
    · rw [hlenW]
      omega
    · rw [hgetRoot]
    · rw [hgetRoot]
    · exact List.cons_ne_nil s []
    · rw [hgetRoot]
    · intro c hc
      rcases List.mem_cons.mp hc with e | e
      · rw [splitNewRoot_get T4 nid newId s c hnid hnew hne,
            if_neg (fun h => hne (e.symm.trans h)), if_pos e]
      · rw [List.mem_singleton] at e
        rw [splitNewRoot_get T4 nid newId s c hnid hnew hne, if_pos e]
    · exact RepF.consF nid [newId] none none s [] kvs1 kvs2 lv1 lv2 ids1 ids2 trivial
        trivial h1W h2W (List.cons_ne_nil newId [])
  refine ⟨lv1 ++ lv2, T4.nodes.length :: (ids1 ++ ids2), hrootrep, ?_, ?_, ?_⟩
  · rw [List.nodup_cons]
    refine ⟨?_, hnd⟩
    intro hmemc
    rcases List.mem_append.mp hmemc with hA | hA
    · exact absurd (rep_ids_lt hrep1 _ hA) (lt_irrefl _)
    · exact absurd (rep_ids_lt hrep2 _ hA) (lt_irrefl _)
  · show ((splitNewRoot T4 nid newId s).get T4.nodes.length).parent = none
    rw [hgetRoot]
  · refine chainSeg_congr hchain ?_
    intro l hl
    have hlin : l ∈ ids1 ++ ids2 := by
      rcases List.mem_append.mp hl with hA | hA
      · exact List.mem_append_left _ ((rep_lv_sublist hrep1).subset hA)
      · exact List.mem_append_right _ ((rep_lv_sublist hrep2).subset hA)
    have e3 : l ≠ T4.nodes.length := by
      rcases List.mem_append.mp hlin with hA | hA
      · exact Nat.ne_of_lt (rep_ids_lt hrep1 _ hA)
      · exact Nat.ne_of_lt (rep_ids_lt hrep2 _ hA)
    by_cases e1 : l = newId
    · rw [splitNewRoot_get T4 nid newId s l hnid hnew hne, if_pos e1, e1]
    · by_cases e2 : l = nid
      · rw [splitNewRoot_get T4 nid newId s l hnid hnew hne, if_neg e1, if_pos e2, e2]
      · rw [hframe l e2 e1 e3]

lemma search_wf {t : BPlusTree} {kvs : List (Int × Int)} (h : TreeWF t kvs)
    (key : Int) : t.search key = dictLookup kvs key := by
  obtain ⟨lv, ids, hrep, hnd, hpar, hchain⟩ := h
  have hlen : ids.length ≤ t.nodes.length := nodup_length_le hnd (rep_ids_lt hrep)
  obtain ⟨lid, hdesc, hmemlv, hscan, hdup⟩ :=
    search_master hrep key t.nodes.length trivial trivial hlen
  have hdesc2 : descend t key t.nodes.length t.root = lid := hdesc
  show scanLeaf key (t.get (descend t key t.nodes.length t.root)).keys
      (t.get (descend t key t.nodes.length t.root)).values = dictLookup kvs key
  rw [hdesc2]
  exact hscan

lemma root_empty_cases {t : BPlusTree} {kvs : List (Int × Int)} {lv ids : List Nat}
    (hrep : RepF t [t.root] none [] none kvs lv ids)
    (hk : (t.get t.root).keys = []) :
    kvs = [] ∧ (t.get t.root).values = [] ∧ (t.get t.root).is_leaf_node = true ∧
    t.root < t.nodes.length ∧ lv = [t.root] := by
  cases hrep with
  | leaf nid lo hi kvs hnid hleaf hkeys hvals hsorted hbnd =>
    have hkv : kvs.map Prod.fst = [] := by rw [← hkeys, hk]
    have hkv2 : kvs = [] := List.map_eq_nil.mp hkv
    refine ⟨hkv2, ?_, hleaf, hnid, rfl⟩
    rw [hvals, hkv2]
    rfl
  | node nid lo hi cs seps kvs lv ids hnid hleaf hkeys hne hch hpar hF =>
    exact absurd (hkeys.symm.trans hk) hne

lemma tree_insert_dup {t : BPlusTree} {kvs : List (Int × Int)} (h : TreeWF t kvs)
    (key : Int) (vopt : Option Int) (hmem : key ∈ kvs.map Prod.fst) :
    t.insert key vopt = (false, t) := by
  obtain ⟨lv, ids, hrep, hnd, hpar, hchain⟩ := h
  have hlen : ids.length ≤ t.nodes.length := nodup_length_le hnd (rep_ids_lt hrep)
  obtain ⟨lid, hdesc, hmemlv, hscan, hdup⟩ :=
    search_master hrep key t.nodes.length trivial trivial hlen
  have hdesc2 : descend t key t.nodes.length t.root = lid := hdesc
  have hne : (t.get t.root).keys ≠ [] := by
    intro hk
    obtain ⟨hkv, h2, h3, h4, h5⟩ := root_empty_cases hrep hk
    rw [hkv] at hmem
    simp at hmem
  have hins : Leaf.insert_key_and_value (t.get (descend t key t.nodes.length t.root)).keys
      (t.get (descend t key t.nodes.length t.root)).values key (vopt.getD key) = none := by
    rw [hdesc2]
    show (if (t.get lid).keys.get? (leafPos key (t.get lid).keys) = some key then none
          else some (pyInsertIdx (t.get lid).keys (leafPos key (t.get lid).keys) key,
                     pyInsertIdx (t.get lid).values (leafPos key (t.get lid).keys)
                       (vopt.getD key))) = none
    rw [if_pos (hdup.mpr hmem)]
  have hstep : t.insert key vopt =
      match Leaf.insert_key_and_value (t.get (descend t key t.nodes.length t.root)).keys
          (t.get (descend t key t.nodes.length t.root)).values key (vopt.getD key) with
      | none => (false, t)
      | some (ks, vs) =>
          (true,
           if ((t.setNode (descend t key t.nodes.length t.root)
                 { t.get (descend t key t.nodes.length t.root) with
                     keys := ks, values := vs }).get
                 (descend t key t.nodes.length t.root)).is_full then
             BPlusTree.split_node
               (t.setNode (descend t key t.nodes.length t.root)
                 { t.get (descend t key t.nodes.length t.root) with
                     keys := ks, values := vs })
               (descend t key t.nodes.length t.root)
               (t.setNode (descend t key t.nodes.length t.root)
                 { t.get (descend t key t.nodes.length t.root) with
                     keys := ks, values := vs }).nodes.length
           else
             t.setNode (descend t key t.nodes.length t.root)
               { t.get (descend t key t.nodes.length t.root) with
                   keys := ks, values := vs }) := by
    show (if (t.get t.root).keys = [] then _ else _) = _
    rw [if_neg hne]
  rw [hstep, hins]

set_option maxHeartbeats 800000 in
lemma tree_insert_new {t : BPlusTree} {kvs : List (Int × Int)} (h : TreeWF t kvs)
    (key : Int) (vopt : Option Int) (hnot : key ∉ kvs.map Prod.fst) :
    (t.insert key vopt).1 = true ∧
    TreeWF (t.insert key vopt).2 (sortedInsertKV kvs key (vopt.getD key)) := by
  obtain ⟨lv, ids, hrep, hnd, hpar, hchain⟩ := h
  have hlen : ids.length ≤ t.nodes.length := nodup_length_le hnd (rep_ids_lt hrep)
  by_cases hk : (t.get t.root).keys = []
  · obtain ⟨hkv, hvals0, hleaf0, hrlt, hlveq⟩ := root_empty_cases hrep hk
    subst hkv
    have hres : t.insert key vopt =
        (true, t.setNode t.root
          { t.get t.root with keys := (t.get t.root).keys ++ [key],
                              values := (t.get t.root).values ++ [vopt.getD key] }) := by
      show (if (t.get t.root).keys = [] then _ else _) = _
      rw [if_pos hk]
    have hget : (t.setNode t.root
        { t.get t.root with keys := (t.get t.root).keys ++ [key],
                            values := (t.get t.root).values ++ [vopt.getD key] }).get
        t.root =
        { t.get t.root with keys := (t.get t.root).keys ++ [key],
                            values := (t.get t.root).values ++ [vopt.getD key] } :=
      get_setNode_self t t.root _ hrlt
    have hptr : (t.get t.root).pointer = none := by
      rw [hlveq] at hchain
      exact hchain
    have hgoal : TreeWF (t.setNode t.root
        { t.get t.root with keys := (t.get t.root).keys ++ [key],
                            values := (t.get t.root).values ++ [vopt.getD key] })
        [(key, vopt.getD key)] := by
      refine ⟨[t.root], [t.root], ?_, List.nodup_singleton _, ?_, ?_⟩
      · refine RepF.leaf t.root none none [(key, vopt.getD key)] ?_ ?_ ?_ ?_ ?_ ?_
        · rw [length_setNode]
          exact hrlt
        · rw [hget]
          exact hleaf0
        · rw [hget]
          show (t.get t.root).keys ++ [key] = [(key, vopt.getD key)].map Prod.fst
          rw [hk]
          rfl
        · rw [hget]
          show (t.get t.root).values ++ [vopt.getD key] = [(key, vopt.getD key)].map Prod.snd
          rw [hvals0]
          rfl
        · simp
        · intro k hk2
          exact ⟨trivial, trivial⟩
      · show ((t.setNode t.root
            { t.get t.root with keys := (t.get t.root).keys ++ [key],
                                values := (t.get t.root).values ++ [vopt.getD key] }).get
            t.root).parent = none
        rw [hget]
        exact hpar
      · show ((t.setNode t.root
            { t.get t.root with keys := (t.get t.root).keys ++ [key],
                                values := (t.get t.root).values ++ [vopt.getD key] }).get
            t.root).pointer = none
        rw [hget]
        exact hptr
    exact ⟨by rw [hres], by rw [hres]; exact hgoal⟩
  · obtain ⟨lid, ks, vs, hdesc, hins, hout⟩ :=
      insert_master hrep key (vopt.getD key) none t.nodes.length t.nodes.length trivial
        trivial hnot hnd hchain hlen hlen
    have hdesc2 : descend t key t.nodes.length t.root = lid := hdesc
    obtain ⟨lid', hdesc', hmemlv', hscan', hdup'⟩ :=
      search_master hrep key t.nodes.length trivial trivial hlen
    have hlid : lid = lid' := hdesc.symm.trans hdesc'
    have hlidlt : lid < t.nodes.length := by
      rw [hlid]
      exact rep_ids_lt hrep lid' ((rep_lv_sublist hrep).subset hmemlv')
    have hstep : t.insert key vopt =
        match Leaf.insert_key_and_value (t.get (descend t key t.nodes.length t.root)).keys
            (t.get (descend t key t.nodes.length t.root)).values key (vopt.getD key) with
        | none => (false, t)
        | some (ks, vs) =>
            (true,
             if ((t.setNode (descend t key t.nodes.length t.root)
                   { t.get (descend t key t.nodes.length t.root) with
                       keys := ks, values := vs }).get
                   (descend t key t.nodes.length t.root)).is_full then
               BPlusTree.split_node
                 (t.setNode (descend t key t.nodes.length t.root)
                   { t.get (descend t key t.nodes.length t.root) with
                       keys := ks, values := vs })
                 (descend t key t.nodes.length t.root)
                 (t.setNode (descend t key t.nodes.length t.root)
                   { t.get (descend t key t.nodes.length t.root) with
                       keys := ks, values := vs }).nodes.length
             else
               t.setNode (descend t key t.nodes.length t.root)
                 { t.get (descend t key t.nodes.length t.root) with
                     keys := ks, values := vs }) := by
      show (if (t.get t.root).keys = [] then _ else _) = _
      rw [if_neg hk]
    have hful : ((t.setNode lid { t.get lid with keys := ks, values := vs }).get lid).is_full
        = decide (4 ≤ ks.length) := by
      rw [get_setNode_self t lid _ hlidlt]
      rfl
    have hres : t.insert key vopt =
        (true, if 4 ≤ ks.length then
            BPlusTree.split_node (t.setNode lid { t.get lid with keys := ks, values := vs })
              lid t.nodes.length
          else t.setNode lid { t.get lid with keys := ks, values := vs }) := by
      rw [hstep, hdesc2, hins]
      show (true,
          if ((t.setNode lid { t.get lid with keys := ks, values := vs }).get lid).is_full
          then
            BPlusTree.split_node
              (t.setNode lid { t.get lid with keys := ks, values := vs }) lid
              (t.setNode lid { t.get lid with keys := ks, values := vs }).nodes.length
          else t.setNode lid { t.get lid with keys := ks, values := vs }) = _
      rw [hful, length_setNode]
      by_cases h4 : 4 ≤ ks.length
      · rw [if_pos (decide_eq_true h4), if_pos h4]
      · rw [if_neg (fun hc : decide _ = true => h4 (of_decide_eq_true hc)), if_neg h4]
    have hgoal : TreeWF (if 4 ≤ ks.length then
          BPlusTree.split_node (t.setNode lid { t.get lid with keys := ks, values := vs })
            lid t.nodes.length
        else t.setNode lid { t.get lid with keys := ks, values := vs })
        (sortedInsertKV kvs key (vopt.getD key)) := by
      rcases hout with
        ⟨lv2, ids2, hrepV, hndV, hmemV, hchainV, hheadV, hlenV, hrootV, hframeV, hparV⟩ |
        ⟨T1, fuel1, cc, lo2, hi2, kvsc, lvc, idsc, csL, csR, sepsL, sepsR, kvsL, kvsR,
          lvL, lvR, idsL, idsR, hVeq2, hcseq, hsepseq, hSL, hSR, hov, hkvseq, hchainT,
          hheadT, hndT, hmemT, hlenT, hrootT, hframeT, hparT, hfuelT⟩
      · refine ⟨lv2, ids2, ?_, hndV, ?_, hchainV⟩
        · rw [hrootV]
          exact hrepV
        · rw [hrootV, hparV t.root (List.mem_singleton_self t.root)]
          exact hpar
      · obtain ⟨hcsL0, hccc, hcsR0⟩ : csL = [] ∧ cc = t.root ∧ csR = [] := by
          cases csL with
          | nil =>
            rw [List.nil_append] at hcseq
            injection hcseq with hA hB
            exact ⟨rfl, hA.symm, hB.symm⟩
          | cons x xs =>
            rw [List.cons_append] at hcseq
            injection hcseq with hA hB
            exact absurd hB.symm (by simp)
        subst hcsL0
        subst hcsR0
        subst hccc
        have hsepsL0 : sepsL = [] := (List.append_eq_nil.mp hsepseq.symm).1
        have hsepsR0 : sepsR = [] := (List.append_eq_nil.mp hsepseq.symm).2
        subst hsepsL0
        subst hsepsR0
        rcases hSL with ⟨hA1, hB1, hlo2eq, hkvsL0, hlvL0, hidsL0⟩ |
          ⟨seps0, sx, hseq, hC1, hD1, hE1⟩
        swap
        · exact absurd hseq.symm (by simp)
        subst hkvsL0
        subst hlvL0
        subst hidsL0
        subst hlo2eq
        rcases hSR with ⟨hA2, hB2, hhi2eq, hkvsR0, hlvR0, hidsR0⟩ |
          ⟨seps1, sx, hseq2, hC2, hD2, hE2⟩
        swap
        · exact absurd hseq2 (by simp)
        subst hkvsR0
        subst hlvR0
        subst hidsR0
        subst hhi2eq
        have hkvscx : kvsc = sortedInsertKV kvs key (vopt.getD key) := by
          rw [hkvseq]
          simp
        have hchainT2 : chainSeg T1 lvc none := by
          have hx := hchainT
          simp only [List.nil_append, List.append_nil] at hx
          exact hx
        have hndT2 : idsc.Nodup := by
          have hx := hndT
          simp only [List.nil_append, List.append_nil] at hx
          exact hx
        have hfuel1pos : 1 ≤ fuel1 := by omega
        obtain ⟨s, kvs1, kvs2, lv1, lv2, ids1, ids2, hs, hrep1, hrep2, hkvsplit, hlbs,
          hubs, hperm, hchainS, hheadS, hframeS, hlenS, hrootS, hparS1, hparS2⟩ :=
          surgery hov hndT2 hchainT2
        cases fuel1 with
        | zero => omega
        | succ f1 =>
          have hparT2 : (T1.get t.root).parent = none := by
            rw [hparT t.root (List.mem_singleton_self t.root)]
            exact hpar
          rw [hVeq2, split_node_succ]
          rw [show ((splitStep T1 t.root).1.get t.root).parent = none from by
                rw [hparS1]
                exact hparT2]
          show TreeWF (splitNewRoot (splitStep T1 t.root).1 t.root T1.nodes.length
            (splitStep T1 t.root).2) (sortedInsertKV kvs key (vopt.getD key))
          rw [hs]
          rw [show sortedInsertKV kvs key (vopt.getD key) = kvs1 ++ kvs2 from by
                rw [← hkvscx]
                exact hkvsplit]
          have hndRhs : (idsc ++ [T1.nodes.length]).Nodup := by
            rw [List.nodup_append]
            refine ⟨hndT2, List.nodup_singleton _, ?_⟩
            intro a ha hmem
            rw [List.mem_singleton] at hmem
            have := overfull_ids_lt hov a ha
            omega
          have hndS : (ids1 ++ ids2).Nodup := (hperm.nodup_iff).mpr hndRhs
          exact newRoot_wf hrep1 hrep2 hndS hchainS
    exact ⟨by rw [hres], by rw [hres]; exact hgoal⟩

lemma init_wf : TreeWF BPlusTree.init [] := by
  refine ⟨[0], [0], ?_, List.nodup_singleton 0, rfl, rfl⟩
  refine RepF.leaf 0 none none [] ?_ ?_ ?_ ?_ ?_ ?_
  · exact Nat.one_pos
  · rfl
  · rfl
  · rfl
  · exact List.Pairwise.nil
  · intro k hk
    simp at hk

lemma absInsert_mem (a : List (Int × Int)) (key value : Int)
    (h : key ∈ a.map Prod.fst) : absInsert a key value = a := by
  unfold absInsert
  rw [if_pos h]

lemma absInsert_not_mem (a : List (Int × Int)) (key value : Int)
    (h : key ∉ a.map Prod.fst) : absInsert a key value = sortedInsertKV a key value := by
  unfold absInsert
  rw [if_neg h]

lemma insertAll_wf_aux :
    ∀ (inputs : List (Int × Int)) (t : BPlusTree) (kvs : List (Int × Int)),
    TreeWF t kvs →
    TreeWF (insertAll t inputs) (inputs.foldl (fun a p => absInsert a p.1 p.2) kvs) := by
  intro inputs
  induction inputs with
  | nil =>
    intro t kvs h
    exact h
  | cons p rest ih =>
    intro t kvs h
    show TreeWF (insertAll ((t.insert p.1 (some p.2)).2) rest)
      (rest.foldl (fun a p => absInsert a p.1 p.2) (absInsert kvs p.1 p.2))
    by_cases hmem : p.1 ∈ kvs.map Prod.fst
    · have hd := tree_insert_dup h p.1 (some p.2) hmem
      rw [show (t.insert p.1 (some p.2)).2 = t from by rw [hd]]
      rw [absInsert_mem kvs p.1 p.2 hmem]
      exact ih t kvs h
    · have hn := tree_insert_new h p.1 (some p.2) hmem
      rw [absInsert_not_mem kvs p.1 p.2 hmem]
      exact ih _ _ hn.2
    
lemma insertAll_wf (inputs : List (Int × Int)) :
    TreeWF (insertAll BPlusTree.init inputs) (absOf inputs) :=
  insertAll_wf_aux inputs BPlusTree.init [] init_wf

lemma absFold_lookup_other :
    ∀ (inputs a : List (Int × Int)) (k : Int), k ∉ inputs.map Prod.fst →
    dictLookup (inputs.foldl (fun a p => absInsert a p.1 p.2) a) k = dictLookup a k := by
  intro inputs
  induction inputs with
  | nil =>
    intro a k h
    rfl
  | cons p rest ih =>
    intro a k h
    rw [List.map_cons, List.mem_cons] at h
    push_neg at h
    show dictLookup (rest.foldl (fun a p => absInsert a p.1 p.2) (absInsert a p.1 p.2)) k
      = dictLookup a k
    rw [ih (absInsert a p.1 p.2) k h.2]
    by_cases hm : p.1 ∈ a.map Prod.fst
    · rw [absInsert_mem a p.1 p.2 hm]
    · rw [absInsert_not_mem a p.1 p.2 hm]
      exact dictLookup_sortedInsertKV_other a p.1 p.2 k h.1
    
lemma absFold_lookup_mem :
    ∀ (inputs a : List (Int × Int)) (k v : Int),
    (inputs.map Prod.fst).Nodup →
    (∀ k2 ∈ inputs.map Prod.fst, k2 ∉ a.map Prod.fst) →
    (k, v) ∈ inputs →
    dictLookup (inputs.foldl (fun a p => absInsert a p.1 p.2) a) k = some v := by
  intro inputs
  induction inputs with
  | nil =>
    intro a k v hnd hdisj hmem
    simp at hmem
  | cons p rest ih =>
    intro a k v hnd hdisj hmem
    rw [List.map_cons, List.nodup_cons] at hnd
    rcases List.mem_cons.mp hmem with he | hr
    · have hknotina : k ∉ a.map Prod.fst := by
        refine hdisj k ?_
        rw [List.map_cons, ← he]
        exact List.mem_cons_self _ _
      have hknotinrest : k ∉ rest.map Prod.fst := by
        intro hx
        rw [← he] at hnd
        exact hnd.1 hx
      show dictLookup (rest.foldl (fun a p => absInsert a p.1 p.2) (absInsert a p.1 p.2)) k
        = some v
      rw [absFold_lookup_other rest _ k hknotinrest]
      rw [show absInsert a p.1 p.2 = absInsert a k v from by rw [← he]]
      rw [absInsert_not_mem a k v hknotina]
      exact dictLookup_sortedInsertKV_self a k v hknotina
    · show dictLookup (rest.foldl (fun a p => absInsert a p.1 p.2) (absInsert a p.1 p.2)) k
        = some v
      refine ih (absInsert a p.1 p.2) k v hnd.2 ?_ hr
      intro k2 hk2 hk2in
      have hk2cons : k2 ∈ (p :: rest).map Prod.fst := by
        rw [List.map_cons]
        exact List.mem_cons_of_mem _ hk2
      by_cases hm : p.1 ∈ a.map Prod.fst
      · rw [absInsert_mem a p.1 p.2 hm] at hk2in
        exact hdisj k2 hk2cons hk2in
      · rw [absInsert_not_mem a p.1 p.2 hm] at hk2in
        rcases (mem_sortedInsertKV_fst a p.1 p.2 k2).mp hk2in with h1 | h1
        · exact hnd.1 (h1 ▸ hk2)
        · exact hdisj k2 hk2cons h1

lemma absOf_lookup_mem (inputs : List (Int × Int)) (k v : Int)
    (hnd : (inputs.map Prod.fst).Nodup) (hmem : (k, v) ∈ inputs) :
    dictLookup (absOf inputs) k = some v :=
  absFold_lookup_mem inputs [] k v hnd (fun k2 h1 h2 => by simp at h2) hmem

lemma absOf_lookup_not_mem (inputs : List (Int × Int)) (k : Int)
    (h : k ∉ inputs.map Prod.fst) : dictLookup (absOf inputs) k = none :=
  (absFold_lookup_other inputs [] k h).trans rfl

lemma absFold_keys_mem :
    ∀ (inputs a : List (Int × Int)) (k : Int),
    k ∈ ((inputs.foldl (fun a p => absInsert a p.1 p.2) a).map Prod.fst) ↔
      (k ∈ a.map Prod.fst ∨ k ∈ inputs.map Prod.fst) := by
  intro inputs
  induction inputs with
  | nil =>
    intro a k
    simp
  | cons p rest ih =>
    intro a k
    show k ∈ ((rest.foldl (fun a p => absInsert a p.1 p.2) (absInsert a p.1 p.2)).map
        Prod.fst) ↔ _
    rw [ih (absInsert a p.1 p.2) k, List.map_cons, List.mem_cons]
    by_cases hm : p.1 ∈ a.map Prod.fst
    · rw [absInsert_mem a p.1 p.2 hm]
      constructor
      · intro hx
        tauto
      · intro hx
        rcases hx with hx | hx | hx
        · exact Or.inl hx
        · exact Or.inl (hx ▸ hm)
        · exact Or.inr hx
    · rw [absInsert_not_mem a p.1 p.2 hm, mem_sortedInsertKV_fst]
      tauto

lemma absFold_keys_sorted :
    ∀ (inputs a : List (Int × Int)),
    (a.map Prod.fst).Pairwise (· < ·) →
    (((inputs.foldl (fun a p => absInsert a p.1 p.2) a)).map Prod.fst).Pairwise (· < ·) := by
  intro inputs
  induction inputs with
  | nil =>
    intro a h
    exact h
  | cons p rest ih =>
    intro a h
    show (((rest.foldl (fun a p => absInsert a p.1 p.2) (absInsert a p.1 p.2))).map
        Prod.fst).Pairwise (· < ·)
    refine ih (absInsert a p.1 p.2) ?_
    by_cases hm : p.1 ∈ a.map Prod.fst
    · rw [absInsert_mem a p.1 p.2 hm]
      exact h
    · rw [absInsert_not_mem a p.1 p.2 hm]
      exact sortedInsertKV_sorted a p.1 p.2 h hm

lemma chainKeys_none (t : BPlusTree) (fuel : Nat) : chainKeys t fuel none = [] := by
  cases fuel with
  | zero => rfl
  | succ f => rfl

lemma chainKeys_of_chainSeg {t : BPlusTree} :
    ∀ (lv : List Nat) (fuel : Nat), chainSeg t lv none → lv.length ≤ fuel →
    chainKeys t fuel (nextHead lv none) = (lv.map (fun l => (t.get l).keys)).flatten := by
  intro lv
  induction lv with
  | nil =>
    intro fuel hc hf
    show chainKeys t fuel none = []
    exact chainKeys_none t fuel
  | cons l rest ih =>
    intro fuel hc hf
    cases fuel with
    | zero => simp at hf
    | succ f =>
      show chainKeys t (f + 1) (some l) = ((l :: rest).map (fun l => (t.get l).keys)).flatten
      rw [show chainKeys t (f + 1) (some l)
            = (t.get l).keys ++ chainKeys t f (t.get l).pointer from rfl]
      rw [List.map_cons, List.flatten_cons]
      congr 1
      cases rest with
      | nil =>
        have hptr : (t.get l).pointer = none := hc
        rw [hptr, chainKeys_none]
        rfl
      | cons l2 rest2 =>
        obtain ⟨hptr, hrest⟩ := hc
        rw [hptr]
        have hx := ih f hrest (by rw [List.length_cons] at hf; omega)
        rw [show nextHead (l2 :: rest2) none = some l2 from rfl] at hx
        exact hx

lemma rep_leftmost {t : BPlusTree} {cs : List Nat} {lo : Option Int} {seps : List Int}
    {hi : Option Int} {kvs : List (Int × Int)} {lv ids : List Nat}
    (h : RepF t cs lo seps hi kvs lv ids) :
    ∀ fuel, ids.length ≤ fuel → leftmostLeaf t fuel (cs.getD 0 0) = lv.headD 0 := by
  induction h with
  | leaf nid lo hi kvs hnid hleaf hkeys hvals hsorted hbnd =>
    intro fuel hfuel
    cases fuel with
    | zero => simp at hfuel
    | succ f =>
      show (if (t.get nid).is_leaf_node then nid
            else leftmostLeaf t f ((t.get nid).children.getD 0 0)) = nid
      rw [if_pos hleaf]
  | node nid lo hi cs seps kvs lv ids hnid hleaf hkeys hne hch hpar hF ih =>
    intro fuel hfuel
    cases fuel with
    | zero => simp at hfuel
    | succ f =>
      have hleaf2 : (t.get nid).is_leaf_node = false := hleaf
      show (if (t.get nid).is_leaf_node then nid
            else leftmostLeaf t f ((t.get nid).children.getD 0 0)) = lv.headD 0
      rw [if_neg (by rw [hleaf2]; exact Bool.false_ne_true), hch]
      exact ih f (by rw [List.length_cons] at hfuel; omega)
  | consF c cs lo hi s seps kvs1 kvs2 lv1 lv2 ids1 ids2 hlos hshi h1 h2 hcs ih1 ih2 =>
    intro fuel hfuel
    have hlv1ne : lv1 ≠ [] := rep_lv_ne h1
    rw [headD_append _ _ _ hlv1ne]
    exact ih1 fuel (by rw [List.length_append] at hfuel; omega)

lemma rep_leaves_keys {t : BPlusTree} {cs : List Nat} {lo : Option Int} {seps : List Int}
    {hi : Option Int} {kvs : List (Int × Int)} {lv ids : List Nat}
    (h : RepF t cs lo seps hi kvs lv ids) :
    (lv.map (fun l => (t.get l).keys)).flatten = kvs.map Prod.fst := by
  induction h with
  | leaf nid lo hi kvs hnid hleaf hkeys hvals hsorted hbnd =>
    simp only [List.map_cons, List.map_nil, List.flatten_cons, List.flatten_nil,
      List.append_nil]
    exact hkeys
  | node nid lo hi cs seps kvs lv ids hnid hleaf hkeys hne hch hpar hF ih =>
    exact ih
  | consF c cs lo hi s seps kvs1 kvs2 lv1 lv2 ids1 ids2 hlos hshi h1 h2 hcs ih1 ih2 =>
    rw [List.map_append, List.flatten_append, ih1, ih2, List.map_append]

lemma leafChainKeys_wf {t : BPlusTree} {kvs : List (Int × Int)} (h : TreeWF t kvs) :
    leafChainKeys t = kvs.map Prod.fst := by
  obtain ⟨lv, ids, hrep, hnd, hpar, hchain⟩ := h
  have hlen : ids.length ≤ t.nodes.length := nodup_length_le hnd (rep_ids_lt hrep)
  have hlvnd : lv.Nodup := (rep_lv_sublist hrep).nodup hnd
  have hlvlen : lv.length ≤ t.nodes.length :=
    nodup_length_le hlvnd (fun x hx => rep_ids_lt hrep x ((rep_lv_sublist hrep).subset hx))
  have hlm : leftmostLeaf t t.nodes.length t.root = lv.headD 0 :=
    rep_leftmost hrep t.nodes.length hlen
  have hlvne : lv ≠ [] := rep_lv_ne hrep
  show chainKeys t t.nodes.length (some (leftmostLeaf t t.nodes.length t.root))
      = kvs.map Prod.fst
  rw [hlm, ← nextHead_of_ne lv none hlvne,
      chainKeys_of_chainSeg lv t.nodes.length hchain hlvlen]
  exact rep_leaves_keys hrep

/-- C1: for every sequence of pairs with pairwise-distinct keys inserted into a
fresh B+ tree, search on each inserted key returns exactly the value inserted
with it, and search on any key never inserted returns none. -/
theorem C1_insert_search_correct (inputs : List (Int × Int))
    (hnd : (inputs.map Prod.fst).Nodup) :
    (∀ p ∈ inputs, (insertAll BPlusTree.init inputs).search p.1 = some p.2) ∧
    (∀ k : Int, k ∉ inputs.map Prod.fst →
      (insertAll BPlusTree.init inputs).search k = none) := by
  have hwf := insertAll_wf inputs
  constructor
  · intro p hp
    rw [search_wf hwf p.1]
    exact absOf_lookup_mem inputs p.1 p.2 hnd hp
  · intro k hk
    rw [search_wf hwf k]
    exact absOf_lookup_not_mem inputs k hk

theorem C1_insert_search_correct_witness :
    (([(1, 10), (2, 20)] : List (Int × Int)).map Prod.fst).Nodup ∧
    (insertAll BPlusTree.init [(1, 10), (2, 20)]).search 1 = some 10 ∧
    (insertAll BPlusTree.init [(1, 10), (2, 20)]).search 3 = none :=
  ⟨by decide,
   (C1_insert_search_correct [(1, 10), (2, 20)] (by decide)).1 (1, 10)
     (by decide),
   (C1_insert_search_correct [(1, 10), (2, 20)] (by decide)).2 3 (by decide)⟩

/-- C3: after every sequence of inserts into a fresh B+ tree, concatenating the
leaf key sequences along the chain from the leftmost leaf yields the inserted
keys in strictly ascending order with no duplicates: the traversal is sorted
strictly, and a key occurs in it exactly when it occurs in the input
sequence. -/
theorem C3_leaf_chain_sorted_complete (inputs : List (Int × Int)) :
    (leafChainKeys (insertAll BPlusTree.init inputs)).Pairwise (· < ·) ∧
    (∀ k : Int, k ∈ leafChainKeys (insertAll BPlusTree.init inputs) ↔
      k ∈ inputs.map Prod.fst) := by
  have hwf := insertAll_wf inputs
  have hchain := leafChainKeys_wf hwf
  constructor
  · rw [hchain]
    exact absFold_keys_sorted inputs [] List.Pairwise.nil
  · intro k
    rw [hchain]
    have hx := absFold_keys_mem inputs [] k
    constructor
    · intro hy
      rcases hx.mp hy with h1 | h1
      · simp at h1
      · exact h1
    · intro hy
      exact hx.mpr (Or.inr hy)

/-- C6: re-inserting a key already stored returns false and leaves the state
unchanged, for both structures: a well-formed B+ tree whose contents contain
the key is returned as-is with result false, and a reachable hash table
already holding the key is returned as-is with result false. -/
theorem C6_reinsert_unchanged :
    (∀ (t : BPlusTree) (kvs : List (Int × Int)) (key : Int) (vopt : Option Int),
        TreeWF t kvs → key ∈ kvs.map Prod.fst → t.insert key vopt = (false, t)) ∧
    (∀ (c gd0 : Nat) (S : ExtendibleHash) (k v : Int),
        Reachable c gd0 S → k ∈ (allItems S).map Prod.fst →
        S.insert k v = (false, S)) :=
  ⟨fun t kvs key vopt h hmem => tree_insert_dup h key vopt hmem,
   fun c gd0 S k v hR hk => hash_insert_mem_unchanged c gd0 S k v hR hk⟩

theorem C6_reinsert_unchanged_witness :
    TreeWF (insertAll BPlusTree.init [(1, 5)]) (absOf [(1, 5)]) ∧
    (1 : Int) ∈ (absOf [(1, 5)]).map Prod.fst ∧
    (insertAll BPlusTree.init [(1, 5)]).insert 1 (some 7)
      = (false, insertAll BPlusTree.init [(1, 5)]) ∧
    (0 : Int) ∈ (allItems (((ExtendibleHash.init 2 1 []).insert 0 0).2)).map Prod.fst ∧
    (((ExtendibleHash.init 2 1 []).insert 0 0).2).insert 0 9
      = (false, ((ExtendibleHash.init 2 1 []).insert 0 0).2) :=
  ⟨insertAll_wf [(1, 5)], by decide,
   C6_reinsert_unchanged.1 (insertAll BPlusTree.init [(1, 5)]) (absOf [(1, 5)]) 1 (some 7)
     (insertAll_wf [(1, 5)]) (by decide),
   by decide,
   C6_reinsert_unchanged.2 2 1 (((ExtendibleHash.init 2 1 []).insert 0 0).2) 0 9
     (Reachable.step _ 0 0 (Reachable.init [] (fun m => rfl))) (by decide)⟩
